import Mathlib

/-! # Type information store and inference-table population pass (xls/dslx)

A shallow embedding of

* `xls/dslx/type_system/type_info.h`: `TypeInfoOwner`, the arena that owns every
  `TypeInfo`, and `TypeInfo`, the per-scope store of deduced types with a parent link;
* `xls/dslx/type_system_v2/typecheck_module_v2.cc`: `PopulateInferenceTableVisitor`,
  the pass that fills an `InferenceTable` from the AST, and `TypecheckModuleV2`, which
  runs the pass and hands its table to the resolution phase.
* `xls/contrib/mlir/transforms/xls_lower.cc`: `XlsLowerPassPipeline`, the list of
  passes the lowering pipeline adds to a pass manager.

Pointers become addresses (`Nat`): a `TypeInfo*` is the index of the object in the
owner's `type_infos_`, `nullptr` is `none`. Hash maps become finite-support functions
`K → Option V`. Every member function of `TypeInfo` takes the owner (the heap holding
all `TypeInfo` objects) and the address of `this`. The sources of `type_info.cc`,
`ast.h`, `inference_table.h` and `type_annotation_utils.h` are not at hand: what is used
of them is modelled from the specification or taken as a parameter, and says so.
-/

namespace xls.dslx

/-! ## Addresses and collaborator types -/

/-- Address of a `Module` object (`Module*`). -/
abbrev ModulePtr := Nat

/-- Address of an AST node (`AstNode*`). -/
abbrev NodeId := Nat

/-- Address of a `TypeInfo` object: its index in `TypeInfoOwner::type_infos_`. -/
abbrev TypeInfoPtr := Nat

/-- Address of a `Function` object (`const Function*`). -/
abbrev FunctionPtr := Nat

/-- Address of a `Proc` object (`const Proc*`). -/
abbrev ProcPtr := Nat

/-- A `const AstNode*` as `TypeInfo` sees it: the address of the node together with the
module that `key->owner()` answers. -/
structure AstNodePtr where
  addr : NodeId
  owner : ModulePtr
deriving DecidableEq, Repr

/-- Modelled from the spec: `interp_value.h` is missing; an evaluated constant value. -/
abbrev InterpValue := Int

/-- Modelled from the spec: `parametric_env.h` is missing; "ordered mapping from
parameter name to a concrete value, compared and hashed by full content". -/
abbrev ParametricEnv := List (String × InterpValue)

/-- Modelled from the spec: `concrete_type.h` is missing; the variant tags of the
"tagged union over {bit-vector, tuple, struct, function, array, token, and
parametric-placeholder}". -/
inductive TypeVariant where
  | BitVector
  | Tuple
  | Struct
  | Function
  | Array
  | Token
  | ParametricPlaceholder
deriving DecidableEq, Repr

/-- Modelled from the spec: `concrete_type.h` is missing; a concrete type is its variant
tag and the contents of that variant (encoded as a number). -/
structure ConcreteType where
  variant : TypeVariant
  payload : Nat
deriving DecidableEq, Repr

/-- The clone made by `ConcreteType::CloneToUnique`: an equal value, separately owned. -/
def ConcreteType.CloneToUnique (t : ConcreteType) : ConcreteType := t

/-- Error kinds of the spec (section 7). `absl::NotFoundError` is `NotFound`,
`absl::FailedPreconditionError` is `TypeMismatch`. `NotRoot` is the failure of
`XLS_CHECK(IsRoot())`, the "programming error" of the spec's invariant 3. -/
inductive ErrorKind where
  | DuplicateRoot
  | NotFound
  | TypeMismatch
  | ReferentialIntegrityViolation
  | UnificationFailure
  | OwnershipViolation
  | NotRoot
deriving DecidableEq, Repr

/-- How a call ends.
* `value a`: it returns `a` to the caller (for a `void` member function, the heap after
  the call; for `absl::StatusOr`, the OK payload);
* `status e`: it returns the non-OK `absl::Status` `e` to the caller;
* `check_failure e`: an `XLS_CHECK` fails, the process aborts and nothing is returned;
* `undefined`: no defined behaviour, the call dereferences an address that holds no
  object or walks a parent chain that never ends; also an ending that the code at
  hand does not determine. -/
inductive Outcome (α : Type) where
  | value (a : α)
  | status (e : ErrorKind)
  | check_failure (e : ErrorKind)
  | undefined

/-- Whether the call returned a value to its caller. -/
def Outcome.isValue {α : Type} : Outcome α → Bool
  | .value _ => true
  | _ => false

/-- Carries every ending that is not a value through unchanged. -/
def Outcome.andThen {α β : Type} (r : Outcome α) (f : α → Outcome β) : Outcome β :=
  match r with
  | .value a => f a
  | .status e => .status e
  | .check_failure e => .check_failure e
  | .undefined => .undefined

/-! ## `type_info.h` data -/

/-- Struct `ImportedInfo`. -/
structure ImportedInfo where
  module : ModulePtr
  type_info : TypeInfoPtr
deriving DecidableEq, Repr

/-- Struct `StartAndWidth`. -/
structure StartAndWidth where
  start : Int
  width : Int
deriving DecidableEq, Repr

/-- Struct `SliceData`. -/
structure SliceData where
  node : NodeId
  bindings_to_start_width : ParametricEnv → Option StartAndWidth

/-- Struct `InvocationCalleeData`. -/
structure InvocationCalleeData where
  callee_bindings : ParametricEnv
  derived_type_info : TypeInfoPtr
deriving DecidableEq, Repr

/-- Struct `InvocationData`; `caller` is `none` for an invocation at the top level. -/
structure InvocationData where
  node : NodeId
  caller : Option FunctionPtr
  env_to_callee_data : ParametricEnv → Option InvocationCalleeData

/-- Class `TypeInfo`: the data members. -/
structure TypeInfo where
  module_ : ModulePtr
  dict_ : AstNodePtr → Option ConcreteType
  const_exprs_ : AstNodePtr → Option (Option InterpValue)
  imports_ : NodeId → Option ImportedInfo
  invocations_ : NodeId → Option InvocationData
  slices_ : NodeId → Option SliceData
  requires_implicit_token_ : FunctionPtr → Option Bool
  top_level_proc_type_info_ : ProcPtr → Option TypeInfoPtr
  parent_ : Option TypeInfoPtr

/-- Modelled from the spec: the body of the constructor
`TypeInfo(Module* module, TypeInfo* parent = nullptr)` is in the missing `type_info.cc`.
A node is created for a module with an optional parent; nothing is recorded in it yet. -/
def TypeInfo.init (module : ModulePtr) (parent : Option TypeInfoPtr) : TypeInfo where
  module_ := module
  dict_ := fun _ => none
  const_exprs_ := fun _ => none
  imports_ := fun _ => none
  invocations_ := fun _ => none
  slices_ := fun _ => none
  requires_implicit_token_ := fun _ => none
  top_level_proc_type_info_ := fun _ => none
  parent_ := parent

/-- Class `TypeInfoOwner`: the data members. It is also the heap of `TypeInfo` objects. -/
structure TypeInfoOwner where
  module_to_root_ : ModulePtr → Option TypeInfoPtr
  type_infos_ : List TypeInfo

/-- A freshly constructed owner. -/
def TypeInfoOwner.empty : TypeInfoOwner where
  module_to_root_ := fun _ => none
  type_infos_ := []

/-- The object at address `t`, when there is one. -/
def TypeInfoOwner.deref (o : TypeInfoOwner) (t : TypeInfoPtr) : Option TypeInfo :=
  o.type_infos_[t]?

/-- Overwrites the object at address `t`. -/
def TypeInfoOwner.store (o : TypeInfoOwner) (t : TypeInfoPtr) (ti : TypeInfo) :
    TypeInfoOwner :=
  { o with type_infos_ := o.type_infos_.set t ti }

/-- The parent of every object lies at a smaller address than the object: a parent
exists before its child is created. -/
def TypeInfoOwner.ParentsPrecede (o : TypeInfoOwner) : Bool :=
  (List.range o.type_infos_.length).all fun t =>
    match o.deref t with
    | none => true
    | some ti =>
      match ti.parent_ with
      | none => true
      | some p => decide (p < t)

/-- Modelled from the spec: the body of `TypeInfoOwner::New` is in the missing
`type_info.cc`. "Fails when `parent` is absent and the module already has a registered
root. Otherwise allocates a new node, owns it for the arena's lifetime, and, if `parent`
is absent, registers it as the module's root." -/
def TypeInfoOwner.New (o : TypeInfoOwner) (module : ModulePtr)
    (parent : Option TypeInfoPtr) : Outcome (TypeInfoPtr × TypeInfoOwner) :=
  match parent with
  | none =>
    match o.module_to_root_ module with
    | some _ => .status .DuplicateRoot
    | none =>
      .value (o.type_infos_.length,
        { module_to_root_ := fun m =>
            if m = module then some o.type_infos_.length else o.module_to_root_ m
          type_infos_ := o.type_infos_ ++ [TypeInfo.init module none] })
  | some p =>
    .value (o.type_infos_.length,
      { o with type_infos_ := o.type_infos_ ++ [TypeInfo.init module (some p)] })

/-- Modelled from the spec: the body of `TypeInfoOwner::GetRootTypeInfo` is in the
missing `type_info.cc`. "Returns the previously registered root for a module", or a
not-found error. -/
def TypeInfoOwner.GetRootTypeInfo (o : TypeInfoOwner) (module : ModulePtr) :
    Outcome TypeInfoPtr :=
  match o.module_to_root_ module with
  | some t => .value t
  | none => .status .NotFound

/-! ## `TypeInfo` member functions -/

namespace TypeInfo

/-- The loop of `TypeInfo::GetRoot`, `while (t->parent_ != nullptr) t = t->parent_;`,
run for at most `fuel` objects. -/
def GetRootFuel (o : TypeInfoOwner) : Nat → TypeInfoPtr → Outcome TypeInfoPtr
  | 0, _ => .undefined
  | fuel + 1, t =>
    match o.deref t with
    | none => .undefined
    | some ti =>
      match ti.parent_ with
      | some p => GetRootFuel o fuel p
      | none => .value t

/-- `TypeInfo::GetRoot`. A chain that visits more objects than the heap holds repeats one
of them, so the loop never leaves it: the fuel is the number of objects. -/
def GetRoot (o : TypeInfoOwner) (self : TypeInfoPtr) : Outcome TypeInfoPtr :=
  GetRootFuel o o.type_infos_.length self

/-- `TypeInfo::IsRoot`: `this == GetRoot()`. -/
def IsRoot (o : TypeInfoOwner) (self : TypeInfoPtr) : Outcome Bool :=
  (GetRoot o self).andThen fun r => .value (decide (self = r))

/-- `TypeInfo::parent`. -/
def parent (o : TypeInfoOwner) (self : TypeInfoPtr) : Outcome (Option TypeInfoPtr) :=
  match o.deref self with
  | none => .undefined
  | some ti => .value ti.parent_

/-- The private accessor `TypeInfo::invocations`: `XLS_CHECK(IsRoot())`, then the map. -/
def invocations (o : TypeInfoOwner) (self : TypeInfoPtr) :
    Outcome (NodeId → Option InvocationData) :=
  (IsRoot o self).andThen fun is_root =>
    if is_root then
      match o.deref self with
      | none => .undefined
      | some ti => .value ti.invocations_
    else .check_failure .NotRoot

/-- `TypeInfo::GetRootInvocations`: `GetRoot()->invocations()`. -/
def GetRootInvocations (o : TypeInfoOwner) (self : TypeInfoPtr) :
    Outcome (NodeId → Option InvocationData) :=
  (GetRoot o self).andThen fun r => invocations o r

/-- `TypeInfo::SetItem`: `XLS_CHECK_EQ(key->owner(), module_)`, then
`dict_[key] = value.CloneToUnique()`. -/
def SetItem (o : TypeInfoOwner) (self : TypeInfoPtr) (key : AstNodePtr)
    (value : ConcreteType) : Outcome TypeInfoOwner :=
  match o.deref self with
  | none => .undefined
  | some ti =>
    if key.owner = ti.module_ then
      .value (o.store self
        { ti with dict_ := fun k => if k = key then some value.CloneToUnique else ti.dict_ k })
    else .check_failure .OwnershipViolation

/-- Modelled from the spec: the lookups of `types` and `const_exprs` are in the missing
`type_info.cc`. "Lookup that misses locally must delegate to the parent chain,
terminating at the root": `here` reads the local entry of one object (`none` when it has
no entry), `absent` is the answer when the root has none either. Run for at most `fuel`
objects. -/
def delegated {β : Type} (o : TypeInfoOwner) (here : TypeInfo → Option β) (absent : β) :
    Nat → TypeInfoPtr → Outcome β
  | 0, _ => .undefined
  | fuel + 1, self =>
    match o.deref self with
    | none => .undefined
    | some ti =>
      match here ti with
      | some b => .value b
      | none =>
        match ti.parent_ with
        | some p => delegated o here absent fuel p
        | none => .value absent

/-- Modelled from the spec: the body of `TypeInfo::GetItem` is in the missing
`type_info.cc`. `get_type(node) → optional<type>`, a read with parent-delegated
fallback. -/
def GetItem (o : TypeInfoOwner) (self : TypeInfoPtr) (key : AstNodePtr) :
    Outcome (Option ConcreteType) :=
  delegated o (fun ti => (ti.dict_ key).map some) none o.type_infos_.length self

/-- Modelled from the spec: the body of `TypeInfo::GetItemOrError` is in the missing
`type_info.cc`. `get_type_or_error(node) → type | not-found-error`. -/
def GetItemOrError (o : TypeInfoOwner) (self : TypeInfoPtr) (key : AstNodePtr) :
    Outcome ConcreteType :=
  (GetItem o self key).andThen fun t =>
    match t with
    | some ty => .value ty
    | none => .status .NotFound

/-- `TypeInfo::GetItemAs<T>`, with `T` the class of the variant `T`: not-found when
`GetItem` has no value, failed-precondition when `dynamic_cast<T*>` gives `nullptr`,
else the type. (`XLS_DCHECK(t.value() != nullptr)` cannot fail: `dict_` holds clones.) -/
def GetItemAs (T : TypeVariant) (o : TypeInfoOwner) (self : TypeInfoPtr)
    (key : AstNodePtr) : Outcome ConcreteType :=
  (GetItem o self key).andThen fun t =>
    match t with
    | none => .status .NotFound
    | some ty => if ty.variant = T then .value ty else .status .TypeMismatch

/-- Modelled from the spec: the body of `TypeInfo::NoteConstExpr` is in the missing
`type_info.cc`. The note "lives on this TypeInfo specifically": the value is stored in
the local `const_exprs_`. -/
def NoteConstExpr (o : TypeInfoOwner) (self : TypeInfoPtr) (const_expr : AstNodePtr)
    (value : InterpValue) : Outcome TypeInfoOwner :=
  match o.deref self with
  | none => .undefined
  | some ti =>
    .value (o.store self
      { ti with
        const_exprs_ := fun k => if k = const_expr then some (some value)
                                 else ti.const_exprs_ k })

/-- Modelled from the spec: the body of `TypeInfo::IsKnownConstExpr` is in the missing
`type_info.cc`. A local entry answers (true when it holds a value, false when it says
"known not constant"); an absent local entry defaults to the parent. -/
def IsKnownConstExpr (o : TypeInfoOwner) (self : TypeInfoPtr) (node : AstNodePtr) :
    Outcome Bool :=
  delegated o (fun ti => (ti.const_exprs_ node).map Option.isSome) false
    o.type_infos_.length self

/-- Modelled from the spec: the body of `TypeInfo::IsKnownNonConstExpr` is in the missing
`type_info.cc`. A local entry answers (true when it says "known not constant"); an
absent local entry defaults to the parent. -/
def IsKnownNonConstExpr (o : TypeInfoOwner) (self : TypeInfoPtr) (node : AstNodePtr) :
    Outcome Bool :=
  delegated o (fun ti => (ti.const_exprs_ node).map Option.isNone) false
    o.type_infos_.length self

/-- Modelled from the spec: the body of `TypeInfo::GetConstExpr` is in the missing
`type_info.cc`. `get_const_expr(node) → value | not-found-error`: the value of the first
entry on the parent chain, not-found when that entry says "known not constant" or when
no object of the chain has an entry. -/
def GetConstExpr (o : TypeInfoOwner) (self : TypeInfoPtr) (const_expr : AstNodePtr) :
    Outcome InterpValue :=
  (delegated o (fun ti => ti.const_exprs_ const_expr) none o.type_infos_.length self).andThen
    fun entry =>
      match entry with
      | some v => .value v
      | none => .status .NotFound

/-- Modelled from the spec: the body of `TypeInfo::AddInvocationTypeInfo` is in the
missing `type_info.cc`; its declaration, `void AddInvocationTypeInfo(...)`, is in
`type_info.h`. "Upserts the InvocationData for `invocation`, keyed by `caller_env`,
storing `(callee_env, derived_ti)`. If an InvocationData entry for this invocation with a
different recorded `caller_fn` already exists, fail with an internal-consistency error."
The data is held on the root of the tree. How the failure reaches the caller is in the
missing body: the spec names it ReferentialIntegrityViolation and has it returned as a
result value, the declaration returns `void`. The ending is therefore left open here:
`signal` is the way the body ends a call with an error of a given kind. -/
def AddInvocationTypeInfoWith (signal : ErrorKind → Outcome TypeInfoOwner)
    (o : TypeInfoOwner) (self : TypeInfoPtr) (invocation : NodeId)
    (caller : Option FunctionPtr) (caller_env callee_env : ParametricEnv)
    (derived_type_info : TypeInfoPtr) : Outcome TypeInfoOwner :=
  (GetRoot o self).andThen fun top =>
    match o.deref top with
    | none => .undefined
    | some root =>
      match root.invocations_ invocation with
      | none =>
        .value (o.store top
          { root with
            invocations_ := fun k =>
              if k = invocation then
                some { node := invocation
                       caller := caller
                       env_to_callee_data := fun e =>
                         if e = caller_env then some ⟨callee_env, derived_type_info⟩
                         else none }
              else root.invocations_ k })
      | some data =>
        if data.caller = caller then
          .value (o.store top
            { root with
              invocations_ := fun k =>
                if k = invocation then
                  some { data with
                         env_to_callee_data := fun e =>
                           if e = caller_env then some ⟨callee_env, derived_type_info⟩
                           else data.env_to_callee_data e }
                else root.invocations_ k })
        else signal .ReferentialIntegrityViolation

/-- Modelled from the spec: `TypeInfo::AddInvocationTypeInfo` (declared in `type_info.h`,
body in the missing `type_info.cc`) as `AddInvocationTypeInfoWith`, with the ending of
a call that meets an entry of a different caller left `undefined`: the spec has a result
value returned there, which the declared return type `void` excludes, and the body that
would settle it is missing. -/
def AddInvocationTypeInfo (o : TypeInfoOwner) (self : TypeInfoPtr) (invocation : NodeId)
    (caller : Option FunctionPtr) (caller_env callee_env : ParametricEnv)
    (derived_type_info : TypeInfoPtr) : Outcome TypeInfoOwner :=
  AddInvocationTypeInfoWith (fun _ => .undefined) o self invocation caller caller_env
    callee_env derived_type_info

end TypeInfo

/-! ## `typecheck_module_v2.cc`: collaborators of the population pass -/

/-- `absl::Status`. -/
inductive Status where
  | OkStatus
  | error (e : ErrorKind)
deriving DecidableEq, Repr

/-- Address of the `NameRef` that stands for an internal inference variable
(`const NameRef*`). -/
abbrev NameRefPtr := NodeId

/-- Modelled from the spec: `ast.h` is missing. A literal is "a boolean literal" or it is
not; the pass compares `number_kind()` with `NumberKind::kBool` only. -/
inductive NumberKind where
  | kBool
  | kOther
deriving DecidableEq, Repr

/-- Modelled from the spec: `inference_table.h` is missing. The kind handed to
`DefineInternalVariable`; the pass uses `kType` only. -/
inductive InferenceVariableKind where
  | kInteger
  | kBool
  | kType
deriving DecidableEq, Repr

/-- Modelled from the spec: `ast.h` is missing. What a type annotation says: explicit
syntax written by the user, a sized-to-fit integer type (signedness and width), the
boolean type, or a `TypeVariableTypeAnnotation` referring to an inference variable. -/
inductive AnnotationShape where
  | Written (text : Nat)
  | SizedToFit (is_signed : Bool) (width : Nat)
  | Boolean
  | TypeVariable (var : NameRefPtr)
deriving DecidableEq, Repr

/-- Modelled from the spec: `ast.h` is missing. A `TypeAnnotation*`: the address of the
annotation node and what the node says. The set `auto_literal_annotations_` holds such pointers, so two annotations that say the
same at different addresses are different members. -/
structure TypeAnnotation where
  addr : NodeId
  shape : AnnotationShape
deriving DecidableEq, Repr

/-- Modelled from the spec: `ast.h` is missing. What the pass uses of `Module&`: it
allocates nodes (`Make<T>`); `next_addr` is the address the next node gets. -/
structure Module where
  next_addr : NodeId
deriving DecidableEq, Repr

/-- Modelled from the spec: `ast.h` is missing. `Module::Make<T>` for an annotation
class: a new node at a new address. -/
def Module.Make (m : Module) (shape : AnnotationShape) : TypeAnnotation × Module :=
  (⟨m.next_addr, shape⟩, { next_addr := m.next_addr + 1 })

/-- Modelled from the spec: `ast.h` is missing. Class `Number`: its address, the
accessors `type_annotation()` and `number_kind()` the pass reads, and the value the
literal denotes. -/
structure Number where
  addr : NodeId
  type_annotation : Option TypeAnnotation
  number_kind : NumberKind
  value : Int
deriving DecidableEq, Repr

/-- Modelled from the spec: `ast.h` is missing. The AST by the node kinds the visitor
tells apart (`Other` is every kind it does not override). A pointer accessor (`name_def()`, `value()`) gives the address of the node it points to;
`children` is what `GetChildren(/*want_types=*/true)` enumerates, in order. -/
inductive AstNode where
  | ConstantDef (addr : NodeId) (identifier : String) (span : String) (name_def : NodeId)
      ( type_annotation : Option TypeAnnotation) (value : NodeId) (children : List AstNode)
  | ConstRef (addr : NodeId) (name_def : NodeId)
  | NameRef (addr : NodeId) (name_def : NodeId)
  | Number (node : Number)
  | Other (addr : NodeId) (children : List AstNode)

/-- Class `InferenceTable` of the missing `inference_table.h`, taken as a parameter: the
member functions the pass calls, over the table's state `σ`. A mutator gives its
result and the table after the call. -/
structure InferenceTable (σ : Type) where
  DefineInternalVariable :
    σ → InferenceVariableKind → NodeId → String → Except ErrorKind NameRefPtr × σ
  SetTypeVariable : σ → NodeId → NameRefPtr → Status × σ
  SetTypeAnnotation : σ → NodeId → TypeAnnotation → Status × σ
  GetTypeVariable : σ → NodeId → Option NameRefPtr
  GetTypeAnnotation : σ → NodeId → Option TypeAnnotation

/-- The type of `CreateAnnotationSizedToFit(Module&, const Number&)` of the missing
`type_annotation_utils.h`: `absl::StatusOr<TypeAnnotation*>`, and the module after. -/
abbrev SizedToFit := Module → Number → Except ErrorKind TypeAnnotation × Module

/-- Modelled from the spec: `type_annotation_utils.h` is missing. The first width from
`w` on, among the next `fuel`, that is "just large enough to hold" `v`. -/
def MinimalWidthFrom (v : Nat) : Nat → Nat → Nat
  | 0, w => w
  | fuel + 1, w => if v < 2 ^ w then w else MinimalWidthFrom v fuel (w + 1)

/-- Modelled from the spec: `type_annotation_utils.h` is missing. The width of the
"minimal-width annotation" for the natural number `v`: the widths 0, 1, 2, ... are tried
in turn (`v` bits always suffice). -/
def MinimalWidth (v : Nat) : Nat := MinimalWidthFrom v v 0

/-- Modelled from the spec: `type_annotation_utils.h` is missing. "Synthesize a
minimal-width annotation just large enough to hold its value"; a boolean literal gets the
boolean annotation; a negative value needs a sign bit. -/
def CreateAnnotationSizedToFit (module : Module) (number : Number) :
    Except ErrorKind TypeAnnotation × Module :=
  match number.number_kind with
  | .kBool =>
    let r := module.Make .Boolean
    (.ok r.1, r.2)
  | .kOther =>
    let r :=
      if number.value < 0 then
        module.Make (.SizedToFit true (MinimalWidth (-number.value - 1).toNat + 1))
      else module.Make (.SizedToFit false (MinimalWidth number.value.toNat))
    (.ok r.1, r.2)

/-- Modelled from the spec: `inference_table.h` is missing. The state of a table: "per
AST node, up to one type annotation and/or up to one internal inference-variable
reference", and the internal variables defined so far (kind, defining node and name of
each); a variable is named by its position in `defined`. -/
structure TableState where
  defined : List (InferenceVariableKind × NodeId × String)
  type_variable : NodeId → Option NameRefPtr
  annotations : NodeId → Option TypeAnnotation

/-- The table `InferenceTable::Create` gives: nothing recorded. -/
def TableState.Create : TableState where
  defined := []
  type_variable := fun _ => none
  annotations := fun _ => none

/-- Modelled from the spec: `inference_table.h` is missing. A table that records what it
is told and never refuses: `DefineInternalVariable` allocates the next variable, the
setters overwrite the entry of the node. -/
def TableState.ops : InferenceTable TableState where
  DefineInternalVariable := fun t kind definer name =>
    (.ok t.defined.length, { t with defined := t.defined ++ [(kind, definer, name)] })
  SetTypeVariable := fun t node var =>
    (.OkStatus,
      { t with type_variable := fun n => if n = node then some var else t.type_variable n })
  SetTypeAnnotation := fun t node a =>
    (.OkStatus,
      { t with annotations := fun n => if n = node then some a else t.annotations n })
  GetTypeVariable := fun t node => t.type_variable node
  GetTypeAnnotation := fun t node => t.annotations node

/-- What the pass relies on from a table: a setter that returns OK has recorded its
argument for the node and left the other nodes alone; setting an annotation never
touches a type variable and the reverse; defining a variable touches neither. -/
structure InferenceTable.Lawful {σ : Type} (T : InferenceTable σ) : Prop where
  get_set_annotation : ∀ t n a t1,
    T.SetTypeAnnotation t n a = (Status.OkStatus, t1) → T.GetTypeAnnotation t1 n = some a
  set_annotation_other : ∀ t n a t1 m,
    T.SetTypeAnnotation t n a = (Status.OkStatus, t1) → m ≠ n →
      T.GetTypeAnnotation t1 m = T.GetTypeAnnotation t m
  set_annotation_variable : ∀ t n a st t1 m,
    T.SetTypeAnnotation t n a = (st, t1) → T.GetTypeVariable t1 m = T.GetTypeVariable t m
  get_set_variable : ∀ t n v t1,
    T.SetTypeVariable t n v = (Status.OkStatus, t1) → T.GetTypeVariable t1 n = some v
  set_variable_other : ∀ t n v t1 m,
    T.SetTypeVariable t n v = (Status.OkStatus, t1) → m ≠ n →
      T.GetTypeVariable t1 m = T.GetTypeVariable t m
  set_variable_annotation : ∀ t n v st t1 m,
    T.SetTypeVariable t n v = (st, t1) → T.GetTypeAnnotation t1 m = T.GetTypeAnnotation t m
  define_variable : ∀ t k n s r t1 m,
    T.DefineInternalVariable t k n s = (r, t1) →
      T.GetTypeVariable t1 m = T.GetTypeVariable t m
  define_annotation : ∀ t k n s r t1 m,
    T.DefineInternalVariable t k n s = (r, t1) →
      T.GetTypeAnnotation t1 m = T.GetTypeAnnotation t m

/-! ## `PopulateInferenceTableVisitor` -/

/-- Class `PopulateInferenceTableVisitor`: the data members (`file_table_` only renders
spans, which are kept rendered). -/
structure PopulateInferenceTableVisitor (σ : Type) where
  module_ : Module
  table_ : σ
  auto_literal_annotations_ : Finset TypeAnnotation

namespace PopulateInferenceTableVisitor

variable {σ : Type}

/-- `GenerateInternalTypeVariableName`: `"internal_type_$0_at_$1"`. -/
def GenerateInternalTypeVariableName (identifier span : String) : String :=
  "internal_type_" ++ identifier ++ "_at_" ++ span

/-- `HandleNumber`. -/
def HandleNumber (T : InferenceTable σ) (fit : SizedToFit)
    (self : PopulateInferenceTableVisitor σ) (node : Number) :
    Status × PopulateInferenceTableVisitor σ :=
  match node.type_annotation with
  | some a =>
    let r := T.SetTypeAnnotation self.table_ node.addr a
    (r.1, { self with table_ := r.2 })
  | none =>
    match fit self.module_ node with
    | (.error e, m) => (.error e, { self with module_ := m })
    | (.ok a, m) =>
      let autos :=
        if node.number_kind ≠ NumberKind.kBool then insert a self.auto_literal_annotations_
        else self.auto_literal_annotations_
      let r := T.SetTypeAnnotation self.table_ node.addr a
      (r.1, { module_ := m, table_ := r.2, auto_literal_annotations_ := autos })

/-- `PropagateDefToRef`, for `ref` and the address `ref->name_def()` gives. -/
def PropagateDefToRef (T : InferenceTable σ) (self : PopulateInferenceTableVisitor σ)
    (ref : NodeId) (name_def : NodeId) : Status × PopulateInferenceTableVisitor σ :=
  match T.GetTypeVariable self.table_ name_def with
  | some var =>
    let made := self.module_.Make (.TypeVariable var)
    let r := T.SetTypeAnnotation self.table_ ref made.1
    (r.1, { self with module_ := made.2, table_ := r.2 })
  | none =>
    match T.GetTypeAnnotation self.table_ name_def with
    | some a =>
      let r := T.SetTypeAnnotation self.table_ ref a
      (r.1, { self with table_ := r.2 })
    | none => (.OkStatus, self)

/-- `HandleConstRef`. -/
def HandleConstRef (T : InferenceTable σ) (self : PopulateInferenceTableVisitor σ)
    (node : NodeId) (name_def : NodeId) : Status × PopulateInferenceTableVisitor σ :=
  PropagateDefToRef T self node name_def

/-- `HandleNameRef`. -/
def HandleNameRef (T : InferenceTable σ) (self : PopulateInferenceTableVisitor σ)
    (node : NodeId) (name_def : NodeId) : Status × PopulateInferenceTableVisitor σ :=
  PropagateDefToRef T self node name_def

/-- `HandleConstantDef`, up to its last statement: the variable is defined and set on
the node, on `name_def()` and on `value()`, then the declared type, when there is one, is
set as the annotation of `name_def()`. Each `XLS_RETURN_IF_ERROR` returns at the first
status that is not OK. -/
def RecordConstantDef (T : InferenceTable σ) (self : PopulateInferenceTableVisitor σ)
    (node : NodeId) (identifier span : String) (name_def : NodeId)
    ( type_annotation : Option TypeAnnotation) (value : NodeId) :
    Status × PopulateInferenceTableVisitor σ :=
  match T.DefineInternalVariable self.table_ .kType node
      (GenerateInternalTypeVariableName identifier span) with
  | (.error e, t0) => (.error e, { self with table_ := t0 })
  | (.ok var, t0) =>
    match T.SetTypeVariable t0 node var with
    | (.error e, t1) => (.error e, { self with table_ := t1 })
    | (.OkStatus, t1) =>
      match T.SetTypeVariable t1 name_def var with
      | (.error e, t2) => (.error e, { self with table_ := t2 })
      | (.OkStatus, t2) =>
        match T.SetTypeVariable t2 value var with
        | (.error e, t3) => (.error e, { self with table_ := t3 })
        | (.OkStatus, t3) =>
          match type_annotation with
          | some a =>
            let r := T.SetTypeAnnotation t3 name_def a
            (r.1, { self with table_ := r.2 })
          | none => (.OkStatus, { self with table_ := t3 })

/-- `HandleConstantDef`: the recording above, then `return DefaultHandler(node)`, given
as the visit of the node's children from a visitor. -/
def HandleConstantDef (T : InferenceTable σ) (self : PopulateInferenceTableVisitor σ)
    (node : NodeId) (identifier span : String) (name_def : NodeId)
    ( type_annotation : Option TypeAnnotation) (value : NodeId)
    (DefaultHandler : PopulateInferenceTableVisitor σ →
      Status × PopulateInferenceTableVisitor σ) :
    Status × PopulateInferenceTableVisitor σ :=
  match RecordConstantDef T self node identifier span name_def type_annotation value with
  | (.error e, self1) => (.error e, self1)
  | (.OkStatus, self1) => DefaultHandler self1

mutual

/-- `AstNode::Accept`: dispatch on the kind of the node; a kind the visitor does not
override goes to `DefaultHandler`. -/
def Accept (T : InferenceTable σ) (fit : SizedToFit) :
    AstNode → PopulateInferenceTableVisitor σ → Status × PopulateInferenceTableVisitor σ
  | .ConstantDef addr identifier span name_def ta value children, self =>
    HandleConstantDef T self addr identifier span name_def ta value
      (fun self1 => DefaultHandler T fit children self1)
  | .ConstRef addr name_def, self => HandleConstRef T self addr name_def
  | .NameRef addr name_def, self => HandleNameRef T self addr name_def
  | .Number node, self => HandleNumber T fit self node
  | .Other _ children, self => DefaultHandler T fit children self

/-- `DefaultHandler`, on the children `node->GetChildren(/*want_types=*/true)` gives:
`XLS_RETURN_IF_ERROR(child->Accept(this))` for each in order. -/
def DefaultHandler (T : InferenceTable σ) (fit : SizedToFit) :
    List AstNode → PopulateInferenceTableVisitor σ →
      Status × PopulateInferenceTableVisitor σ
  | [], self => (.OkStatus, self)
  | child :: rest, self =>
    match Accept T fit child self with
    | (.error e, self1) => (.error e, self1)
    | (.OkStatus, self1) => DefaultHandler T fit rest self1

end

end PopulateInferenceTableVisitor

/-! ## Example data -/

/-- An owner holding a root (address 0) of module 7 and one derived node (address 1)
whose parent is the root. -/
def exampleOwner : TypeInfoOwner where
  module_to_root_ := fun m => if m = 7 then some 0 else none
  type_infos_ := [TypeInfo.init 7 none, TypeInfo.init 7 (some 0)]

/-- An AST node of module 7. -/
def exampleNode : AstNodePtr := ⟨1, 7⟩

/-- A bit-vector type. -/
def exampleBits : ConcreteType := ⟨.BitVector, 8⟩

/-- A tuple type. -/
def exampleTuple : ConcreteType := ⟨.Tuple, 0⟩

/-- The example owner once its root has recorded `exampleBits` for `exampleNode`. -/
def exampleOwnerTyped : TypeInfoOwner :=
  exampleOwner.store 0
    { TypeInfo.init 7 none with
      dict_ := fun k => if k = exampleNode then some exampleBits.CloneToUnique else none }

/-- The example owner whose root knows the value 5 for `exampleNode` while the derived
node holds a "known not constant" entry for it. -/
def exampleOwnerConst : TypeInfoOwner where
  module_to_root_ := fun m => if m = 7 then some 0 else none
  type_infos_ :=
    [{ TypeInfo.init 7 none with
       const_exprs_ := fun k => if k = exampleNode then some (some 5) else none },
     { TypeInfo.init 7 (some 0) with
       const_exprs_ := fun k => if k = exampleNode then some none else none }]

/-- The example owner after its derived node recorded, for the invocation at address 5
inside function 1, the caller bindings `[]` with callee bindings `N = 8` and the derived
node itself as the instantiation's type information. -/
def exampleOwnerInvoked : TypeInfoOwner :=
  exampleOwner.store 0
    { TypeInfo.init 7 none with
      invocations_ := fun k =>
        if k = 5 then
          some { node := 5
                 caller := some 1
                 env_to_callee_data := fun e =>
                   if e = [] then some ⟨[("N", 8)], 1⟩ else none }
        else none }

/-- A visitor at the start of the pass: an empty table, no auto annotation, and a module
whose next node gets the address 100. -/
def exampleVisitor : PopulateInferenceTableVisitor TableState where
  module_ := ⟨100⟩
  table_ := TableState.Create
  auto_literal_annotations_ := ∅

/-- A declared type written by the user, the node at address 50. -/
def exampleDeclared : TypeAnnotation := ⟨50, .Written 32⟩

/-- The literal `255` with no type written on it, the node at address 3. -/
def exampleLiteral : Number := ⟨3, none, .kOther, 255⟩

/-- The literal `true`, the node at address 6. -/
def exampleTrue : Number := ⟨6, none, .kBool, 1⟩

/-- The literal `u32:7`, the node at address 8, with its written type. -/
def exampleTyped : Number := ⟨8, some exampleDeclared, .kOther, 7⟩

/-- The constant definition `const X: T = 255` at address 1: its name definition is the
node 2, its value the literal above, and its children are these in order. -/
def exampleConstantDef : AstNode :=
  .ConstantDef 1 "X" "1:1" 2 (some exampleDeclared) 3
    [.Other 2 [], .Other 50 [], .Number exampleLiteral]

/-- The example visitor once the definition `const X: T = ...` has been recorded. -/
def exampleVisitorRecorded : PopulateInferenceTableVisitor TableState :=
  (PopulateInferenceTableVisitor.RecordConstantDef TableState.ops exampleVisitor 1 "X" "1:1" 2
    (some exampleDeclared) 3).2

/-- A `CreateAnnotationSizedToFit` that refuses every literal, to watch a visit fail. -/
def exampleRefusingFit : SizedToFit := fun module _ => (.error .UnificationFailure, module)

/-- Three children in order: a reference to the name definition 2, the literal `255`
with no written type, and the literal `true`. -/
def exampleChildren : List AstNode :=
  [.NameRef 4 2, .Number exampleLiteral, .Number exampleTrue]

/-! ## `TypecheckModuleV2` -/

/-- `TypecheckModuleV2`. The collaborators whose sources are missing are parameters:
`Create` is the table `InferenceTable::Create(*module, import_data->file_table())`
gives, `InferenceTableToTypeInfo` is the resolution phase (what it returns for a table,
the module, the import data, the warning collector and the auto annotations);
`module_node` is the module as the AST node that `module->Accept(&visitor)` visits. -/
def TypecheckModuleV2 {σ ι ω : Type} (T : InferenceTable σ) (Create : Module → ι → σ)
    (fit : SizedToFit)
    (InferenceTableToTypeInfo :
      σ → Module → ι → ω → Finset TypeAnnotation → Except ErrorKind TypeInfoPtr)
    (module : Module) (module_node : AstNode) (import_data : ι) (warnings : ω) :
    Except ErrorKind TypeInfoPtr :=
  let table := Create module import_data
  let visitor : PopulateInferenceTableVisitor σ :=
    { module_ := module, table_ := table, auto_literal_annotations_ := ∅ }
  match PopulateInferenceTableVisitor.Accept T fit module_node visitor with
  | (.error e, _) => .error e
  | (.OkStatus, visitor1) =>
    InferenceTableToTypeInfo visitor1.table_ visitor1.module_ import_data warnings
      visitor1.auto_literal_annotations_

/-! ## Invocation queries, parent chains and histories of calls -/

namespace TypeInfo

/-- Modelled from the spec: the body of `TypeInfo::GetInvocationTypeInfo` is in the
missing `type_info.cc`. `get_invocation_type_info(invocation, caller_env) →
optional<TypeInfo-handle>`: the derived type information recorded for the pair on the
root of the tree, where "all instantiation information is held". -/
def GetInvocationTypeInfo (o : TypeInfoOwner) (self : TypeInfoPtr) (invocation : NodeId)
    (caller : ParametricEnv) : Outcome (Option TypeInfoPtr) :=
  (GetRootInvocations o self).andThen fun invs =>
    .value ((invs invocation).bind fun data =>
      (data.env_to_callee_data caller).map fun callee => callee.derived_type_info)

/-- Modelled from the spec: the body of `TypeInfo::GetInvocationTypeInfoOrError` is in
the missing `type_info.cc`. "As above, but returns a NotFound error if the invocation
does not have associated type information." -/
def GetInvocationTypeInfoOrError (o : TypeInfoOwner) (self : TypeInfoPtr)
    (invocation : NodeId) (caller : ParametricEnv) : Outcome TypeInfoPtr :=
  (GetInvocationTypeInfo o self invocation caller).andThen fun found =>
    match found with
    | some ti => .value ti
    | none => .status .NotFound

/-- Modelled from the spec: the body of `TypeInfo::GetInvocationCalleeBindings` is in
the missing `type_info.cc`. `get_invocation_callee_bindings(invocation, caller_env) →
optional<ParametricEnv>`: the callee bindings recorded for the pair on the root. -/
def GetInvocationCalleeBindings (o : TypeInfoOwner) (self : TypeInfoPtr)
    (invocation : NodeId) (caller : ParametricEnv) : Outcome (Option ParametricEnv) :=
  (GetRootInvocations o self).andThen fun invs =>
    .value ((invs invocation).bind fun data =>
      (data.env_to_callee_data caller).map fun callee => callee.callee_bindings)

/-- The addresses the walk along `parent_` meets from `t` on, `t` first, in at most
`fuel` steps: `t`, its parent, the parent of that, and so on. -/
def chain (o : TypeInfoOwner) : Nat → TypeInfoPtr → List TypeInfoPtr
  | 0, _ => []
  | fuel + 1, t =>
    t :: (match o.deref t with
          | none => []
          | some ti =>
            match ti.parent_ with
            | some p => chain o fuel p
            | none => [])

/-- The parent chain of `t` is acyclic: the walk from `t`, followed for one step more
than the heap has objects, meets no address twice and only addresses that hold an
object. (A walk that meets an address twice goes round for ever.) -/
def AcyclicChain (o : TypeInfoOwner) (t : TypeInfoPtr) : Bool :=
  decide (chain o (o.type_infos_.length + 1) t).Nodup &&
    (chain o (o.type_infos_.length + 1) t).all fun x => (o.deref x).isSome

end TypeInfo

/-- A call a client makes on the owner or on one of its nodes. -/
inductive Call where
  | New (module : ModulePtr) (parent : Option TypeInfoPtr)
  | SetItem (self : TypeInfoPtr) (key : AstNodePtr) (value : ConcreteType)
  | NoteConstExpr (self : TypeInfoPtr) (const_expr : AstNodePtr) (value : InterpValue)
  | AddInvocationTypeInfo (self : TypeInfoPtr) (invocation : NodeId)
      (caller : Option FunctionPtr) (caller_env callee_env : ParametricEnv)
      (derived_type_info : TypeInfoPtr)

/-- The owner after one call. `New` that hands back a status leaves the owner as it was;
a parent handle given to `New` must be a node an earlier `New` returned, that is an
object of the heap (no other pointer to a `TypeInfo` exists), else nothing is defined. -/
def TypeInfoOwner.after (o : TypeInfoOwner) : Call → Outcome TypeInfoOwner
  | .New module parent =>
    if (match parent with
        | some p => decide (p < o.type_infos_.length)
        | none => true) = true then
      match o.New module parent with
      | .value r => .value r.2
      | .status _ => .value o
      | .check_failure e => .check_failure e
      | .undefined => .undefined
    else .undefined
  | .SetItem self key value => TypeInfo.SetItem o self key value
  | .NoteConstExpr self const_expr value => TypeInfo.NoteConstExpr o self const_expr value
  | .AddInvocationTypeInfo self invocation caller caller_env callee_env derived =>
    TypeInfo.AddInvocationTypeInfo o self invocation caller caller_env callee_env derived

/-- The owner after the calls of a list, made in order. -/
def TypeInfoOwner.afterAll (o : TypeInfoOwner) : List Call → Outcome TypeInfoOwner
  | [] => .value o
  | c :: cs => (o.after c).andThen fun o1 => afterAll o1 cs

/-- The owner a history of calls leaves, starting from a freshly constructed owner. -/
def TypeInfoOwner.history (calls : List Call) : Outcome TypeInfoOwner :=
  TypeInfoOwner.empty.afterAll calls

/-- The ownership invariant: every key of the `dict_` of every object is owned by the
module of that object. -/
def TypeInfoOwner.OwnedKeys (o : TypeInfoOwner) : Prop :=
  ∀ (t : TypeInfoPtr) (ti : TypeInfo) (key : AstNodePtr) (ty : ConcreteType),
    o.deref t = some ti → ti.dict_ key = some ty → key.owner = ti.module_

/-- A module as an AST node: the definition `const X: T = 255`, then a reference to `X`,
then the literal `true`. -/
def exampleModuleNode : AstNode :=
  .Other 0 [exampleConstantDef, .NameRef 4 2, .Number exampleTrue]

/-- A stand-in for the resolution phase: it answers with the number of auto annotations
it is given, and fails with UnificationFailure when there is none. -/
def exampleResolution (_ : TableState) (_ : Module) (_ : Unit) (_ : Unit)
    (autos : Finset TypeAnnotation) : Except ErrorKind TypeInfoPtr :=
  if autos.card = 0 then .error .UnificationFailure else .ok autos.card

/-- The calls that build the example owner: a root for module 7, then a node derived
from it. -/
def exampleCalls : List Call := [.New 7 none, .New 7 (some 0)]

/-- Every entry of an invocation map of the owner was recorded by a call of the list: a
pair (invocation, caller environment) that maps to callee data was the argument, with
that callee data, of an `AddInvocationTypeInfo` call. -/
def TypeInfoOwner.RecordedBy (calls : List Call) (o : TypeInfoOwner) : Prop :=
  ∀ (top : TypeInfoPtr) (root : TypeInfo) (inv : NodeId) (data : InvocationData)
    (env : ParametricEnv) (callee : InvocationCalleeData),
    o.deref top = some root → root.invocations_ inv = some data →
    data.env_to_callee_data env = some callee →
    ∃ self f, Call.AddInvocationTypeInfo self inv f env callee.callee_bindings
      callee.derived_type_info ∈ calls

/-- The calls that build `exampleOwnerInvoked`: the example calls, then the recording of
the invocation 5 from the derived node. -/
def exampleCallsInvoked : List Call :=
  exampleCalls ++ [.AddInvocationTypeInfo 1 5 (some 1) [] [("N", 8)] 1]

/-- A root (address 0) of module 7 that knows the value 5 for `exampleNode`, with two
derived nodes (addresses 1 and 2) that record nothing. -/
def exampleOwnerSiblings : TypeInfoOwner where
  module_to_root_ := fun m => if m = 7 then some 0 else none
  type_infos_ :=
    [{ TypeInfo.init 7 none with
       const_exprs_ := fun k => if k = exampleNode then some (some 5) else none },
     TypeInfo.init 7 (some 0), TypeInfo.init 7 (some 0)]

/-! ## The walk as a sequence of visits -/

/-- What `Accept` does at one node before it goes into the node's children: the node
kind and the accessors its handler reads. -/
inductive Visit where
  | ConstantDef (addr : NodeId) (identifier : String) (span : String) (name_def : NodeId)
      ( type_annotation : Option TypeAnnotation) (value : NodeId)
  | Ref (addr : NodeId) (name_def : NodeId)
  | Number (node : Number)
  | Other (addr : NodeId)

mutual

/-- The visits the walk makes from a node, in the order it makes them: the node, then
its children in turn when its handler ends in `DefaultHandler`. -/
def AstNode.visits : AstNode → List Visit
  | .ConstantDef addr identifier span name_def ta value children =>
    .ConstantDef addr identifier span name_def ta value :: AstNode.visitsAll children
  | .ConstRef addr name_def => [.Ref addr name_def]
  | .NameRef addr name_def => [.Ref addr name_def]
  | .Number node => [.Number node]
  | .Other addr children => .Other addr :: AstNode.visitsAll children

/-- The visits the walk makes over a list of children. -/
def AstNode.visitsAll : List AstNode → List Visit
  | [] => []
  | child :: rest => child.visits ++ AstNode.visitsAll rest

end

/-- The nodes whose type variable a visit sets. -/
def Visit.varTargets : Visit → List NodeId
  | .ConstantDef addr _ _ name_def _ value => [addr, name_def, value]
  | _ => []

/-- The nodes whose annotation a visit sets. -/
def Visit.annTargets : Visit → List NodeId
  | .ConstantDef _ _ _ name_def ta _ =>
    match ta with
    | some _ => [name_def]
    | none => []
  | .Ref addr _ => [addr]
  | .Number node => [node.addr]
  | .Other _ => []

/-- The nodes whose type variable the visits of a list set, in order. -/
def Visit.varTargetsAll : List Visit → List NodeId
  | [] => []
  | v :: vs => v.varTargets ++ Visit.varTargetsAll vs

/-- The nodes whose annotation the visits of a list set, in order. -/
def Visit.annTargetsAll : List Visit → List NodeId
  | [] => []
  | v :: vs => v.annTargets ++ Visit.annTargetsAll vs

namespace PopulateInferenceTableVisitor

/-- The handler's own work at one visit. -/
def runVisit {σ : Type} (T : InferenceTable σ) (fit : SizedToFit) :
    Visit → PopulateInferenceTableVisitor σ → Status × PopulateInferenceTableVisitor σ
  | .ConstantDef addr identifier span name_def ta value, self =>
    RecordConstantDef T self addr identifier span name_def ta value
  | .Ref addr name_def, self => PropagateDefToRef T self addr name_def
  | .Number node, self => HandleNumber T fit self node
  | .Other _, self => (.OkStatus, self)

/-- The visits of a list made in order, up to the first that does not return OK. -/
def runVisits {σ : Type} (T : InferenceTable σ) (fit : SizedToFit) :
    List Visit → PopulateInferenceTableVisitor σ → Status × PopulateInferenceTableVisitor σ
  | [], self => (.OkStatus, self)
  | v :: vs, self =>
    match runVisit T fit v self with
    | (.error e, self1) => (.error e, self1)
    | (.OkStatus, self1) => runVisits T fit vs self1

end PopulateInferenceTableVisitor

end xls.dslx

/-! ## `xls/contrib/mlir/transforms/xls_lower.cc` -/

namespace mlir.xls

/-- `mlir::OpPassManager` of the MLIR library, as far as the pipeline uses it: the
passes added so far, in the order they were added. `P` is the type of passes. -/
structure OpPassManager (P : Type) where
  passes : List P
deriving DecidableEq, Repr

/-- `OpPassManager::addPass`: the pass is added after the passes already there. -/
def OpPassManager.addPass {P : Type} (pm : OpPassManager P) (pass : P) : OpPassManager P :=
  { passes := pm.passes ++ [pass] }

/-- The functions that create the passes, taken as parameters: those of the repository's
`passes.h`, which is not at hand, and `mlir::createCanonicalizerPass` and
`mlir::createCSEPass` of MLIR's `Transforms/Passes.h`. A field is the pass a call of the
function gives. -/
structure PassFactories (P : Type) where
  createProcElaborationPass : P
  createScfToXlsPass : P
  createCanonicalizerPass : P
  createArithToXlsPass : P
  createMathToXlsPass : P
  createScalarizePass : P
  createIndexTypeConversionPass : P
  createLowerCountedForPass : P
  createCSEPass : P
  createNormalizeXlsCallsPass : P
  createExpandMacroOpsPass : P

/-- `XlsLowerPassPipeline`: twelve calls of `pm.addPass`, in the order of the source. -/
def XlsLowerPassPipeline {P : Type} (F : PassFactories P) (pm : OpPassManager P) :
    OpPassManager P :=
  let pm := pm.addPass F.createProcElaborationPass
  let pm := pm.addPass F.createScfToXlsPass
  let pm := pm.addPass F.createCanonicalizerPass
  let pm := pm.addPass F.createArithToXlsPass
  let pm := pm.addPass F.createMathToXlsPass
  let pm := pm.addPass F.createScalarizePass
  let pm := pm.addPass F.createCanonicalizerPass
  let pm := pm.addPass F.createIndexTypeConversionPass
  let pm := pm.addPass F.createLowerCountedForPass
  let pm := pm.addPass F.createCSEPass
  let pm := pm.addPass F.createNormalizeXlsCallsPass
  pm.addPass F.createExpandMacroOpsPass

/-- The kinds of pass the pipeline creates, and `Inliner` for a pass of another kind. -/
inductive PassKind where
  | ProcElaboration
  | ScfToXls
  | Canonicalizer
  | ArithToXls
  | MathToXls
  | Scalarize
  | IndexTypeConversion
  | LowerCountedFor
  | CSE
  | NormalizeXlsCalls
  | ExpandMacroOps
  | Inliner
deriving DecidableEq, Repr

/-- Passes told apart by their kind only: each create function gives a pass of its kind. -/
def PassKind.factories : PassFactories PassKind where
  createProcElaborationPass := .ProcElaboration
  createScfToXlsPass := .ScfToXls
  createCanonicalizerPass := .Canonicalizer
  createArithToXlsPass := .ArithToXls
  createMathToXlsPass := .MathToXls
  createScalarizePass := .Scalarize
  createIndexTypeConversionPass := .IndexTypeConversion
  createLowerCountedForPass := .LowerCountedFor
  createCSEPass := .CSE
  createNormalizeXlsCallsPass := .NormalizeXlsCalls
  createExpandMacroOpsPass := .ExpandMacroOps

/-- A pass manager that already holds an inliner and a canonicalizer. -/
def examplePassManager : OpPassManager PassKind := { passes := [.Inliner, .Canonicalizer] }

end mlir.xls

namespace xls.dslx

/-! # Theorems -/

/-! ## The heap -/

theorem TypeInfoOwner.deref_lt {o : TypeInfoOwner} {t : TypeInfoPtr} {ti : TypeInfo}
    (h : o.deref t = some ti) : t < o.type_infos_.length := by
  unfold TypeInfoOwner.deref at h
  by_contra hlt
  rw [List.getElem?_eq_none (Nat.le_of_not_lt hlt)] at h
  cases h

theorem TypeInfoOwner.length_store (o : TypeInfoOwner) (t : TypeInfoPtr) (ti : TypeInfo) :
    (o.store t ti).type_infos_.length = o.type_infos_.length := by
  simp [TypeInfoOwner.store]

theorem TypeInfoOwner.deref_store_same {o : TypeInfoOwner} {t : TypeInfoPtr}
    (ti : TypeInfo) (h : t < o.type_infos_.length) : (o.store t ti).deref t = some ti := by
  simp [TypeInfoOwner.store, TypeInfoOwner.deref, h]

theorem TypeInfoOwner.deref_store_other (o : TypeInfoOwner) {t u : TypeInfoPtr}
    (ti : TypeInfo) (h : t ≠ u) : (o.store t ti).deref u = o.deref u := by
  simp [TypeInfoOwner.store, TypeInfoOwner.deref, List.getElem?_set_ne h]

/-- Two different addresses below `n` leave room for two objects. -/
theorem two_objects {a b n : Nat} (hne : a ≠ b) (ha : a < n) (hb : b < n) :
    ∃ k, n = k + 2 :=
  ⟨n - 2, by omega⟩

/-- An address below an address that `k + 1` objects hold is among the first `k`. -/
theorem below_parent {p t k : Nat} (hp : p < t) (ht : t < k + 1) : p < k := by
  omega

/-! ## Delegated lookup, one step at a time -/

namespace TypeInfo

theorem delegated_here {β : Type} {o : TypeInfoOwner} {here : TypeInfo → Option β}
    {absent : β} {self : TypeInfoPtr} {ti : TypeInfo} {b : β} (fuel : Nat)
    (hself : o.deref self = some ti) (hlocal : here ti = some b) :
    delegated o here absent (fuel + 1) self = .value b := by
  simp [delegated, hself, hlocal]

theorem delegated_parent {β : Type} {o : TypeInfoOwner} {here : TypeInfo → Option β}
    {absent : β} {self p : TypeInfoPtr} {ti : TypeInfo} (fuel : Nat)
    (hself : o.deref self = some ti) (hlocal : here ti = none)
    (hparent : ti.parent_ = some p) :
    delegated o here absent (fuel + 1) self = delegated o here absent fuel p := by
  simp [delegated, hself, hlocal, hparent]

theorem delegated_root {β : Type} {o : TypeInfoOwner} {here : TypeInfo → Option β}
    {absent : β} {self : TypeInfoPtr} {ti : TypeInfo} (fuel : Nat)
    (hself : o.deref self = some ti) (hlocal : here ti = none)
    (hparent : ti.parent_ = none) :
    delegated o here absent (fuel + 1) self = .value absent := by
  simp [delegated, hself, hlocal, hparent]

end TypeInfo

/-! ## Claims on `TypeInfoOwner` and `TypeInfo` -/

/-- C1: `TypeInfoOwner::New(M, p)` ends in an error exactly when `p` is absent and `M`
already has a registered root, and the error is then the status DuplicateRoot; a
successful `New(M)` registers the returned node, a new parentless node of `M`, as the
root of `M`, so a second `New(M)` yields DuplicateRoot; and `New(M)` on a module with no
root succeeds. -/
theorem TypeInfoOwner.New_error_iff_second_root (o : TypeInfoOwner) (M : ModulePtr)
    (p : Option TypeInfoPtr) :
    ((∀ r, o.New M p ≠ .value r) ↔ (p = none ∧ ∃ t, o.module_to_root_ M = some t)) ∧
    ((∀ r, o.New M p ≠ .value r) → o.New M p = .status .DuplicateRoot) ∧
    (∀ t o1, o.New M none = .value (t, o1) →
      o1.module_to_root_ M = some t ∧ o1.GetRootTypeInfo M = .value t ∧
      o1.deref t = some (TypeInfo.init M none) ∧
      o1.New M none = .status .DuplicateRoot) ∧
    (o.module_to_root_ M = none → ∃ t o1, o.New M none = .value (t, o1)) := by
  refine ⟨?_, ?_, ?_, ?_⟩
  · cases p with
    | none =>
      cases h : o.module_to_root_ M with
      | none => simp [TypeInfoOwner.New, h]
      | some t => simp [TypeInfoOwner.New, h]
    | some q => simp [TypeInfoOwner.New]
  · cases p with
    | none =>
      cases h : o.module_to_root_ M with
      | none => simp [TypeInfoOwner.New, h]
      | some t => simp [TypeInfoOwner.New, h]
    | some q => simp [TypeInfoOwner.New]
  · intro t o1 hnew
    cases h : o.module_to_root_ M with
    | some t0 => simp [TypeInfoOwner.New, h] at hnew
    | none =>
      simp only [TypeInfoOwner.New, h, Outcome.value.injEq, Prod.mk.injEq] at hnew
      obtain ⟨ht, ho⟩ := hnew
      subst ho
      subst ht
      simp [TypeInfoOwner.New, TypeInfoOwner.GetRootTypeInfo, TypeInfoOwner.deref]
  · intro h
    simp [TypeInfoOwner.New, h]

namespace TypeInfo

theorem delegated_value_or_undefined {β : Type} (o : TypeInfoOwner)
    (here : TypeInfo → Option β) (absent : β) (fuel : Nat) (self : TypeInfoPtr) :
    (∃ b, delegated o here absent fuel self = .value b) ∨
      delegated o here absent fuel self = .undefined := by
  induction fuel generalizing self with
  | zero => right; rfl
  | succ k ih =>
    cases hself : o.deref self with
    | none => right; simp [delegated, hself]
    | some ti =>
      cases hlocal : here ti with
      | some b => left; exact ⟨b, delegated_here k hself hlocal⟩
      | none =>
        cases hparent : ti.parent_ with
        | none => left; exact ⟨absent, delegated_root k hself hlocal hparent⟩
        | some p =>
          rw [delegated_parent k hself hlocal hparent]
          exact ih p

theorem SetItem_value {o o1 : TypeInfoOwner} {self : TypeInfoPtr} {ti : TypeInfo}
    {key : AstNodePtr} {value : ConcreteType} (hself : o.deref self = some ti)
    (hset : SetItem o self key value = .value o1) :
    key.owner = ti.module_ ∧
    o1 = o.store self
      { ti with dict_ := fun k => if k = key then some value.CloneToUnique else ti.dict_ k } := by
  unfold SetItem at hset
  rw [hself] at hset
  by_cases hown : key.owner = ti.module_
  · simp only [hown, if_true, Outcome.value.injEq] at hset
    exact ⟨hown, hset.symm⟩
  · simp [hown] at hset

/-- C2: delegated lookup. With a root `R` and a derived node `D` whose parent is `R` and
which has no local entry for `n`: after `R.SetItem(n, T)`, `D.GetItem(n)` returns `T`;
after a following `D.SetItem(n, T2)`, `D.GetItem(n)` returns `T2` while `R.GetItem(n)`
still returns `T`. -/
theorem GetItem_delegates_to_parent (o o1 : TypeInfoOwner) (R D : TypeInfoPtr)
    (r d : TypeInfo) (n : AstNodePtr) (T T2 : ConcreteType)
    (hR : o.deref R = some r) (hroot : r.parent_ = none)
    (hD : o.deref D = some d) (hchild : d.parent_ = some R)
    (hlocal : d.dict_ n = none)
    (hset : SetItem o R n T = .value o1) :
    GetItem o1 D n = .value (some T) ∧
    ∀ o2, SetItem o1 D n T2 = .value o2 →
      GetItem o2 D n = .value (some T2) ∧ GetItem o2 R n = .value (some T) := by
  have hne : R ≠ D := by
    intro h
    subst h
    rw [hR] at hD
    cases hD
    rw [hroot] at hchild
    cases hchild
  have hRlt := TypeInfoOwner.deref_lt hR
  have hDlt := TypeInfoOwner.deref_lt hD
  obtain ⟨_, ho1⟩ := SetItem_value hR hset
  have hlen1 : o1.type_infos_.length = o.type_infos_.length := by
    rw [ho1, TypeInfoOwner.length_store]
  have hR1 : o1.deref R = some
      { r with dict_ := fun k => if k = n then some T.CloneToUnique else r.dict_ k } := by
    rw [ho1]; exact TypeInfoOwner.deref_store_same _ hRlt
  have hD1 : o1.deref D = some d := by
    rw [ho1, TypeInfoOwner.deref_store_other _ _ hne]; exact hD
  obtain ⟨k, hk⟩ : ∃ k, o.type_infos_.length = k + 2 :=
    two_objects hne hRlt hDlt
  refine ⟨?_, ?_⟩
  · unfold GetItem
    rw [hlen1, hk, delegated_parent (k + 1) hD1 (by simp [hlocal]) hchild]
    exact delegated_here k hR1 (by simp [ConcreteType.CloneToUnique])
  · intro o2 hset2
    obtain ⟨_, ho2⟩ := SetItem_value hD1 hset2
    have hlen2 : o2.type_infos_.length = o.type_infos_.length := by
      rw [ho2, TypeInfoOwner.length_store, hlen1]
    have hD2 : o2.deref D = some
        { d with dict_ := fun k => if k = n then some T2.CloneToUnique else d.dict_ k } := by
      rw [ho2]; exact TypeInfoOwner.deref_store_same _ (by rw [hlen1]; exact hDlt)
    have hR2 : o2.deref R = some
        { r with dict_ := fun k => if k = n then some T.CloneToUnique else r.dict_ k } := by
      rw [ho2, TypeInfoOwner.deref_store_other _ _ (Ne.symm hne)]; exact hR1
    refine ⟨?_, ?_⟩
    · unfold GetItem
      rw [hlen2, hk]
      exact delegated_here (k + 1) hD2 (by simp [ConcreteType.CloneToUnique])
    · unfold GetItem
      rw [hlen2, hk]
      exact delegated_here (k + 1) hR2 (by simp [ConcreteType.CloneToUnique])

/-- Witness of C2 on the example owner: the root records a bit-vector type, the derived
node reads it, then records a tuple type of its own. -/
theorem GetItem_delegates_to_parent_witness :
    GetItem exampleOwnerTyped 1 exampleNode = .value (some exampleBits) ∧
    ∃ o2, SetItem exampleOwnerTyped 1 exampleNode exampleTuple = .value o2 ∧
      GetItem o2 1 exampleNode = .value (some exampleTuple) ∧
      GetItem o2 0 exampleNode = .value (some exampleBits) := by
  have h := GetItem_delegates_to_parent exampleOwner exampleOwnerTyped 0 1
    (TypeInfo.init 7 none) (TypeInfo.init 7 (some 0)) exampleNode exampleBits exampleTuple
    rfl rfl rfl rfl rfl rfl
  refine ⟨h.1, _, rfl, ?_⟩
  exact h.2 _ rfl

/-- C3: `GetItemAs<T>(key)` returns NotFound exactly when `GetItem(key)` has no value,
returns the failed-precondition status TypeMismatch exactly when `GetItem(key)` has a
value of a variant other than `T`, and returns a type exactly when `GetItem(key)` has
that very type and its variant is `T`. -/
theorem GetItemAs_matches_GetItem (T : TypeVariant) (o : TypeInfoOwner)
    (self : TypeInfoPtr) (key : AstNodePtr) :
    (GetItemAs T o self key = .status .NotFound ↔ GetItem o self key = .value none) ∧
    (GetItemAs T o self key = .status .TypeMismatch ↔
      ∃ ty, GetItem o self key = .value (some ty) ∧ ty.variant ≠ T) ∧
    (∀ ty, GetItemAs T o self key = .value ty ↔
      (GetItem o self key = .value (some ty) ∧ ty.variant = T)) := by
  unfold GetItemAs
  rcases delegated_value_or_undefined o (fun ti => (ti.dict_ key).map some) none
      o.type_infos_.length self with ⟨b, hb⟩ | hu
  · have hg : GetItem o self key = .value b := hb
    rw [hg]
    cases b with
    | none => simp [Outcome.andThen]
    | some ty0 =>
      by_cases hv : ty0.variant = T
      · simp only [Outcome.andThen, hv, if_true]
        refine ⟨by simp, ?_, ?_⟩
        · constructor
          · intro h; cases h
          · rintro ⟨ty, hty, hne⟩
            simp only [Outcome.value.injEq, Option.some.injEq] at hty
            subst hty
            exact absurd hv hne
        · intro ty
          constructor
          · intro h
            simp only [Outcome.value.injEq] at h
            subst h
            exact ⟨rfl, hv⟩
          · rintro ⟨h, _⟩
            simp only [Outcome.value.injEq, Option.some.injEq] at h
            subst h
            rfl
      · simp only [Outcome.andThen, hv, if_false]
        refine ⟨by simp, ?_, ?_⟩
        · constructor
          · intro _; exact ⟨ty0, rfl, hv⟩
          · intro _; trivial
        · intro ty
          constructor
          · intro h; cases h
          · rintro ⟨h, hty⟩
            simp only [Outcome.value.injEq, Option.some.injEq] at h
            subst h
            exact absurd hty hv
  · have hg : GetItem o self key = .undefined := hu
    rw [hg]
    simp [Outcome.andThen]

end TypeInfo

/-! ## Walks of the parent chain and stores that keep the parent links -/

theorem TypeInfoOwner.parent_lt {o : TypeInfoOwner} (h : o.ParentsPrecede = true)
    {t p : TypeInfoPtr} {ti : TypeInfo} (hself : o.deref t = some ti)
    (hparent : ti.parent_ = some p) : p < t := by
  have hlt := TypeInfoOwner.deref_lt hself
  have hall := (List.all_eq_true.mp h) t (List.mem_range.mpr hlt)
  simpa [hself, hparent] using hall

namespace TypeInfo

theorem delegated_fuel_irrelevant {β : Type} {o : TypeInfoOwner}
    (h : o.ParentsPrecede = true) (here : TypeInfo → Option β) (absent : β) :
    ∀ (fuel1 fuel2 : Nat) (t : TypeInfoPtr), t < fuel1 → t < fuel2 →
      delegated o here absent fuel1 t = delegated o here absent fuel2 t := by
  intro fuel1
  induction fuel1 with
  | zero => intro fuel2 t h1; exact absurd h1 (Nat.not_lt_zero t)
  | succ k1 ih =>
    intro fuel2 t h1 h2
    cases fuel2 with
    | zero => exact absurd h2 (Nat.not_lt_zero t)
    | succ k2 =>
      cases hself : o.deref t with
      | none => simp [delegated, hself]
      | some ti =>
        cases hlocal : here ti with
        | some b => rw [delegated_here k1 hself hlocal, delegated_here k2 hself hlocal]
        | none =>
          cases hparent : ti.parent_ with
          | none =>
            rw [delegated_root k1 hself hlocal hparent, delegated_root k2 hself hlocal hparent]
          | some p =>
            have hp : p < t := TypeInfoOwner.parent_lt h hself hparent
            rw [delegated_parent k1 hself hlocal hparent,
              delegated_parent k2 hself hlocal hparent]
            exact ih k2 p (below_parent hp h1) (below_parent hp h2)

theorem delegated_of_local {β : Type} {o : TypeInfoOwner} {here : TypeInfo → Option β}
    {absent : β} {self : TypeInfoPtr} {ti : TypeInfo} {b : β}
    (hself : o.deref self = some ti) (hlocal : here ti = some b) :
    delegated o here absent o.type_infos_.length self = .value b := by
  obtain ⟨k, hk⟩ := Nat.exists_eq_succ_of_ne_zero
    (Nat.ne_of_gt (Nat.lt_of_le_of_lt (Nat.zero_le _) (TypeInfoOwner.deref_lt hself)))
  rw [hk]
  exact delegated_here k hself hlocal

theorem delegated_of_no_parent {β : Type} {o : TypeInfoOwner} {here : TypeInfo → Option β}
    {absent : β} {self : TypeInfoPtr} {ti : TypeInfo}
    (hself : o.deref self = some ti) (hlocal : here ti = none)
    (hparent : ti.parent_ = none) :
    delegated o here absent o.type_infos_.length self = .value absent := by
  obtain ⟨k, hk⟩ := Nat.exists_eq_succ_of_ne_zero
    (Nat.ne_of_gt (Nat.lt_of_le_of_lt (Nat.zero_le _) (TypeInfoOwner.deref_lt hself)))
  rw [hk]
  exact delegated_root k hself hlocal hparent

theorem delegated_of_parent {β : Type} {o : TypeInfoOwner} (h : o.ParentsPrecede = true)
    {here : TypeInfo → Option β} {absent : β} {self p : TypeInfoPtr} {ti : TypeInfo}
    (hself : o.deref self = some ti) (hlocal : here ti = none)
    (hparent : ti.parent_ = some p) :
    delegated o here absent o.type_infos_.length self =
      delegated o here absent o.type_infos_.length p := by
  have hlt := TypeInfoOwner.deref_lt hself
  have hp : p < self := TypeInfoOwner.parent_lt h hself hparent
  obtain ⟨k, hk⟩ := Nat.exists_eq_succ_of_ne_zero
    (Nat.ne_of_gt (Nat.lt_of_le_of_lt (Nat.zero_le _) hlt))
  rw [hk, delegated_parent k hself hlocal hparent]
  rw [hk] at hlt
  exact delegated_fuel_irrelevant h here absent k (k + 1) p (below_parent hp hlt)
    (Nat.lt_succ_of_lt (below_parent hp hlt))

theorem delegated_not_both {o : TypeInfoOwner} (n : AstNodePtr) :
    ∀ (fuel : Nat) (t : TypeInfoPtr),
      ¬ (delegated o (fun ti => (ti.const_exprs_ n).map Option.isSome) false fuel t
            = .value true ∧
          delegated o (fun ti => (ti.const_exprs_ n).map Option.isNone) false fuel t
            = .value true) := by
  intro fuel
  induction fuel with
  | zero => intro t h; simp [delegated] at h
  | succ k ih =>
    intro t h
    cases hself : o.deref t with
    | none => simp [delegated, hself] at h
    | some ti =>
      cases hentry : ti.const_exprs_ n with
      | some e =>
        rw [delegated_here k hself (by simp [hentry] : Option.map Option.isSome
              (ti.const_exprs_ n) = some e.isSome),
          delegated_here k hself (by simp [hentry] : Option.map Option.isNone
              (ti.const_exprs_ n) = some e.isNone)] at h
        cases e <;> simp at h
      | none =>
        cases hparent : ti.parent_ with
        | none =>
          rw [delegated_root k hself (by simp [hentry]) hparent] at h
          simp at h
        | some p =>
          rw [delegated_parent k hself (by simp [hentry]) hparent,
            delegated_parent k hself (by simp [hentry]) hparent] at h
          exact ih p h

/-- C6: the const-expr lookup rule. A local "known not constant" entry answers
known-non-const, not known-const and NotFound whatever the ancestors record; a local
value answers known-const with that value; with no local entry the three queries give
the answer of the parent (parents created before their children), or unknown at a root;
and never both `IsKnownConstExpr` and `IsKnownNonConstExpr` hold. -/
theorem const_expr_three_states (o : TypeInfoOwner) (D : TypeInfoPtr) (d : TypeInfo)
    (n : AstNodePtr) (hD : o.deref D = some d) :
    (d.const_exprs_ n = some none →
      IsKnownNonConstExpr o D n = .value true ∧ IsKnownConstExpr o D n = .value false ∧
      GetConstExpr o D n = .status .NotFound) ∧
    (∀ v, d.const_exprs_ n = some (some v) →
      IsKnownNonConstExpr o D n = .value false ∧ IsKnownConstExpr o D n = .value true ∧
      GetConstExpr o D n = .value v) ∧
    (∀ P, d.const_exprs_ n = none → d.parent_ = some P → o.ParentsPrecede = true →
      IsKnownNonConstExpr o D n = IsKnownNonConstExpr o P n ∧
      IsKnownConstExpr o D n = IsKnownConstExpr o P n ∧
      GetConstExpr o D n = GetConstExpr o P n) ∧
    (d.const_exprs_ n = none → d.parent_ = none →
      IsKnownNonConstExpr o D n = .value false ∧ IsKnownConstExpr o D n = .value false ∧
      GetConstExpr o D n = .status .NotFound) ∧
    ¬ (IsKnownConstExpr o D n = .value true ∧ IsKnownNonConstExpr o D n = .value true) := by
  refine ⟨?_, ?_, ?_, ?_, ?_⟩
  · intro hentry
    refine ⟨?_, ?_, ?_⟩
    · exact delegated_of_local hD (by simp [hentry])
    · exact delegated_of_local hD (by simp [hentry])
    · unfold GetConstExpr
      rw [delegated_of_local hD hentry]
      rfl
  · intro v hentry
    refine ⟨?_, ?_, ?_⟩
    · exact delegated_of_local hD (by simp [hentry])
    · exact delegated_of_local hD (by simp [hentry])
    · unfold GetConstExpr
      rw [delegated_of_local hD hentry]
      rfl
  · intro P hentry hparent hwf
    refine ⟨?_, ?_, ?_⟩
    · exact delegated_of_parent hwf hD (by simp [hentry]) hparent
    · exact delegated_of_parent hwf hD (by simp [hentry]) hparent
    · unfold GetConstExpr
      rw [delegated_of_parent hwf hD hentry hparent]
  · intro hentry hparent
    refine ⟨?_, ?_, ?_⟩
    · exact delegated_of_no_parent hD (by simp [hentry]) hparent
    · exact delegated_of_no_parent hD (by simp [hentry]) hparent
    · unfold GetConstExpr
      rw [delegated_of_no_parent hD hentry hparent]
      rfl
  · exact delegated_not_both n o.type_infos_.length D

/-- Witness of C6 on the example owner: the derived node says "known not constant" while
its root knows the value 5. -/
theorem const_expr_three_states_witness :
    (IsKnownNonConstExpr exampleOwnerConst 1 exampleNode = .value true ∧
      IsKnownConstExpr exampleOwnerConst 1 exampleNode = .value false ∧
      GetConstExpr exampleOwnerConst 1 exampleNode = .status .NotFound) ∧
    GetConstExpr exampleOwnerConst 0 exampleNode = .value 5 :=
  ⟨(const_expr_three_states exampleOwnerConst 1 _ exampleNode rfl).1 rfl, rfl⟩

end TypeInfo

namespace TypeInfo

theorem GetRootFuel_store {o : TypeInfoOwner} {top : TypeInfoPtr} {ti ti1 : TypeInfo}
    (htop : o.deref top = some ti) (hparent : ti1.parent_ = ti.parent_) :
    ∀ (fuel : Nat) (t : TypeInfoPtr),
      GetRootFuel (o.store top ti1) fuel t = GetRootFuel o fuel t := by
  intro fuel
  induction fuel with
  | zero => intro t; rfl
  | succ k ih =>
    intro t
    by_cases ht : top = t
    · subst ht
      simp only [GetRootFuel, TypeInfoOwner.deref_store_same ti1 (TypeInfoOwner.deref_lt htop),
        htop, hparent]
      cases ti.parent_ with
      | none => rfl
      | some p => exact ih p
    · simp only [GetRootFuel, TypeInfoOwner.deref_store_other o ti1 ht]
      cases o.deref t with
      | none => rfl
      | some tj =>
        dsimp only
        cases tj.parent_ with
        | none => rfl
        | some p => exact ih p

theorem GetRoot_store {o : TypeInfoOwner} {top : TypeInfoPtr} {ti ti1 : TypeInfo}
    (htop : o.deref top = some ti) (hparent : ti1.parent_ = ti.parent_) (t : TypeInfoPtr) :
    GetRoot (o.store top ti1) t = GetRoot o t := by
  unfold GetRoot
  rw [TypeInfoOwner.length_store]
  exact GetRootFuel_store htop hparent _ t

/-- What a call of `AddInvocationTypeInfoWith` that returns has done, when `signal`
never returns: it found the root `top` of the tree and stored there an entry for the
invocation with the given caller that maps `caller_env` to the given callee data and
every other environment as before. -/
theorem AddInvocationTypeInfoWith_value {signal : ErrorKind → Outcome TypeInfoOwner}
    {o o1 : TypeInfoOwner} {self : TypeInfoPtr}
    {invocation : NodeId} {caller : Option FunctionPtr}
    {caller_env callee_env : ParametricEnv} {derived : TypeInfoPtr}
    (hsignal : ∀ e, (signal e).isValue = false)
    (h : AddInvocationTypeInfoWith signal o self invocation caller caller_env callee_env
      derived = .value o1) :
    ∃ top root root1 data,
      GetRoot o self = .value top ∧ o.deref top = some root ∧
      o1 = o.store top root1 ∧ root1.parent_ = root.parent_ ∧
      root1.invocations_ invocation = some data ∧ data.caller = caller ∧
      data.env_to_callee_data caller_env = some ⟨callee_env, derived⟩ ∧
      (∀ e, e ≠ caller_env → data.env_to_callee_data e =
        match root.invocations_ invocation with
        | some old => old.env_to_callee_data e
        | none => none) ∧
      (∀ k, k ≠ invocation → root1.invocations_ k = root.invocations_ k) := by
  unfold AddInvocationTypeInfoWith at h
  cases hroot : GetRoot o self with
  | status e => rw [hroot] at h; cases h
  | check_failure e => rw [hroot] at h; cases h
  | undefined => rw [hroot] at h; cases h
  | value top =>
    rw [hroot] at h
    simp only [Outcome.andThen] at h
    cases htop : o.deref top with
    | none => rw [htop] at h; cases h
    | some root =>
      rw [htop] at h
      simp only at h
      cases hentry : root.invocations_ invocation with
      | none =>
        rw [hentry] at h
        simp only [Outcome.value.injEq] at h
        refine ⟨top, root, _, _, rfl, htop, h.symm, rfl, if_pos rfl, rfl, if_pos rfl, ?_, ?_⟩
        · intro e he; rw [hentry]; exact if_neg he
        · intro k hk; exact if_neg hk
      | some data =>
        rw [hentry] at h
        by_cases hcaller : data.caller = caller
        · simp only [] at h
          rw [if_pos hcaller] at h
          simp only [Outcome.value.injEq] at h
          refine ⟨top, root, _, _, rfl, htop, h.symm, rfl, if_pos rfl, hcaller, if_pos rfl,
            ?_, ?_⟩
          · intro e he; rw [hentry]; exact if_neg he
          · intro k hk; exact if_neg hk
        · simp only [] at h
          rw [if_neg hcaller] at h
          have hv := hsignal .ReferentialIntegrityViolation
          rw [h] at hv
          cases hv

/-- What a call of `AddInvocationTypeInfo` that returns has done: it found the root
`top` of the tree and stored there an entry for the invocation with the given caller
that maps `caller_env` to the given callee data and every other environment as
before. -/
theorem AddInvocationTypeInfo_value {o o1 : TypeInfoOwner} {self : TypeInfoPtr}
    {invocation : NodeId} {caller : Option FunctionPtr}
    {caller_env callee_env : ParametricEnv} {derived : TypeInfoPtr}
    (h : AddInvocationTypeInfo o self invocation caller caller_env callee_env derived
      = .value o1) :
    ∃ top root root1 data,
      GetRoot o self = .value top ∧ o.deref top = some root ∧
      o1 = o.store top root1 ∧ root1.parent_ = root.parent_ ∧
      root1.invocations_ invocation = some data ∧ data.caller = caller ∧
      data.env_to_callee_data caller_env = some ⟨callee_env, derived⟩ ∧
      (∀ e, e ≠ caller_env → data.env_to_callee_data e =
        match root.invocations_ invocation with
        | some old => old.env_to_callee_data e
        | none => none) ∧
      (∀ k, k ≠ invocation → root1.invocations_ k = root.invocations_ k) := by
  have hsignal : ∀ e : ErrorKind,
      ((fun _ => Outcome.undefined : ErrorKind → Outcome TypeInfoOwner) e).isValue
        = false := fun _ => rfl
  exact AddInvocationTypeInfoWith_value hsignal h

end TypeInfo

theorem TypeInfoOwner.store_store (o : TypeInfoOwner) (t : TypeInfoPtr) (a b : TypeInfo) :
    (o.store t a).store t b = o.store t b := by
  simp [TypeInfoOwner.store, List.set_set]

namespace TypeInfo

/-- C5: re-recording is idempotent. When `AddInvocationTypeInfo` with given arguments has
returned, the pair (invocation, caller environment) maps on the root to exactly the one
callee data recorded, and calling it again with the same arguments returns and leaves
the whole heap, hence the root's invocation map, as it was after the first call. -/
theorem AddInvocationTypeInfo_idempotent (o o1 : TypeInfoOwner) (self : TypeInfoPtr)
    (inv : NodeId) (f : Option FunctionPtr) (caller_env callee_env : ParametricEnv)
    (derived : TypeInfoPtr)
    (hfirst : AddInvocationTypeInfo o self inv f caller_env callee_env derived = .value o1) :
    AddInvocationTypeInfo o1 self inv f caller_env callee_env derived = .value o1 ∧
    GetRootInvocations o1 self =
      (AddInvocationTypeInfo o1 self inv f caller_env callee_env derived).andThen
        (fun o2 => GetRootInvocations o2 self) ∧
    ∃ top root1 data, GetRoot o1 self = .value top ∧ o1.deref top = some root1 ∧
      root1.invocations_ inv = some data ∧
      ∀ c, data.env_to_callee_data caller_env = some c ↔ c = ⟨callee_env, derived⟩ := by
  obtain ⟨top, root, root1, data, hroot, htop, ho1, hparent, hentry, hcaller, hpair, -, -⟩ :=
    AddInvocationTypeInfo_value hfirst
  have hroot1 : GetRoot o1 self = .value top := by
    rw [ho1, GetRoot_store htop hparent, hroot]
  have htop1 : o1.deref top = some root1 := by
    rw [ho1]; exact TypeInfoOwner.deref_store_same _ (TypeInfoOwner.deref_lt htop)
  have henv : (fun e => if e = caller_env then some ⟨callee_env, derived⟩
      else data.env_to_callee_data e) = data.env_to_callee_data := by
    funext e
    by_cases he : e = caller_env
    · rw [if_pos he, he, hpair]
    · rw [if_neg he]
  have hmap : (fun k => if k = inv then
        some { data with
               env_to_callee_data := fun e =>
                 if e = caller_env then some ⟨callee_env, derived⟩
                 else data.env_to_callee_data e }
      else root1.invocations_ k) = root1.invocations_ := by
    funext k
    by_cases hk : k = inv
    · rw [if_pos hk, hk, hentry, henv]
    · rw [if_neg hk]
  have hagain :
      AddInvocationTypeInfo o1 self inv f caller_env callee_env derived = .value o1 := by
    unfold AddInvocationTypeInfo AddInvocationTypeInfoWith
    rw [hroot1]
    simp only [Outcome.andThen, htop1, hentry]
    rw [if_pos hcaller, hmap, ho1, TypeInfoOwner.store_store]
  refine ⟨hagain, ?_, top, root1, data, hroot1, htop1, hentry, ?_⟩
  · rw [hagain]; rfl
  · intro c
    rw [hpair]
    constructor
    · intro h; cases h; rfl
    · intro h; rw [h]

/-- Witness of C5 on the example owner: the recording that produced
`exampleOwnerInvoked`, made once more, returns `exampleOwnerInvoked`. -/
theorem AddInvocationTypeInfo_idempotent_witness :
    AddInvocationTypeInfo exampleOwner 1 5 (some 1) [] [("N", 8)] 1
      = .value exampleOwnerInvoked ∧
    AddInvocationTypeInfo exampleOwnerInvoked 1 5 (some 1) [] [("N", 8)] 1
      = .value exampleOwnerInvoked :=
  ⟨rfl, (AddInvocationTypeInfo_idempotent exampleOwner exampleOwnerInvoked 1 5 (some 1) []
    [("N", 8)] 1 rfl).1⟩

end TypeInfo

/-! ## The inference table and the sized-to-fit width -/

theorem TableState.ops_lawful : TableState.ops.Lawful where
  get_set_annotation := by
    intro t n a t1 h
    simp only [TableState.ops, Prod.mk.injEq, true_and] at h
    subst h
    simp [TableState.ops]
  set_annotation_other := by
    intro t n a t1 m h hm
    simp only [TableState.ops, Prod.mk.injEq, true_and] at h
    subst h
    simp [TableState.ops, hm]
  set_annotation_variable := by
    intro t n a st t1 m h
    simp only [TableState.ops, Prod.mk.injEq] at h
    obtain ⟨-, h⟩ := h
    subst h
    rfl
  get_set_variable := by
    intro t n v t1 h
    simp only [TableState.ops, Prod.mk.injEq, true_and] at h
    subst h
    simp [TableState.ops]
  set_variable_other := by
    intro t n v t1 m h hm
    simp only [TableState.ops, Prod.mk.injEq, true_and] at h
    subst h
    simp [TableState.ops, hm]
  set_variable_annotation := by
    intro t n v st t1 m h
    simp only [TableState.ops, Prod.mk.injEq] at h
    obtain ⟨-, h⟩ := h
    subst h
    rfl
  define_variable := by
    intro t k n s r t1 m h
    simp only [TableState.ops, Prod.mk.injEq] at h
    obtain ⟨-, h⟩ := h
    subst h
    rfl
  define_annotation := by
    intro t k n s r t1 m h
    simp only [TableState.ops, Prod.mk.injEq] at h
    obtain ⟨-, h⟩ := h
    subst h
    rfl

theorem MinimalWidthFrom_spec (v : Nat) :
    ∀ (fuel w : Nat), (∀ u, u < w → 2 ^ u ≤ v) → v < 2 ^ (w + fuel) →
      v < 2 ^ MinimalWidthFrom v fuel w ∧ ∀ u, u < MinimalWidthFrom v fuel w → 2 ^ u ≤ v := by
  intro fuel
  induction fuel with
  | zero =>
    intro w hbelow hfit
    exact ⟨by simpa [MinimalWidthFrom] using hfit, by simpa [MinimalWidthFrom] using hbelow⟩
  | succ k ih =>
    intro w hbelow hfit
    by_cases hw : v < 2 ^ w
    · rw [MinimalWidthFrom, if_pos hw]
      exact ⟨hw, hbelow⟩
    · rw [MinimalWidthFrom, if_neg hw]
      apply ih (w + 1)
      · intro u hu
        rcases Nat.lt_succ_iff_lt_or_eq.mp hu with h | h
        · exact hbelow u h
        · rw [h]; exact Nat.le_of_not_lt hw
      · have : w + 1 + k = w + (k + 1) := by omega
        rw [this]; exact hfit

theorem MinimalWidth_least (v : Nat) :
    v < 2 ^ MinimalWidth v ∧ ∀ w, v < 2 ^ w → MinimalWidth v ≤ w := by
  have h := MinimalWidthFrom_spec v v 0 (fun u hu => absurd hu (Nat.not_lt_zero u))
    (by rw [Nat.zero_add]; exact Nat.lt_two_pow v)
  refine ⟨h.1, ?_⟩
  intro w hw
  by_contra hlt
  exact absurd hw (Nat.not_lt_of_le (h.2 w (Nat.lt_of_not_le hlt)))

/-! ## Claims on the population pass -/

namespace PopulateInferenceTableVisitor

variable {σ : Type}

/-- C7: literal handling. (i) A literal with a written type: the status is that of
setting exactly this annotation on the node, on OK the table holds it for the node, and
the auto-annotation set is unchanged. (ii) A literal with none that is not a boolean
literal: the sized-to-fit annotation is synthesized, set on the node, and added to the
auto-annotation set. (iii) A boolean literal with none: the synthesized annotation is
set on the node and the auto-annotation set is unchanged. -/
theorem HandleNumber_records_literal (T : InferenceTable σ) (hT : T.Lawful)
    (fit : SizedToFit) (self : PopulateInferenceTableVisitor σ) (node : Number) :
    (∀ a, node.type_annotation = some a →
      (HandleNumber T fit self node).1 = (T.SetTypeAnnotation self.table_ node.addr a).1 ∧
      ((HandleNumber T fit self node).1 = Status.OkStatus →
        T.GetTypeAnnotation (HandleNumber T fit self node).2.table_ node.addr = some a) ∧
      (HandleNumber T fit self node).2.auto_literal_annotations_
        = self.auto_literal_annotations_ ∧
      (HandleNumber T fit self node).2.module_ = self.module_) ∧
    (∀ a m, node.type_annotation = none → fit self.module_ node = (Except.ok a, m) →
      node.number_kind ≠ NumberKind.kBool →
      (HandleNumber T fit self node).1 = (T.SetTypeAnnotation self.table_ node.addr a).1 ∧
      ((HandleNumber T fit self node).1 = Status.OkStatus →
        T.GetTypeAnnotation (HandleNumber T fit self node).2.table_ node.addr = some a) ∧
      (HandleNumber T fit self node).2.auto_literal_annotations_
        = insert a self.auto_literal_annotations_) ∧
    (∀ a m, node.type_annotation = none → fit self.module_ node = (Except.ok a, m) →
      node.number_kind = NumberKind.kBool →
      (HandleNumber T fit self node).1 = (T.SetTypeAnnotation self.table_ node.addr a).1 ∧
      ((HandleNumber T fit self node).1 = Status.OkStatus →
        T.GetTypeAnnotation (HandleNumber T fit self node).2.table_ node.addr = some a) ∧
      (HandleNumber T fit self node).2.auto_literal_annotations_
        = self.auto_literal_annotations_) := by
  refine ⟨?_, ?_, ?_⟩
  · intro a ha
    simp only [HandleNumber, ha]
    refine ⟨trivial, ?_, trivial, trivial⟩
    intro hok
    exact hT.get_set_annotation self.table_ node.addr a _ (Prod.ext hok rfl)
  · intro a m hnone hfit hkind
    simp only [HandleNumber, hnone, hfit, if_pos hkind]
    refine ⟨trivial, ?_, trivial⟩
    intro hok
    exact hT.get_set_annotation self.table_ node.addr a _ (Prod.ext hok rfl)
  · intro a m hnone hfit hkind
    simp only [HandleNumber, hnone, hfit, hkind]
    refine ⟨trivial, ?_, ?_⟩
    · intro hok
      exact hT.get_set_annotation self.table_ node.addr a _ (Prod.ext hok rfl)
    · simp

/-- Witness of C7 on the example visitor: `255` gets the auto annotation at the new
address 100, `true` gets a boolean annotation that is not auto, and `u32:7` keeps the
type written on it. -/
theorem HandleNumber_records_literal_witness :
    (HandleNumber TableState.ops CreateAnnotationSizedToFit exampleVisitor
        exampleLiteral).2.auto_literal_annotations_
      = insert ⟨100, .SizedToFit false 8⟩ ∅ ∧
    (HandleNumber TableState.ops CreateAnnotationSizedToFit exampleVisitor
        exampleTrue).2.auto_literal_annotations_ = ∅ ∧
    TableState.ops.GetTypeAnnotation
      (HandleNumber TableState.ops CreateAnnotationSizedToFit exampleVisitor
        exampleTyped).2.table_ 8 = some exampleDeclared :=
  have h := fun node => HandleNumber_records_literal TableState.ops TableState.ops_lawful
    CreateAnnotationSizedToFit exampleVisitor node
  ⟨((h exampleLiteral).2.1 ⟨100, .SizedToFit false 8⟩ ⟨101⟩ rfl rfl (by decide)).2.2,
    ((h exampleTrue).2.2 ⟨100, .Boolean⟩ ⟨101⟩ rfl rfl rfl).2.2,
    ((h exampleTyped).1 exampleDeclared rfl).2.1 rfl⟩

/-- C8: literal sizing. For a literal with no written type that is not a boolean literal
and has the positive value `v`, the pass synthesizes the unsigned annotation whose width
`w` is the least with `v < 2 ^ w`, sets it on the node and adds it to the
auto-annotation set; 255 gets 8 bits and 256 gets 9. -/
theorem HandleNumber_sizes_to_fit (T : InferenceTable σ) (hT : T.Lawful)
    (self : PopulateInferenceTableVisitor σ) (node : Number) (v : Nat)
    (hnone : node.type_annotation = none) (hkind : node.number_kind ≠ NumberKind.kBool)
    (hvalue : node.value = Int.ofNat v) (_hpos : 0 < v) :
    (v < 2 ^ MinimalWidth v ∧ ∀ w, v < 2 ^ w → MinimalWidth v ≤ w) ∧
    CreateAnnotationSizedToFit self.module_ node
      = (Except.ok ⟨self.module_.next_addr, .SizedToFit false (MinimalWidth v)⟩,
          ⟨self.module_.next_addr + 1⟩) ∧
    (HandleNumber T CreateAnnotationSizedToFit self node).1
      = (T.SetTypeAnnotation self.table_ node.addr
          ⟨self.module_.next_addr, .SizedToFit false (MinimalWidth v)⟩).1 ∧
    ((HandleNumber T CreateAnnotationSizedToFit self node).1 = Status.OkStatus →
      T.GetTypeAnnotation (HandleNumber T CreateAnnotationSizedToFit self node).2.table_
        node.addr = some ⟨self.module_.next_addr, .SizedToFit false (MinimalWidth v)⟩) ∧
    (HandleNumber T CreateAnnotationSizedToFit self node).2.auto_literal_annotations_
      = insert ⟨self.module_.next_addr, .SizedToFit false (MinimalWidth v)⟩
          self.auto_literal_annotations_ ∧
    MinimalWidth 255 = 8 ∧ MinimalWidth 256 = 9 := by
  have hother : node.number_kind = NumberKind.kOther := by
    cases hk : node.number_kind with
    | kBool => exact absurd hk hkind
    | kOther => rfl
  have hnonneg : ¬ Int.ofNat v < 0 := Int.not_lt.mpr (Int.ofNat_nonneg v)
  have hfit : CreateAnnotationSizedToFit self.module_ node
      = (Except.ok ⟨self.module_.next_addr, .SizedToFit false (MinimalWidth v)⟩,
          ⟨self.module_.next_addr + 1⟩) := by
    simp only [CreateAnnotationSizedToFit, hother, hvalue, if_neg hnonneg, Module.Make]
    rfl
  refine ⟨MinimalWidth_least v, hfit, ?_, ?_, ?_, by decide, by decide⟩
  · simp only [HandleNumber, hnone, hfit]
  · intro hok
    simp only [HandleNumber, hnone, hfit] at hok ⊢
    exact hT.get_set_annotation self.table_ node.addr _ _ (Prod.ext hok rfl)
  · simp only [HandleNumber, hnone, hfit, if_pos hkind]

/-- Witness of C8 on the example visitor and the literal `255`. -/
theorem HandleNumber_sizes_to_fit_witness :
    TableState.ops.GetTypeAnnotation
      (HandleNumber TableState.ops CreateAnnotationSizedToFit exampleVisitor
        exampleLiteral).2.table_ 3 = some ⟨100, .SizedToFit false (MinimalWidth 255)⟩ ∧
    MinimalWidth 255 = 8 :=
  have h := HandleNumber_sizes_to_fit TableState.ops TableState.ops_lawful exampleVisitor
    exampleLiteral 255 rfl (by decide) rfl (by decide)
  ⟨h.2.2.2.1 rfl, h.2.2.2.2.2.1⟩

end PopulateInferenceTableVisitor

namespace PopulateInferenceTableVisitor

variable {σ : Type}

/-- The calls behind a recording that ends OK: one variable is defined, it is set on the
node, on its name definition and on its value, and the declared type, when there is
one, is set on the name definition; nothing but the table changes. -/
theorem RecordConstantDef_ok {T : InferenceTable σ}
    {self self1 : PopulateInferenceTableVisitor σ} {node : NodeId}
    {identifier span : String} {name_def : NodeId} {ta : Option TypeAnnotation}
    {value : NodeId}
    (h : RecordConstantDef T self node identifier span name_def ta value
      = (Status.OkStatus, self1)) :
    ∃ var t0 t1 t2 t3,
      T.DefineInternalVariable self.table_ .kType node
        (GenerateInternalTypeVariableName identifier span) = (Except.ok var, t0) ∧
      T.SetTypeVariable t0 node var = (Status.OkStatus, t1) ∧
      T.SetTypeVariable t1 name_def var = (Status.OkStatus, t2) ∧
      T.SetTypeVariable t2 value var = (Status.OkStatus, t3) ∧
      ((∃ a t4, ta = some a ∧ T.SetTypeAnnotation t3 name_def a = (Status.OkStatus, t4) ∧
          self1 = { self with table_ := t4 }) ∨
        (ta = none ∧ self1 = { self with table_ := t3 })) := by
  unfold RecordConstantDef at h
  split at h
  · cases h
  · rename_i var t0 h0
    split at h
    · cases h
    · rename_i t1 h1
      split at h
      · cases h
      · rename_i t2 h2
        split at h
        · cases h
        · rename_i t3 h3
          refine ⟨var, t0, t1, t2, t3, h0, h1, h2, h3, ?_⟩
          split at h
          · rename_i a
            left
            simp only [Prod.mk.injEq] at h
            exact ⟨a, _, rfl, Prod.ext h.1 rfl, h.2.symm⟩
          · right
            simp only [Prod.mk.injEq, true_and] at h
            exact ⟨rfl, h.symm⟩

/-- C9: binding-introducing nodes. When `HandleConstantDef` returns OK, one variable was
defined by the table, and in the table as it stands when the children are visited the
definition node, its name definition and its value all map to that variable and no
other node's variable changed; the name definition's annotation is the declared type
when the definition has one and is untouched when it has none; and the result is that of
`DefaultHandler` run from that recorded state. On the recording table of the spec the
variable is new: exactly one entry is added to the defined variables. -/
theorem HandleConstantDef_records_binding (T : InferenceTable σ) (hT : T.Lawful)
    (self self2 : PopulateInferenceTableVisitor σ) (node : NodeId)
    (identifier span : String) (name_def : NodeId) (ta : Option TypeAnnotation)
    (value : NodeId)
    (DefaultHandler : PopulateInferenceTableVisitor σ →
      Status × PopulateInferenceTableVisitor σ)
    (hok : HandleConstantDef T self node identifier span name_def ta value DefaultHandler
      = (Status.OkStatus, self2)) :
    (∃ var t0 self1,
      T.DefineInternalVariable self.table_ .kType node
        (GenerateInternalTypeVariableName identifier span) = (Except.ok var, t0) ∧
      RecordConstantDef T self node identifier span name_def ta value
        = (Status.OkStatus, self1) ∧
      T.GetTypeVariable self1.table_ node = some var ∧
      T.GetTypeVariable self1.table_ name_def = some var ∧
      T.GetTypeVariable self1.table_ value = some var ∧
      (∀ m, m ≠ node → m ≠ name_def → m ≠ value →
        T.GetTypeVariable self1.table_ m = T.GetTypeVariable self.table_ m) ∧
      (∀ a, ta = some a → T.GetTypeAnnotation self1.table_ name_def = some a) ∧
      (ta = none →
        T.GetTypeAnnotation self1.table_ name_def
          = T.GetTypeAnnotation self.table_ name_def) ∧
      (∀ m, m ≠ name_def →
        T.GetTypeAnnotation self1.table_ m = T.GetTypeAnnotation self.table_ m) ∧
      self1.module_ = self.module_ ∧
      self1.auto_literal_annotations_ = self.auto_literal_annotations_ ∧
      DefaultHandler self1 = (Status.OkStatus, self2)) ∧
    (∀ (s s1 : PopulateInferenceTableVisitor TableState),
      RecordConstantDef TableState.ops s node identifier span name_def ta value
        = (Status.OkStatus, s1) →
      s1.table_.defined = s.table_.defined ++
        [(InferenceVariableKind.kType, node,
          GenerateInternalTypeVariableName identifier span)]) := by
  constructor
  · unfold HandleConstantDef at hok
    split at hok
    · cases hok
    · rename_i self1 hrec
      obtain ⟨var, t0, t1, t2, t3, h0, h1, h2, h3, hta⟩ := RecordConstantDef_ok hrec
      -- the type variables after the three `SetTypeVariable` calls
      have hv3 : T.GetTypeVariable t3 value = some var := hT.get_set_variable _ _ _ _ h3
      have hn3 : T.GetTypeVariable t3 name_def = some var := by
        by_cases hm : name_def = value
        · rw [hm]; exact hv3
        · rw [hT.set_variable_other _ _ _ _ _ h3 hm]
          exact hT.get_set_variable _ _ _ _ h2
      have hd3 : T.GetTypeVariable t3 node = some var := by
        by_cases hm : node = value
        · rw [hm]; exact hv3
        · rw [hT.set_variable_other _ _ _ _ _ h3 hm]
          by_cases hm2 : node = name_def
          · rw [hm2]; exact hT.get_set_variable _ _ _ _ h2
          · rw [hT.set_variable_other _ _ _ _ _ h2 hm2]
            exact hT.get_set_variable _ _ _ _ h1
      have hrest3 : ∀ m, m ≠ node → m ≠ name_def → m ≠ value →
          T.GetTypeVariable t3 m = T.GetTypeVariable self.table_ m := by
        intro m hm1 hm2 hm3
        rw [hT.set_variable_other _ _ _ _ _ h3 hm3, hT.set_variable_other _ _ _ _ _ h2 hm2,
          hT.set_variable_other _ _ _ _ _ h1 hm1, hT.define_variable _ _ _ _ _ _ _ h0]
      have hann3 : ∀ m, T.GetTypeAnnotation t3 m = T.GetTypeAnnotation self.table_ m := by
        intro m
        rw [hT.set_variable_annotation _ _ _ _ _ _ h3,
          hT.set_variable_annotation _ _ _ _ _ _ h2,
          hT.set_variable_annotation _ _ _ _ _ _ h1, hT.define_annotation _ _ _ _ _ _ _ h0]
      rcases hta with ⟨a, t4, hta, h4, hself1⟩ | ⟨hta, hself1⟩
      · have hvar4 : ∀ m, T.GetTypeVariable t4 m = T.GetTypeVariable t3 m :=
          fun m => hT.set_annotation_variable _ _ _ _ _ m h4
        refine ⟨var, t0, self1, h0, hrec, ?_, ?_, ?_, ?_, ?_, ?_, ?_, ?_, ?_, hok⟩
        · rw [hself1]; exact (hvar4 node).trans hd3
        · rw [hself1]; exact (hvar4 name_def).trans hn3
        · rw [hself1]; exact (hvar4 value).trans hv3
        · intro m hm1 hm2 hm3
          rw [hself1]; exact (hvar4 m).trans (hrest3 m hm1 hm2 hm3)
        · intro b hb
          rw [hta] at hb
          cases hb
          rw [hself1]; exact hT.get_set_annotation _ _ _ _ h4
        · intro hnone
          rw [hta] at hnone
          cases hnone
        · intro m hm
          rw [hself1]
          exact (hT.set_annotation_other _ _ _ _ m h4 hm).trans (hann3 m)
        · rw [hself1]
        · rw [hself1]
      · refine ⟨var, t0, self1, h0, hrec, ?_, ?_, ?_, ?_, ?_, ?_, ?_, ?_, ?_, hok⟩
        · rw [hself1]; exact hd3
        · rw [hself1]; exact hn3
        · rw [hself1]; exact hv3
        · intro m hm1 hm2 hm3
          rw [hself1]; exact hrest3 m hm1 hm2 hm3
        · intro b hb
          rw [hta] at hb
          cases hb
        · intro _
          rw [hself1]; exact hann3 name_def
        · intro m _
          rw [hself1]; exact hann3 m
        · rw [hself1]
        · rw [hself1]
  · intro s s1 hrec
    obtain ⟨var, t0, t1, t2, t3, h0, h1, h2, h3, hta⟩ := RecordConstantDef_ok hrec
    simp only [TableState.ops, Prod.mk.injEq, Except.ok.injEq, true_and] at h0 h1 h2 h3
    obtain ⟨-, h0⟩ := h0
    rcases hta with ⟨a, t4, -, h4, hself1⟩ | ⟨-, hself1⟩
    · simp only [TableState.ops, Prod.mk.injEq, true_and] at h4
      rw [hself1, ← h4, ← h3, ← h2, ← h1, ← h0]
    · rw [hself1, ← h3, ← h2, ← h1, ← h0]

/-- Witness of C9: the pass on the example definition `const X: T = 255`. The variable 0
is set on the definition (1), its name definition (2) and its value (3), and the declared
type is the annotation of the name definition. -/
theorem HandleConstantDef_records_binding_witness :
    (Accept TableState.ops CreateAnnotationSizedToFit exampleConstantDef exampleVisitor).1
      = Status.OkStatus ∧
    exampleVisitorRecorded.table_.type_variable 1 = some 0 ∧
    exampleVisitorRecorded.table_.type_variable 2 = some 0 ∧
    exampleVisitorRecorded.table_.type_variable 3 = some 0 ∧
    exampleVisitorRecorded.table_.annotations 2 = some exampleDeclared ∧
    exampleVisitorRecorded.table_.defined.length = 1 ∧
    ∃ var t0 self1,
      TableState.ops.DefineInternalVariable exampleVisitor.table_ .kType 1
        (GenerateInternalTypeVariableName "X" "1:1") = (Except.ok var, t0) ∧
      TableState.ops.GetTypeVariable self1.table_ 3 = some var ∧
      DefaultHandler TableState.ops CreateAnnotationSizedToFit
        [.Other 2 [], .Other 50 [], .Number exampleLiteral] self1
        = Accept TableState.ops CreateAnnotationSizedToFit exampleConstantDef
            exampleVisitor := by
  refine ⟨by decide, rfl, rfl, rfl, rfl, rfl, ?_⟩
  obtain ⟨var, t0, self1, h0, -, -, -, hv, -, -, -, -, -, -, hdefault⟩ :=
    (HandleConstantDef_records_binding TableState.ops TableState.ops_lawful exampleVisitor
      (Accept TableState.ops CreateAnnotationSizedToFit exampleConstantDef exampleVisitor).2
      1 "X" "1:1" 2 (some exampleDeclared) 3
      (fun s => DefaultHandler TableState.ops CreateAnnotationSizedToFit
        [.Other 2 [], .Other 50 [], .Number exampleLiteral] s)
      (Prod.ext (by decide) rfl)).1
  exact ⟨var, t0, self1, h0, hv, hdefault.trans (Prod.ext (by decide) rfl)⟩

end PopulateInferenceTableVisitor

namespace PopulateInferenceTableVisitor

variable {σ : Type}

/-- C10: reference nodes. For a reference `ref` whose definition is `name_def`:
(i) when the definition has a type variable (whether or not it also has an annotation)
a new `TypeVariableTypeAnnotation` naming that variable is set on `ref`; (ii) otherwise,
when the definition has an annotation, that same annotation is set on `ref`;
(iii) otherwise the visitor is unchanged and the result is OK; and in every case the type
variable of every node, `ref` included, and the auto-annotation set stay as they were.
`HandleConstRef` and `HandleNameRef` both do exactly this. -/
theorem PropagateDefToRef_annotates_reference (T : InferenceTable σ) (hT : T.Lawful)
    (self : PopulateInferenceTableVisitor σ) (ref name_def : NodeId) :
    (∀ var, T.GetTypeVariable self.table_ name_def = some var →
      (PropagateDefToRef T self ref name_def).1
        = (T.SetTypeAnnotation self.table_ ref
            ⟨self.module_.next_addr, .TypeVariable var⟩).1 ∧
      ((PropagateDefToRef T self ref name_def).1 = Status.OkStatus →
        T.GetTypeAnnotation (PropagateDefToRef T self ref name_def).2.table_ ref
          = some ⟨self.module_.next_addr, .TypeVariable var⟩)) ∧
    (∀ a, T.GetTypeVariable self.table_ name_def = none →
      T.GetTypeAnnotation self.table_ name_def = some a →
      (PropagateDefToRef T self ref name_def).1 = (T.SetTypeAnnotation self.table_ ref a).1 ∧
      ((PropagateDefToRef T self ref name_def).1 = Status.OkStatus →
        T.GetTypeAnnotation (PropagateDefToRef T self ref name_def).2.table_ ref = some a) ∧
      (PropagateDefToRef T self ref name_def).2.module_ = self.module_) ∧
    (T.GetTypeVariable self.table_ name_def = none →
      T.GetTypeAnnotation self.table_ name_def = none →
      PropagateDefToRef T self ref name_def = (Status.OkStatus, self)) ∧
    (∀ m, T.GetTypeVariable (PropagateDefToRef T self ref name_def).2.table_ m
      = T.GetTypeVariable self.table_ m) ∧
    (PropagateDefToRef T self ref name_def).2.auto_literal_annotations_
      = self.auto_literal_annotations_ ∧
    HandleConstRef T self ref name_def = PropagateDefToRef T self ref name_def ∧
    HandleNameRef T self ref name_def = PropagateDefToRef T self ref name_def := by
  refine ⟨?_, ?_, ?_, ?_, ?_, rfl, rfl⟩
  · intro var hvar
    simp only [PropagateDefToRef, hvar, Module.Make]
    refine ⟨trivial, ?_⟩
    intro hok
    exact hT.get_set_annotation self.table_ ref _ _ (Prod.ext hok rfl)
  · intro a hvar hann
    simp only [PropagateDefToRef, hvar, hann]
    refine ⟨trivial, ?_, trivial⟩
    intro hok
    exact hT.get_set_annotation self.table_ ref a _ (Prod.ext hok rfl)
  · intro hvar hann
    simp only [PropagateDefToRef, hvar, hann]
  · intro m
    unfold PropagateDefToRef
    cases hvar : T.GetTypeVariable self.table_ name_def with
    | some var => exact hT.set_annotation_variable _ _ _ _ _ m rfl
    | none =>
      cases hann : T.GetTypeAnnotation self.table_ name_def with
      | some a => exact hT.set_annotation_variable _ _ _ _ _ m rfl
      | none => rfl
  · unfold PropagateDefToRef
    cases hvar : T.GetTypeVariable self.table_ name_def with
    | some var => rfl
    | none =>
      cases hann : T.GetTypeAnnotation self.table_ name_def with
      | some a => rfl
      | none => rfl

/-- Witness of C10: after `const X: T = ...` is recorded, a reference (node 4) to `X`
(name definition 2, which has both the variable 0 and the declared type) gets a new
annotation referring to the variable 0, not the declared type, and no type variable. -/
theorem PropagateDefToRef_annotates_reference_witness :
    exampleVisitorRecorded.table_.annotations 2 = some exampleDeclared ∧
    TableState.ops.GetTypeAnnotation
      (PropagateDefToRef TableState.ops exampleVisitorRecorded 4 2).2.table_ 4
      = some ⟨100, .TypeVariable 0⟩ ∧
    TableState.ops.GetTypeVariable
      (PropagateDefToRef TableState.ops exampleVisitorRecorded 4 2).2.table_ 4 = none :=
  have h := PropagateDefToRef_annotates_reference TableState.ops TableState.ops_lawful
    exampleVisitorRecorded 4 2
  ⟨rfl, (h.1 0 rfl).2 rfl, (h.2.2.2.1 4).trans rfl⟩

end PopulateInferenceTableVisitor

namespace TypeInfo

/-- On a heap whose parents precede their children every delegated lookup from an
object of the heap returns: the walk reaches a local entry or a root. -/
theorem delegated_returns {β : Type} {o : TypeInfoOwner} (h : o.ParentsPrecede = true)
    (here : TypeInfo → Option β) (absent : β) :
    ∀ (fuel : Nat) (t : TypeInfoPtr), t < fuel → t < o.type_infos_.length →
      ∃ b, delegated o here absent fuel t = .value b := by
  intro fuel
  induction fuel with
  | zero => intro t h1; exact absurd h1 (Nat.not_lt_zero t)
  | succ k ih =>
    intro t h1 hlt
    have hself : o.deref t = some (o.type_infos_.get ⟨t, hlt⟩) := by
      simp [TypeInfoOwner.deref, List.getElem?_eq_getElem hlt]
    cases hlocal : here (o.type_infos_.get ⟨t, hlt⟩) with
    | some b => exact ⟨b, delegated_here k hself hlocal⟩
    | none =>
      cases hparent : (o.type_infos_.get ⟨t, hlt⟩).parent_ with
      | none => exact ⟨absent, delegated_root k hself hlocal hparent⟩
      | some p =>
        have hp : p < t := TypeInfoOwner.parent_lt h hself hparent
        rw [delegated_parent k hself hlocal hparent]
        exact ih p (below_parent hp h1) (Nat.lt_trans hp hlt)

end TypeInfo

/-! ## The walk: `DefaultHandler` and `Accept` -/

namespace PopulateInferenceTableVisitor

variable {σ : Type}

theorem DefaultHandler_nil (T : InferenceTable σ) (fit : SizedToFit)
    (self : PopulateInferenceTableVisitor σ) :
    DefaultHandler T fit [] self = (Status.OkStatus, self) := by
  simp [DefaultHandler]

theorem DefaultHandler_cons (T : InferenceTable σ) (fit : SizedToFit) (child : AstNode)
    (rest : List AstNode) (self : PopulateInferenceTableVisitor σ) :
    DefaultHandler T fit (child :: rest) self =
      match Accept T fit child self with
      | (.error e, self1) => (.error e, self1)
      | (.OkStatus, self1) => DefaultHandler T fit rest self1 := by
  simp [DefaultHandler]

theorem DefaultHandler_cons_ok {T : InferenceTable σ} {fit : SizedToFit} {child : AstNode}
    (rest : List AstNode) {self self1 : PopulateInferenceTableVisitor σ}
    (h : Accept T fit child self = (Status.OkStatus, self1)) :
    DefaultHandler T fit (child :: rest) self = DefaultHandler T fit rest self1 := by
  rw [DefaultHandler_cons, h]

theorem DefaultHandler_cons_error {T : InferenceTable σ} {fit : SizedToFit}
    {child : AstNode} (rest : List AstNode) {self self1 : PopulateInferenceTableVisitor σ}
    {e : ErrorKind} (h : Accept T fit child self = (Status.error e, self1)) :
    DefaultHandler T fit (child :: rest) self = (Status.error e, self1) := by
  rw [DefaultHandler_cons, h]

/-- A status is OK or an error. -/
theorem Status.ok_or_error (st : Status) : st = Status.OkStatus ∨ ∃ e, st = Status.error e := by
  cases st with
  | OkStatus => exact Or.inl rfl
  | error e => exact Or.inr ⟨e, rfl⟩

theorem DefaultHandler_append_ok {T : InferenceTable σ} {fit : SizedToFit}
    (pre post : List AstNode) {self s : PopulateInferenceTableVisitor σ}
    (h : DefaultHandler T fit pre self = (Status.OkStatus, s)) :
    DefaultHandler T fit (pre ++ post) self = DefaultHandler T fit post s := by
  induction pre generalizing self with
  | nil =>
    rw [DefaultHandler_nil] at h
    cases h
    rfl
  | cons c cs ih =>
    rw [List.cons_append]
    rcases hc : Accept T fit c self with ⟨st, self1⟩
    rcases Status.ok_or_error st with hst | ⟨e, hst⟩
    · subst hst
      rw [DefaultHandler_cons_ok _ hc] at h
      rw [DefaultHandler_cons_ok _ hc]
      exact ih h
    · subst hst
      rw [DefaultHandler_cons_error _ hc] at h
      cases h

theorem DefaultHandler_error_split {T : InferenceTable σ} {fit : SizedToFit}
    (children : List AstNode) {self self1 : PopulateInferenceTableVisitor σ} {e : ErrorKind}
    (h : DefaultHandler T fit children self = (Status.error e, self1)) :
    ∃ pre c post s, children = pre ++ c :: post ∧
      DefaultHandler T fit pre self = (Status.OkStatus, s) ∧
      Accept T fit c s = (Status.error e, self1) := by
  induction children generalizing self with
  | nil =>
    rw [DefaultHandler_nil] at h
    cases h
  | cons c cs ih =>
    rcases hc : Accept T fit c self with ⟨st, s1⟩
    rcases Status.ok_or_error st with hst | ⟨e1, hst⟩
    · subst hst
      rw [DefaultHandler_cons_ok _ hc] at h
      obtain ⟨pre, c1, post, s, hsplit, hpre, hfail⟩ := ih h
      refine ⟨c :: pre, c1, post, s, by rw [hsplit, List.cons_append], ?_, hfail⟩
      rw [DefaultHandler_cons_ok _ hc]
      exact hpre
    · subst hst
      rw [DefaultHandler_cons_error _ hc] at h
      cases h
      exact ⟨[], c, cs, self, rfl, DefaultHandler_nil T fit self, hc⟩

/-- C11: the fail-fast walk. When `DefaultHandler` returns an error, the children split
into those before the failing child, all visited with OK, the failing child, whose
error and visitor (table and auto-annotation set) are the result as they stand, and the
children after it, which play no part; any child that fails after OK visits of all
before it decides the result so; and the result is OK exactly when every child, visited
after OK visits of all before it, is OK. -/
theorem DefaultHandler_fails_fast (T : InferenceTable σ) (fit : SizedToFit)
    (children : List AstNode) (self : PopulateInferenceTableVisitor σ) :
    (∀ e self1, DefaultHandler T fit children self = (Status.error e, self1) →
      ∃ pre c post s, children = pre ++ c :: post ∧
        DefaultHandler T fit pre self = (Status.OkStatus, s) ∧
        Accept T fit c s = (Status.error e, self1)) ∧
    (∀ pre c post s e self1, children = pre ++ c :: post →
      DefaultHandler T fit pre self = (Status.OkStatus, s) →
      Accept T fit c s = (Status.error e, self1) →
      ∀ later, DefaultHandler T fit (pre ++ c :: later) self = (Status.error e, self1)) ∧
    ((DefaultHandler T fit children self).1 = Status.OkStatus ↔
      ∀ pre c post s, children = pre ++ c :: post →
        DefaultHandler T fit pre self = (Status.OkStatus, s) →
        (Accept T fit c s).1 = Status.OkStatus) := by
  refine ⟨fun e self1 h => DefaultHandler_error_split children h, ?_, ?_⟩
  · intro pre c post s e self1 _ hpre hfail later
    rw [DefaultHandler_append_ok pre (c :: later) hpre]
    exact DefaultHandler_cons_error later hfail
  · constructor
    · intro hok pre c post s hsplit hpre
      rcases Status.ok_or_error (Accept T fit c s).1 with hst | ⟨e, hst⟩
      · exact hst
      · have hfail : Accept T fit c s = (Status.error e, (Accept T fit c s).2) :=
          Prod.ext hst rfl
        rw [hsplit, DefaultHandler_append_ok pre (c :: post) hpre,
          DefaultHandler_cons_error post hfail] at hok
        cases hok
    · intro hall
      rcases Status.ok_or_error (DefaultHandler T fit children self).1 with hst | ⟨e, hst⟩
      · exact hst
      · obtain ⟨pre, c, post, s, hsplit, hpre, hfail⟩ :=
          DefaultHandler_error_split children
            (Prod.ext hst rfl : DefaultHandler T fit children self
              = (Status.error e, (DefaultHandler T fit children self).2))
        have := hall pre c post s hsplit hpre
        rw [hfail] at this
        cases this

/-- Witness of C11: with a sized-to-fit helper that refuses, the walk over a reference,
the literal `255` and the literal `true` stops at `255`: the result is its error, and
the visitor is the one the reference left, whatever follows the literal. -/
theorem DefaultHandler_fails_fast_witness :
    DefaultHandler TableState.ops exampleRefusingFit exampleChildren exampleVisitorRecorded
      = (Status.error .UnificationFailure,
          (Accept TableState.ops exampleRefusingFit (.NameRef 4 2)
            exampleVisitorRecorded).2) ∧
    DefaultHandler TableState.ops exampleRefusingFit
        [.NameRef 4 2, .Number exampleLiteral] exampleVisitorRecorded
      = DefaultHandler TableState.ops exampleRefusingFit exampleChildren
          exampleVisitorRecorded :=
  have h := (DefaultHandler_fails_fast TableState.ops exampleRefusingFit exampleChildren
    exampleVisitorRecorded).2.1 [.NameRef 4 2] (.Number exampleLiteral) [.Number exampleTrue]
    (Accept TableState.ops exampleRefusingFit (.NameRef 4 2) exampleVisitorRecorded).2
    .UnificationFailure
    (Accept TableState.ops exampleRefusingFit (.NameRef 4 2) exampleVisitorRecorded).2
    rfl rfl rfl
  ⟨h [.Number exampleTrue], (h []).trans (h [.Number exampleTrue]).symm⟩

end PopulateInferenceTableVisitor

/-! ## `TypecheckModuleV2` -/

/-- C12: `TypecheckModuleV2` runs the population pass from a new table and an empty
auto-annotation set. When the pass returns an error the result is that error, whatever
the resolution phase is (it is not called) and no `TypeInfo` handle is returned; when
the pass returns OK the result is the resolution phase's result on the populated table
and the visitor's auto-annotation set. -/
theorem TypecheckModuleV2_pass_then_resolution {σ ι ω : Type} (T : InferenceTable σ)
    (Create : Module → ι → σ) (fit : SizedToFit) (module : Module) (module_node : AstNode)
    (import_data : ι) (warnings : ω) :
    (∀ e visitor1,
      PopulateInferenceTableVisitor.Accept T fit module_node
        { module_ := module, table_ := Create module import_data,
          auto_literal_annotations_ := ∅ } = (Status.error e, visitor1) →
      ∀ resolution,
        TypecheckModuleV2 T Create fit resolution module module_node import_data warnings
          = Except.error e) ∧
    (∀ visitor1,
      PopulateInferenceTableVisitor.Accept T fit module_node
        { module_ := module, table_ := Create module import_data,
          auto_literal_annotations_ := ∅ } = (Status.OkStatus, visitor1) →
      ∀ resolution,
        TypecheckModuleV2 T Create fit resolution module module_node import_data warnings
          = resolution visitor1.table_ visitor1.module_ import_data warnings
              visitor1.auto_literal_annotations_) := by
  constructor
  · intro e visitor1 h resolution
    simp only [TypecheckModuleV2, h]
  · intro visitor1 h resolution
    simp only [TypecheckModuleV2, h]

/-- Witness of C12 on the example module: with the sized-to-fit helper of the spec the
pass succeeds and the result is the resolution's answer for the one auto annotation;
with a helper that refuses, the result is the pass's error. -/
theorem TypecheckModuleV2_pass_then_resolution_witness :
    TypecheckModuleV2 TableState.ops (fun _ _ => TableState.Create)
        CreateAnnotationSizedToFit exampleResolution ⟨100⟩ exampleModuleNode () ()
      = Except.ok 1 ∧
    TypecheckModuleV2 TableState.ops (fun _ _ => TableState.Create)
        exampleRefusingFit exampleResolution ⟨100⟩ exampleModuleNode () ()
      = Except.error .UnificationFailure ∧
    (PopulateInferenceTableVisitor.Accept TableState.ops exampleRefusingFit exampleModuleNode
        exampleVisitor).1 = Status.error .UnificationFailure :=
  have hok := (TypecheckModuleV2_pass_then_resolution TableState.ops
    (fun _ _ => TableState.Create) CreateAnnotationSizedToFit ⟨100⟩ exampleModuleNode ()
    ()).2 _ (Prod.ext (by decide) rfl) exampleResolution
  have herr := (TypecheckModuleV2_pass_then_resolution TableState.ops
    (fun _ _ => TableState.Create) exampleRefusingFit ⟨100⟩ exampleModuleNode ()
    ()).1 .UnificationFailure _ (Prod.ext (by decide) rfl) exampleResolution
  ⟨hok.trans rfl, herr, by decide⟩

/-! ## The walk to the root -/

namespace TypeInfo

theorem GetRootFuel_value {o : TypeInfoOwner} :
    ∀ (fuel : Nat) (t r : TypeInfoPtr), GetRootFuel o fuel t = .value r →
      ∃ root, o.deref r = some root ∧ root.parent_ = none ∧ r ∈ chain o fuel t := by
  intro fuel
  induction fuel with
  | zero => intro t r h; simp [GetRootFuel] at h
  | succ k ih =>
    intro t r h
    cases hself : o.deref t with
    | none => simp [GetRootFuel, hself] at h
    | some ti =>
      cases hparent : ti.parent_ with
      | none =>
        simp only [GetRootFuel, hself, hparent, Outcome.value.injEq] at h
        subst h
        exact ⟨ti, hself, hparent, by simp [chain]⟩
      | some p =>
        simp only [GetRootFuel, hself, hparent] at h
        obtain ⟨root, hr, hnone, hmem⟩ := ih p r h
        refine ⟨root, hr, hnone, ?_⟩
        simp only [chain, hself, hparent]
        exact List.mem_cons_of_mem _ hmem

theorem GetRoot_of_root {o : TypeInfoOwner} {r : TypeInfoPtr} {root : TypeInfo}
    (hr : o.deref r = some root) (hnone : root.parent_ = none) : GetRoot o r = .value r := by
  obtain ⟨k, hk⟩ := Nat.exists_eq_succ_of_ne_zero
    (Nat.ne_of_gt (Nat.lt_of_le_of_lt (Nat.zero_le _) (TypeInfoOwner.deref_lt hr)))
  simp only [GetRoot, hk, GetRootFuel, hr, hnone]

theorem GetRootFuel_returns {o : TypeInfoOwner} :
    ∀ (fuel : Nat) (t : TypeInfoPtr), (chain o (fuel + 1) t).length ≤ fuel →
      (∀ x, x ∈ chain o (fuel + 1) t → (o.deref x).isSome = true) →
      ∃ r, GetRootFuel o fuel t = .value r := by
  intro fuel
  induction fuel with
  | zero => intro t hlen; simp [chain] at hlen
  | succ k ih =>
    intro t hlen hvalid
    have ht : (o.deref t).isSome = true := hvalid t (by simp [chain])
    cases hself : o.deref t with
    | none => rw [hself] at ht; cases ht
    | some ti =>
      cases hparent : ti.parent_ with
      | none => exact ⟨t, by simp [GetRootFuel, hself, hparent]⟩
      | some p =>
        have hchain : chain o (k + 1 + 1) t = t :: chain o (k + 1) p := by
          simp [chain, hself, hparent]
        rw [hchain] at hlen hvalid
        obtain ⟨r, hr⟩ := ih p (by simpa using hlen)
          (fun x hx => hvalid x (List.mem_cons_of_mem _ hx))
        exact ⟨r, by simp [GetRootFuel, hself, hparent, hr]⟩

/-- A list of numbers below `n` without repetition has at most `n` members. -/
theorem length_le_of_nodup_of_lt {l : List Nat} {n : Nat} (hnodup : l.Nodup)
    (hlt : ∀ x, x ∈ l → x < n) : l.length ≤ n := by
  have hsub : l.toFinset ⊆ Finset.range n := by
    intro x hx
    exact Finset.mem_range.mpr (hlt x (List.mem_toFinset.mp hx))
  have hcard := Finset.card_le_card hsub
  rwa [List.toFinset_card_of_nodup hnodup, Finset.card_range] at hcard

/-- On an acyclic parent chain the walk to the root ends: `GetRoot` returns. -/
theorem GetRoot_returns_of_acyclic {o : TypeInfoOwner} {t : TypeInfoPtr}
    (h : AcyclicChain o t = true) : ∃ r, GetRoot o t = .value r := by
  simp only [AcyclicChain, Bool.and_eq_true, decide_eq_true_eq, List.all_eq_true] at h
  obtain ⟨hnodup, hvalid⟩ := h
  refine GetRootFuel_returns o.type_infos_.length t ?_ hvalid
  apply length_le_of_nodup_of_lt hnodup
  intro x hx
  have hsome := hvalid x hx
  cases hx1 : o.deref x with
  | none => rw [hx1] at hsome; cases hsome
  | some tx => exact TypeInfoOwner.deref_lt hx1

/-- C18: on an acyclic parent chain `IsRoot(t)`, computed as `t == GetRoot(t)`, returns,
and it holds if and only if `t` has no parent. -/
theorem IsRoot_iff_no_parent (o : TypeInfoOwner) (t : TypeInfoPtr) (ti : TypeInfo)
    (hacyclic : AcyclicChain o t = true) (ht : o.deref t = some ti) :
    IsRoot o t = .value ti.parent_.isNone ∧
    (IsRoot o t = .value true ↔ ti.parent_ = none) := by
  obtain ⟨r, hr⟩ := GetRoot_returns_of_acyclic hacyclic
  obtain ⟨root, hroot, hnone, -⟩ := GetRootFuel_value _ t r hr
  have hval : IsRoot o t = .value ti.parent_.isNone := by
    unfold IsRoot
    rw [hr]
    simp only [Outcome.andThen, Outcome.value.injEq]
    cases hparent : ti.parent_ with
    | none =>
      have := GetRoot_of_root ht hparent
      rw [hr] at this
      cases this
      simp
    | some p =>
      have hne : t ≠ r := by
        intro heq
        subst heq
        rw [ht] at hroot
        cases hroot
        rw [hparent] at hnone
        cases hnone
      simp [hne]
  refine ⟨hval, ?_⟩
  rw [hval]
  cases ti.parent_ <;> simp

/-- Witness of C18 on the example owner: the root (address 0) is a root, the derived
node (address 1) is not. -/
theorem IsRoot_iff_no_parent_witness :
    IsRoot exampleOwner 0 = .value true ∧ IsRoot exampleOwner 1 = .value false :=
  ⟨(IsRoot_iff_no_parent exampleOwner 0 (TypeInfo.init 7 none) (by decide) rfl).1,
    (IsRoot_iff_no_parent exampleOwner 1 (TypeInfo.init 7 (some 0)) (by decide) rfl).1⟩

/-- C19: on an acyclic parent chain `GetRootInvocations(t)` does not trip the check
`XLS_CHECK(IsRoot())` of `invocations()`: `GetRoot(t)` returns a node that satisfies
`IsRoot`, and the result is the invocation map of that root, the same for every node
whose root it is. -/
theorem GetRootInvocations_passes_check (o : TypeInfoOwner) (t : TypeInfoPtr)
    (hacyclic : AcyclicChain o t = true) :
    ∃ r root, GetRoot o t = .value r ∧ o.deref r = some root ∧ root.parent_ = none ∧
      IsRoot o r = .value true ∧
      invocations o r = .value root.invocations_ ∧
      GetRootInvocations o t = .value root.invocations_ ∧
      (∀ e, GetRootInvocations o t ≠ .check_failure e) ∧
      ∀ t2, GetRoot o t2 = .value r → GetRootInvocations o t2 = GetRootInvocations o t := by
  obtain ⟨r, hr⟩ := GetRoot_returns_of_acyclic hacyclic
  obtain ⟨root, hroot, hnone, -⟩ := GetRootFuel_value _ t r hr
  have hrr : GetRoot o r = .value r := GetRoot_of_root hroot hnone
  have hisroot : IsRoot o r = .value true := by
    unfold IsRoot
    rw [hrr]
    simp [Outcome.andThen]
  have hinv : invocations o r = .value root.invocations_ := by
    unfold invocations
    rw [hisroot]
    simp [Outcome.andThen, hroot]
  have hget : GetRootInvocations o t = .value root.invocations_ := by
    unfold GetRootInvocations
    rw [hr]
    exact hinv
  refine ⟨r, root, hr, hroot, hnone, hisroot, hinv, hget, ?_, ?_⟩
  · intro e h
    rw [hget] at h
    cases h
  · intro t2 h2
    rw [hget]
    unfold GetRootInvocations
    rw [h2]
    exact hinv

/-- Witness of C19 on the example owner with a recorded invocation: the derived node and
the root read the same map, which holds the invocation 5. -/
theorem GetRootInvocations_passes_check_witness :
    ∃ invs, GetRootInvocations exampleOwnerInvoked 1 = .value invs ∧
      GetRootInvocations exampleOwnerInvoked 0 = .value invs ∧
      (invs 5).isSome = true := by
  obtain ⟨r, root, hr, hroot, -, -, -, hget, -, hsame⟩ :=
    GetRootInvocations_passes_check exampleOwnerInvoked 1 (by decide)
  have hr0 : r = 0 := by
    have h1 : GetRoot exampleOwnerInvoked 1 = .value 0 := rfl
    rw [h1] at hr
    cases hr
    rfl
  subst hr0
  refine ⟨root.invocations_, hget, ?_, ?_⟩
  · rw [hsame 0 rfl]; exact hget
  · have h0 : exampleOwnerInvoked.deref 0 = some root := hroot
    have h1 : ∃ ti, exampleOwnerInvoked.deref 0 = some ti ∧ (ti.invocations_ 5).isSome = true :=
      ⟨_, rfl, rfl⟩
    obtain ⟨ti, hti, h5⟩ := h1
    rw [h0] at hti
    cases hti
    exact h5

end TypeInfo

/-! ## What one call does to the heap -/

theorem TypeInfoOwner.parentsPrecede_of_forall {o : TypeInfoOwner}
    (h : ∀ t ti p, o.deref t = some ti → ti.parent_ = some p → p < t) :
    o.ParentsPrecede = true := by
  unfold TypeInfoOwner.ParentsPrecede
  rw [List.all_eq_true]
  intro t _
  cases hself : o.deref t with
  | none => rfl
  | some ti =>
    cases hparent : ti.parent_ with
    | none => simp only [hparent]
    | some p =>
      simp only [hparent]
      exact decide_eq_true (h t ti p hself hparent)

theorem TypeInfoOwner.deref_store (o : TypeInfoOwner) {t : TypeInfoPtr} (ti1 : TypeInfo)
    (ht : t < o.type_infos_.length) (u : TypeInfoPtr) :
    (o.store t ti1).deref u = if u = t then some ti1 else o.deref u := by
  by_cases hu : u = t
  · rw [if_pos hu, hu]; exact TypeInfoOwner.deref_store_same ti1 ht
  · rw [if_neg hu]; exact TypeInfoOwner.deref_store_other o ti1 (Ne.symm hu)

theorem TypeInfoOwner.deref_append {o o1 : TypeInfoOwner} {x : TypeInfo}
    (h : o1.type_infos_ = o.type_infos_ ++ [x]) (u : TypeInfoPtr) :
    o1.deref u = if u = o.type_infos_.length then some x else o.deref u := by
  unfold TypeInfoOwner.deref
  rw [h]
  by_cases hu : u = o.type_infos_.length
  · rw [if_pos hu, hu]; exact List.getElem?_concat_length _ _
  · rw [if_neg hu]
    rcases Nat.lt_or_gt_of_ne hu with hlt | hgt
    · exact List.getElem?_append_left hlt
    · rw [List.getElem?_eq_none (by simp; omega), List.getElem?_eq_none (by omega)]

theorem TypeInfoOwner.New_value {o o1 : TypeInfoOwner} {M : ModulePtr}
    {parent : Option TypeInfoPtr} {t : TypeInfoPtr} (h : o.New M parent = .value (t, o1)) :
    t = o.type_infos_.length ∧
    o1.type_infos_ = o.type_infos_ ++ [TypeInfo.init M parent] ∧
    (∀ M1, M1 ≠ M → o1.module_to_root_ M1 = o.module_to_root_ M1) ∧
    (parent = none → o.module_to_root_ M = none ∧ o1.module_to_root_ M = some t) ∧
    (∀ p, parent = some p → o1.module_to_root_ = o.module_to_root_) := by
  cases parent with
  | none =>
    cases hroot : o.module_to_root_ M with
    | some t0 => simp [TypeInfoOwner.New, hroot] at h
    | none =>
      simp only [TypeInfoOwner.New, hroot, Outcome.value.injEq, Prod.mk.injEq] at h
      obtain ⟨ht, ho⟩ := h
      subst ho
      subst ht
      refine ⟨rfl, rfl, ?_, ?_, ?_⟩
      · intro M1 hM1; simp [hM1]
      · intro _; simp
      · intro p hp; cases hp
  | some q =>
    simp only [TypeInfoOwner.New, Outcome.value.injEq, Prod.mk.injEq] at h
    obtain ⟨ht, ho⟩ := h
    subst ho
    subst ht
    refine ⟨rfl, rfl, ?_, ?_, ?_⟩
    · intro M1 _; rfl
    · intro hp; cases hp
    · intro p _; rfl

theorem TypeInfoOwner.New_value_or_status (o : TypeInfoOwner) (M : ModulePtr)
    (parent : Option TypeInfoPtr) :
    (∃ o1, o.New M parent = .value (o.type_infos_.length, o1)) ∨
    (o.New M parent = .status .DuplicateRoot ∧ parent = none ∧
      ∃ t, o.module_to_root_ M = some t) := by
  cases parent with
  | none =>
    cases hroot : o.module_to_root_ M with
    | some t0 => right; simp [TypeInfoOwner.New, hroot]
    | none => left; simp [TypeInfoOwner.New, hroot]
  | some q => left; simp [TypeInfoOwner.New]

namespace TypeInfo

theorem NoteConstExpr_value {o o1 : TypeInfoOwner} {self : TypeInfoPtr}
    {const_expr : AstNodePtr} {value : InterpValue}
    (h : NoteConstExpr o self const_expr value = .value o1) :
    ∃ ti, o.deref self = some ti ∧
      o1 = o.store self
        { ti with
          const_exprs_ := fun k => if k = const_expr then some (some value)
                                   else ti.const_exprs_ k } := by
  unfold NoteConstExpr at h
  cases hself : o.deref self with
  | none => rw [hself] at h; cases h
  | some ti =>
    rw [hself] at h
    simp only [Outcome.value.injEq] at h
    exact ⟨ti, rfl, h.symm⟩

theorem SetItem_value_exists {o o1 : TypeInfoOwner} {self : TypeInfoPtr}
    {key : AstNodePtr} {value : ConcreteType} (h : SetItem o self key value = .value o1) :
    ∃ ti, o.deref self = some ti ∧ key.owner = ti.module_ ∧
      o1 = o.store self
        { ti with
          dict_ := fun k => if k = key then some value.CloneToUnique else ti.dict_ k } := by
  cases hself : o.deref self with
  | none => simp [SetItem, hself] at h
  | some ti =>
    obtain ⟨hown, ho1⟩ := SetItem_value hself h
    exact ⟨ti, rfl, hown, ho1⟩

theorem AddInvocationTypeInfo_fields {o o1 : TypeInfoOwner} {self : TypeInfoPtr}
    {invocation : NodeId} {caller : Option FunctionPtr}
    {caller_env callee_env : ParametricEnv} {derived : TypeInfoPtr}
    (h : AddInvocationTypeInfo o self invocation caller caller_env callee_env derived
      = .value o1) :
    ∃ top root g, GetRoot o self = .value top ∧ o.deref top = some root ∧
      o1 = o.store top { root with invocations_ := g } := by
  unfold AddInvocationTypeInfo AddInvocationTypeInfoWith at h
  cases hroot : GetRoot o self with
  | status e => rw [hroot] at h; cases h
  | check_failure e => rw [hroot] at h; cases h
  | undefined => rw [hroot] at h; cases h
  | value top =>
    rw [hroot] at h
    simp only [Outcome.andThen] at h
    cases htop : o.deref top with
    | none => rw [htop] at h; cases h
    | some root =>
      rw [htop] at h
      simp only at h
      cases hentry : root.invocations_ invocation with
      | none =>
        rw [hentry] at h
        simp only [Outcome.value.injEq] at h
        exact ⟨top, root, _, rfl, htop, h.symm⟩
      | some data =>
        rw [hentry] at h
        by_cases hcaller : data.caller = caller
        · simp only [] at h
          rw [if_pos hcaller] at h
          simp only [Outcome.value.injEq] at h
          exact ⟨top, root, _, rfl, htop, h.symm⟩
        · simp only [] at h
          rw [if_neg hcaller] at h
          cases h

end TypeInfo

/-- What a call that returns has done to the heap: nothing (a `New` that handed back a
status), or a new object was appended by `New`, or one object was overwritten by an
object with the same module and parent whose `dict_` gained at most a key owned by
that module. -/
theorem TypeInfoOwner.after_value {o o1 : TypeInfoOwner} {c : Call}
    (h : o.after c = .value o1) :
    o1 = o ∨
    (∃ M parent, c = Call.New M parent ∧
      (∀ p, parent = some p → p < o.type_infos_.length) ∧
      o.New M parent = .value (o.type_infos_.length, o1)) ∨
    (∃ t ti ti1, (∀ M parent, c ≠ Call.New M parent) ∧ o.deref t = some ti ∧
      o1 = o.store t ti1 ∧ ti1.module_ = ti.module_ ∧
      ti1.parent_ = ti.parent_ ∧
      ∀ k ty, ti1.dict_ k = some ty → ti.dict_ k = some ty ∨ k.owner = ti.module_) := by
  cases c with
  | New M parent =>
    simp only [TypeInfoOwner.after] at h
    split at h
    · rename_i hparent
      rcases o.New_value_or_status M parent with ⟨o2, hnew⟩ | ⟨hstatus, -, -⟩
      · rw [hnew] at h
        simp only [Outcome.value.injEq] at h
        subst h
        right; left
        refine ⟨M, parent, rfl, ?_, hnew⟩
        intro p hp
        subst hp
        simpa using hparent
      · rw [hstatus] at h
        simp only [Outcome.value.injEq] at h
        exact Or.inl h.symm
    · cases h
  | SetItem self key value =>
    obtain ⟨ti, hself, hown, ho1⟩ := TypeInfo.SetItem_value_exists h
    right; right
    refine ⟨self, ti, _, fun _ _ hc => Call.noConfusion hc, hself, ho1, rfl, rfl, ?_⟩
    intro k ty hk
    by_cases hkey : k = key
    · right; rw [hkey]; exact hown
    · left; simpa [hkey] using hk
  | NoteConstExpr self const_expr value =>
    obtain ⟨ti, hself, ho1⟩ := TypeInfo.NoteConstExpr_value h
    right; right
    exact ⟨self, ti, _, fun _ _ hc => Call.noConfusion hc, hself, ho1, rfl, rfl,
      fun k ty hk => Or.inl hk⟩
  | AddInvocationTypeInfo self invocation caller caller_env callee_env derived =>
    obtain ⟨top, root, g, -, htop, ho1⟩ := TypeInfo.AddInvocationTypeInfo_fields h
    right; right
    exact ⟨top, root, _, fun _ _ hc => Call.noConfusion hc, htop, ho1, rfl, rfl,
      fun k ty hk => Or.inl hk⟩

theorem TypeInfoOwner.afterAll_invariant (P : TypeInfoOwner → Prop)
    (hstep : ∀ o c o1, P o → o.after c = .value o1 → P o1) :
    ∀ (cs : List Call) (o o1 : TypeInfoOwner), P o → o.afterAll cs = .value o1 → P o1 := by
  intro cs
  induction cs with
  | nil =>
    intro o o1 hP h
    simp only [TypeInfoOwner.afterAll, Outcome.value.injEq] at h
    rw [← h]; exact hP
  | cons c cs ih =>
    intro o o1 hP h
    simp only [TypeInfoOwner.afterAll] at h
    cases hc : o.after c with
    | value o2 =>
      rw [hc] at h
      exact ih o2 o1 (hstep o c o2 hP hc) h
    | status e => rw [hc] at h; cases h
    | check_failure e => rw [hc] at h; cases h
    | undefined => rw [hc] at h; cases h

/-! ## Heaps built by calls are forests -/

theorem TypeInfoOwner.ParentsPrecede_after {o o1 : TypeInfoOwner} {c : Call}
    (hP : o.ParentsPrecede = true) (h : o.after c = .value o1) :
    o1.ParentsPrecede = true := by
  rcases TypeInfoOwner.after_value h with hsame | ⟨M, parent, -, hparent, hnew⟩ |
    ⟨t, ti, ti1, -, hself, ho1, -, hpar, -⟩
  · rw [hsame]; exact hP
  · obtain ⟨-, happ, -, -, -⟩ := TypeInfoOwner.New_value hnew
    apply TypeInfoOwner.parentsPrecede_of_forall
    intro u tu p hu hp
    rw [TypeInfoOwner.deref_append happ u] at hu
    by_cases hlast : u = o.type_infos_.length
    · rw [if_pos hlast] at hu
      cases hu
      rw [hlast]
      exact hparent p hp
    · rw [if_neg hlast] at hu
      exact TypeInfoOwner.parent_lt hP hu hp
  · apply TypeInfoOwner.parentsPrecede_of_forall
    intro u tu p hu hp
    rw [ho1, TypeInfoOwner.deref_store o ti1 (TypeInfoOwner.deref_lt hself) u] at hu
    by_cases hut : u = t
    · rw [if_pos hut] at hu
      cases hu
      rw [hpar] at hp
      rw [hut]
      exact TypeInfoOwner.parent_lt hP hself hp
    · rw [if_neg hut] at hu
      exact TypeInfoOwner.parent_lt hP hu hp

theorem TypeInfoOwner.ParentsPrecede_history {calls : List Call} {o : TypeInfoOwner}
    (h : TypeInfoOwner.history calls = .value o) : o.ParentsPrecede = true :=
  TypeInfoOwner.afterAll_invariant (fun o => o.ParentsPrecede = true)
    (fun _ _ _ hP hc => TypeInfoOwner.ParentsPrecede_after hP hc) calls
    TypeInfoOwner.empty o rfl h

namespace TypeInfo

theorem chain_le {o : TypeInfoOwner} (hP : o.ParentsPrecede = true) :
    ∀ (fuel : Nat) (t x : TypeInfoPtr), x ∈ chain o fuel t → x ≤ t := by
  intro fuel
  induction fuel with
  | zero => intro t x hx; simp [chain] at hx
  | succ k ih =>
    intro t x hx
    simp only [chain, List.mem_cons] at hx
    rcases hx with hx | hx
    · exact Nat.le_of_eq hx
    · cases hself : o.deref t with
      | none => simp [hself] at hx
      | some ti =>
        cases hparent : ti.parent_ with
        | none => simp [hself, hparent] at hx
        | some p =>
          simp only [hself, hparent] at hx
          exact Nat.le_of_lt (Nat.lt_of_le_of_lt (ih p x hx)
            (TypeInfoOwner.parent_lt hP hself hparent))

theorem chain_nodup {o : TypeInfoOwner} (hP : o.ParentsPrecede = true) :
    ∀ (fuel : Nat) (t : TypeInfoPtr), (chain o fuel t).Nodup := by
  intro fuel
  induction fuel with
  | zero => intro t; simp [chain]
  | succ k ih =>
    intro t
    cases hself : o.deref t with
    | none => simp [chain, hself]
    | some ti =>
      cases hparent : ti.parent_ with
      | none => simp [chain, hself, hparent]
      | some p =>
        simp only [chain, hself, hparent, List.nodup_cons]
        refine ⟨?_, ih p⟩
        intro hmem
        exact absurd (chain_le hP k p t hmem)
          (Nat.not_le_of_lt (TypeInfoOwner.parent_lt hP hself hparent))

theorem chain_in_heap {o : TypeInfoOwner} (hP : o.ParentsPrecede = true) :
    ∀ (fuel : Nat) (t x : TypeInfoPtr), t < o.type_infos_.length → x ∈ chain o fuel t →
      (o.deref x).isSome = true := by
  intro fuel t x ht hx
  have hle : x ≤ t := chain_le hP fuel t x hx
  have hlt : x < o.type_infos_.length := Nat.lt_of_le_of_lt hle ht
  simp [TypeInfoOwner.deref, List.getElem?_eq_getElem hlt]

/-- On a heap whose parents precede their children every parent chain is acyclic. -/
theorem AcyclicChain_of_ParentsPrecede {o : TypeInfoOwner} (hP : o.ParentsPrecede = true)
    {t : TypeInfoPtr} (ht : t < o.type_infos_.length) : AcyclicChain o t = true := by
  simp only [AcyclicChain, Bool.and_eq_true, decide_eq_true_eq, List.all_eq_true]
  exact ⟨chain_nodup hP _ t, fun x hx => chain_in_heap hP _ t x ht hx⟩

/-- C17: tree shape. In every owner a history of calls leaves (each parent handle given
to `New` being a node an earlier `New` returned) every parent lies before its child, so
no parent chain has a cycle; for every node `GetRoot` returns, its result is on the
node's parent chain (the node or an ancestor), has no parent, and is its own root, so
taking the root twice is taking it once. -/
theorem history_is_forest (calls : List Call) (o : TypeInfoOwner)
    (h : TypeInfoOwner.history calls = .value o) :
    o.ParentsPrecede = true ∧
    ∀ t, t < o.type_infos_.length →
      AcyclicChain o t = true ∧
      ∃ r root, GetRoot o t = .value r ∧ o.deref r = some root ∧ root.parent_ = none ∧
        r ∈ chain o o.type_infos_.length t ∧ GetRoot o r = .value r ∧
        (GetRoot o t).andThen (GetRoot o) = GetRoot o t := by
  have hP := TypeInfoOwner.ParentsPrecede_history h
  refine ⟨hP, ?_⟩
  intro t ht
  have hacyclic := AcyclicChain_of_ParentsPrecede hP ht
  refine ⟨hacyclic, ?_⟩
  obtain ⟨r, hr⟩ := GetRoot_returns_of_acyclic hacyclic
  obtain ⟨root, hroot, hnone, hmem⟩ := GetRootFuel_value _ t r hr
  have hrr := GetRoot_of_root hroot hnone
  refine ⟨r, root, hr, hroot, hnone, hmem, hrr, ?_⟩
  rw [hr]
  exact hrr

/-- Witness of C17: the example owner is what two `New` calls leave, and the walk from
its derived node ends at the root 0. -/
theorem history_is_forest_witness :
    TypeInfoOwner.history exampleCalls = .value exampleOwner ∧
    exampleOwner.ParentsPrecede = true ∧
    AcyclicChain exampleOwner 1 = true ∧
    GetRoot exampleOwner 1 = .value 0 ∧
    chain exampleOwner 2 1 = [1, 0] :=
  have h := history_is_forest exampleCalls exampleOwner rfl
  ⟨rfl, h.1, (h.2 1 (by decide)).1, rfl, rfl⟩

end TypeInfo

/-! ## The ownership invariant -/

theorem TypeInfoOwner.OwnedKeys_after {o o1 : TypeInfoOwner} {c : Call}
    (hP : o.OwnedKeys) (h : o.after c = .value o1) : o1.OwnedKeys := by
  rcases TypeInfoOwner.after_value h with hsame | ⟨M, parent, -, -, hnew⟩ |
    ⟨t, ti, ti1, -, hself, ho1, hmod, -, hdict⟩
  · rw [hsame]; exact hP
  · obtain ⟨-, happ, -, -, -⟩ := TypeInfoOwner.New_value hnew
    intro u tu key ty hu hkey
    rw [TypeInfoOwner.deref_append happ u] at hu
    by_cases hlast : u = o.type_infos_.length
    · rw [if_pos hlast] at hu
      cases hu
      simp [TypeInfo.init] at hkey
    · rw [if_neg hlast] at hu
      exact hP u tu key ty hu hkey
  · intro u tu key ty hu hkey
    rw [ho1, TypeInfoOwner.deref_store o ti1 (TypeInfoOwner.deref_lt hself) u] at hu
    by_cases hut : u = t
    · rw [if_pos hut] at hu
      cases hu
      rw [hmod]
      rcases hdict key ty hkey with hold | hown
      · exact hP t ti key ty hself hold
      · exact hown
    · rw [if_neg hut] at hu
      exact hP u tu key ty hu hkey

/-- C13: the ownership invariant. In every owner a history of calls leaves, every key of
every node's `dict_` is owned by the node's module. `SetItem` with a key owned by another
module ends in the failed check OwnershipViolation, with no heap after it; with a key of
the node's module it returns a heap in which the node maps the key to a clone of the
type, maps every other key as before, and every other node is as before. -/
theorem SetItem_keeps_ownership (calls : List Call) (o : TypeInfoOwner)
    (self : TypeInfoPtr) (ti : TypeInfo) (key : AstNodePtr) (value : ConcreteType) :
    (TypeInfoOwner.history calls = .value o → o.OwnedKeys) ∧
    (o.deref self = some ti → key.owner ≠ ti.module_ →
      TypeInfo.SetItem o self key value = .check_failure .OwnershipViolation) ∧
    (o.deref self = some ti → key.owner = ti.module_ →
      ∃ o1 ti1, TypeInfo.SetItem o self key value = .value o1 ∧
        o1.deref self = some ti1 ∧
        ti1.dict_ key = some value.CloneToUnique ∧
        value.CloneToUnique = value ∧
        (∀ k, k ≠ key → ti1.dict_ k = ti.dict_ k) ∧
        ti1.module_ = ti.module_ ∧ ti1.parent_ = ti.parent_ ∧
        (∀ u, u ≠ self → o1.deref u = o.deref u) ∧
        (o.OwnedKeys → o1.OwnedKeys)) := by
  refine ⟨?_, ?_, ?_⟩
  · intro h
    exact TypeInfoOwner.afterAll_invariant TypeInfoOwner.OwnedKeys
      (fun _ _ _ hP hc => TypeInfoOwner.OwnedKeys_after hP hc) calls TypeInfoOwner.empty o
      (by intro t ti0 k ty ht; simp [TypeInfoOwner.empty, TypeInfoOwner.deref] at ht) h
  · intro hself hne
    simp [TypeInfo.SetItem, hself, hne]
  · intro hself hown
    have hset : TypeInfo.SetItem o self key value = .value (o.store self
        { ti with
          dict_ := fun k => if k = key then some value.CloneToUnique else ti.dict_ k }) := by
      simp [TypeInfo.SetItem, hself, hown]
    refine ⟨_, _, hset, TypeInfoOwner.deref_store_same _ (TypeInfoOwner.deref_lt hself),
      by simp, rfl, ?_, rfl, rfl, ?_, ?_⟩
    · intro k hk; simp [hk]
    · intro u hu
      exact TypeInfoOwner.deref_store_other o _ (Ne.symm hu)
    · intro hP
      exact TypeInfoOwner.OwnedKeys_after (c := Call.SetItem self key value) hP hset

/-- Witness of C13 on the example owner: a type for a node of module 7 is stored on the
root, a type for a node of module 8 trips the check. -/
theorem SetItem_keeps_ownership_witness :
    TypeInfoOwner.history (exampleCalls ++ [Call.SetItem 0 exampleNode exampleBits])
      = .value exampleOwnerTyped ∧
    exampleOwnerTyped.OwnedKeys ∧
    TypeInfo.SetItem exampleOwner 0 ⟨1, 8⟩ exampleBits
      = .check_failure .OwnershipViolation :=
  have hhist : TypeInfoOwner.history
      (exampleCalls ++ [Call.SetItem 0 exampleNode exampleBits])
      = .value exampleOwnerTyped := rfl
  ⟨hhist,
    (SetItem_keeps_ownership (exampleCalls ++ [Call.SetItem 0 exampleNode exampleBits])
      exampleOwnerTyped 0 (TypeInfo.init 7 none) ⟨1, 8⟩ exampleBits).1 hhist,
    (SetItem_keeps_ownership [] exampleOwner 0 (TypeInfo.init 7 none) ⟨1, 8⟩
      exampleBits).2.1 rfl (by decide)⟩

/-! ## The registered roots along a history -/

theorem TypeInfoOwner.afterAll_append (o : TypeInfoOwner) (pre post : List Call) :
    o.afterAll (pre ++ post) = (o.afterAll pre).andThen fun o0 => o0.afterAll post := by
  induction pre generalizing o with
  | nil => rfl
  | cons c cs ih =>
    simp only [List.cons_append, TypeInfoOwner.afterAll]
    cases o.after c with
    | value o1 => exact ih o1
    | status e => rfl
    | check_failure e => rfl
    | undefined => rfl

theorem TypeInfoOwner.root_kept_after {o o1 : TypeInfoOwner} {c : Call} {M : ModulePtr}
    {t : TypeInfoPtr} (hroot : o.module_to_root_ M = some t) (h : o.after c = .value o1) :
    o1.module_to_root_ M = some t := by
  rcases TypeInfoOwner.after_value h with hsame | ⟨M1, parent, -, -, hnew⟩ |
    ⟨u, ti, ti1, -, -, ho1, -, -, -⟩
  · rw [hsame]; exact hroot
  · obtain ⟨-, -, hother, hnone, hsome⟩ := TypeInfoOwner.New_value hnew
    cases parent with
    | some p => rw [hsome p rfl]; exact hroot
    | none =>
      by_cases hM : M = M1
      · subst hM
        rw [(hnone rfl).1] at hroot
        cases hroot
      · rw [hother M hM]; exact hroot
  · rw [ho1]; exact hroot

theorem TypeInfoOwner.no_root_after {o o1 : TypeInfoOwner} {c : Call} {M : ModulePtr}
    (hroot : o.module_to_root_ M = none) (h : o.after c = .value o1)
    (hnot : c = Call.New M none → ∀ r, o.New M none ≠ .value r) :
    o1.module_to_root_ M = none := by
  rcases TypeInfoOwner.after_value h with hsame | ⟨M1, parent, hc, -, hnew⟩ |
    ⟨u, ti, ti1, -, -, ho1, -, -, -⟩
  · rw [hsame]; exact hroot
  · obtain ⟨-, -, hother, -, hsome⟩ := TypeInfoOwner.New_value hnew
    cases parent with
    | some p => rw [hsome p rfl]; exact hroot
    | none =>
      by_cases hM : M = M1
      · subst hM
        exact absurd hnew (hnot hc _)
      · rw [hother M hM]; exact hroot
  · rw [ho1]; exact hroot

theorem TypeInfoOwner.no_root_afterAll {M : ModulePtr} :
    ∀ (cs : List Call) (o o1 : TypeInfoOwner), o.afterAll cs = .value o1 →
      o.module_to_root_ M = none →
      (∀ pre post o0, cs = pre ++ Call.New M none :: post → o.afterAll pre = .value o0 →
        ∀ r, o0.New M none ≠ .value r) →
      o1.module_to_root_ M = none := by
  intro cs
  induction cs with
  | nil =>
    intro o o1 h hroot _
    simp only [TypeInfoOwner.afterAll, Outcome.value.injEq] at h
    rw [← h]; exact hroot
  | cons c cs ih =>
    intro o o1 h hroot hnot
    simp only [TypeInfoOwner.afterAll] at h
    cases hc : o.after c with
    | value o2 =>
      rw [hc] at h
      have hroot2 : o2.module_to_root_ M = none := by
        apply TypeInfoOwner.no_root_after hroot hc
        intro hnew r
        exact hnot [] cs o (by rw [hnew]; rfl) rfl r
      apply ih o2 o1 h hroot2
      intro pre post o0 hsplit hpre r
      refine hnot (c :: pre) post o0 (by rw [hsplit]; rfl) ?_ r
      simp only [TypeInfoOwner.afterAll, hc]
      exact hpre
    | status e => rw [hc] at h; cases h
    | check_failure e => rw [hc] at h; cases h
    | undefined => rw [hc] at h; cases h

theorem TypeInfoOwner.root_of_history {calls pre post : List Call}
    {o o0 o1 : TypeInfoOwner} {M : ModulePtr} {t : TypeInfoPtr}
    (h : TypeInfoOwner.history calls = .value o)
    (hsplit : calls = pre ++ Call.New M none :: post)
    (hpre : TypeInfoOwner.history pre = .value o0)
    (hnew : o0.New M none = .value (t, o1)) : o.module_to_root_ M = some t := by
  unfold TypeInfoOwner.history at h hpre
  rw [hsplit, TypeInfoOwner.afterAll_append, hpre] at h
  simp only [Outcome.andThen, TypeInfoOwner.afterAll, TypeInfoOwner.after, hnew] at h
  have hroot1 : o1.module_to_root_ M = some t := ((TypeInfoOwner.New_value hnew).2.2.2.1 rfl).2
  exact TypeInfoOwner.afterAll_invariant (fun x => x.module_to_root_ M = some t)
    (fun _ _ _ hP hc => TypeInfoOwner.root_kept_after hP hc) post o1 o hroot1 h

/-- C14: `GetRootTypeInfo(M)` along a history of calls, and `New` with a parent. In the
owner a history leaves, `GetRootTypeInfo(M)` is not-found exactly when no `New(M)` without
parent succeeded in the history, and it returns the node that a successful such call
returned. `New(M, p)` with a parent always returns: a node at an address that held no
object before, with every other address as before and `GetRootTypeInfo` unchanged for
every module. -/
theorem GetRootTypeInfo_along_history (calls : List Call) (o : TypeInfoOwner)
    (M : ModulePtr) (p : TypeInfoPtr) :
    (TypeInfoOwner.history calls = .value o →
      (o.GetRootTypeInfo M = .status .NotFound ↔
        ∀ pre post o0, calls = pre ++ Call.New M none :: post →
          TypeInfoOwner.history pre = .value o0 → ∀ r, o0.New M none ≠ .value r) ∧
      (∀ pre post o0 t o1, calls = pre ++ Call.New M none :: post →
        TypeInfoOwner.history pre = .value o0 → o0.New M none = .value (t, o1) →
        o.GetRootTypeInfo M = .value t)) ∧
    (∃ t o1, o.New M (some p) = .value (t, o1) ∧ o.deref t = none ∧
      o1.deref t = some (TypeInfo.init M (some p)) ∧
      (∀ u, u ≠ t → o1.deref u = o.deref u) ∧
      ∀ M1, o1.GetRootTypeInfo M1 = o.GetRootTypeInfo M1) := by
  constructor
  · intro h
    have hfound : ∀ pre post o0 t o1, calls = pre ++ Call.New M none :: post →
        TypeInfoOwner.history pre = .value o0 → o0.New M none = .value (t, o1) →
        o.GetRootTypeInfo M = .value t := by
      intro pre post o0 t o1 hsplit hpre hnew
      simp [TypeInfoOwner.GetRootTypeInfo,
        TypeInfoOwner.root_of_history h hsplit hpre hnew]
    refine ⟨?_, hfound⟩
    constructor
    · intro hnot pre post o0 hsplit hpre r hnew
      rw [hfound pre post o0 r.1 r.2 hsplit hpre hnew] at hnot
      cases hnot
    · intro hnever
      have hnone : o.module_to_root_ M = none :=
        TypeInfoOwner.no_root_afterAll calls TypeInfoOwner.empty o h rfl hnever
      simp [TypeInfoOwner.GetRootTypeInfo, hnone]
  · have hnew : o.New M (some p) = .value (o.type_infos_.length,
        { o with type_infos_ := o.type_infos_ ++ [TypeInfo.init M (some p)] }) := rfl
    obtain ⟨-, happ, -, -, hroots⟩ := TypeInfoOwner.New_value hnew
    refine ⟨_, _, hnew, ?_, ?_, ?_, ?_⟩
    · simp [TypeInfoOwner.deref]
    · rw [TypeInfoOwner.deref_append happ]; simp
    · intro u hu
      rw [TypeInfoOwner.deref_append happ, if_neg hu]
    · intro M1
      simp only [TypeInfoOwner.GetRootTypeInfo]

/-- Witness of C14 on the example calls: module 7 has the root 0, module 8 has none, and
`New(7, 0)` on the example owner returns the new node 2. -/
theorem GetRootTypeInfo_along_history_witness :
    exampleOwner.GetRootTypeInfo 7 = .value 0 ∧
    exampleOwner.GetRootTypeInfo 8 = .status .NotFound ∧
    ∃ o1, exampleOwner.New 7 (some 0) = .value (2, o1) ∧
      o1.GetRootTypeInfo 7 = .value 0 :=
  have h := fun M => (GetRootTypeInfo_along_history exampleCalls exampleOwner M 0).1 rfl
  ⟨(h 7).2 [] [Call.New 7 (some 0)] TypeInfoOwner.empty 0 _ rfl rfl rfl,
    rfl, _, rfl, rfl⟩

/-! ## Invocation bindings: what is recorded is found, and nothing else -/

theorem TypeInfoOwner.afterAll_invariant_calls (P : List Call → TypeInfoOwner → Prop)
    (hstep : ∀ pre o c o1, P pre o → o.after c = .value o1 → P (pre ++ [c]) o1) :
    ∀ (cs pre : List Call) (o o1 : TypeInfoOwner), P pre o → o.afterAll cs = .value o1 →
      P (pre ++ cs) o1 := by
  intro cs
  induction cs with
  | nil =>
    intro pre o o1 hP h
    simp only [TypeInfoOwner.afterAll, Outcome.value.injEq] at h
    rw [← h, List.append_nil]; exact hP
  | cons c cs ih =>
    intro pre o o1 hP h
    simp only [TypeInfoOwner.afterAll] at h
    cases hc : o.after c with
    | value o2 =>
      rw [hc] at h
      have := ih (pre ++ [c]) o2 o1 (hstep pre o c o2 hP hc) h
      rwa [List.append_assoc, List.singleton_append] at this
    | status e => rw [hc] at h; cases h
    | check_failure e => rw [hc] at h; cases h
    | undefined => rw [hc] at h; cases h

theorem TypeInfoOwner.RecordedBy_mono {pre : List Call} {o : TypeInfoOwner} (c : Call)
    (hP : TypeInfoOwner.RecordedBy pre o) : TypeInfoOwner.RecordedBy (pre ++ [c]) o := by
  intro top root inv data env callee htop hinv henv
  obtain ⟨self, f, hmem⟩ := hP top root inv data env callee htop hinv henv
  exact ⟨self, f, List.mem_append_left _ hmem⟩

theorem TypeInfoOwner.RecordedBy_after {pre : List Call} {o o1 : TypeInfoOwner} {c : Call}
    (hP : TypeInfoOwner.RecordedBy pre o) (h : o.after c = .value o1) :
    TypeInfoOwner.RecordedBy (pre ++ [c]) o1 := by
  have hmono := TypeInfoOwner.RecordedBy_mono c hP
  cases c with
  | New M parent =>
    rcases TypeInfoOwner.after_value h with hsame | ⟨M1, parent1, -, -, hnew⟩ |
      ⟨t, ti, ti1, hnot, -, -, -, -, -⟩
    · rw [hsame]; exact hmono
    · obtain ⟨-, happ, -, -, -⟩ := TypeInfoOwner.New_value hnew
      intro top root inv data env callee htop hinv henv
      rw [TypeInfoOwner.deref_append happ top] at htop
      by_cases hlast : top = o.type_infos_.length
      · rw [if_pos hlast] at htop
        cases htop
        simp [TypeInfo.init] at hinv
      · rw [if_neg hlast] at htop
        exact hmono top root inv data env callee htop hinv henv
    · exact absurd rfl (hnot M parent)
  | SetItem self key value =>
    obtain ⟨ti, hself, -, ho1⟩ := TypeInfo.SetItem_value_exists h
    intro top root inv data env callee htop hinv henv
    rw [ho1, TypeInfoOwner.deref_store o _ (TypeInfoOwner.deref_lt hself) top] at htop
    by_cases hts : top = self
    · rw [if_pos hts] at htop
      cases htop
      exact hmono self ti inv data env callee hself hinv henv
    · rw [if_neg hts] at htop
      exact hmono top root inv data env callee htop hinv henv
  | NoteConstExpr self const_expr value =>
    obtain ⟨ti, hself, ho1⟩ := TypeInfo.NoteConstExpr_value h
    intro top root inv data env callee htop hinv henv
    rw [ho1, TypeInfoOwner.deref_store o _ (TypeInfoOwner.deref_lt hself) top] at htop
    by_cases hts : top = self
    · rw [if_pos hts] at htop
      cases htop
      exact hmono self ti inv data env callee hself hinv henv
    · rw [if_neg hts] at htop
      exact hmono top root inv data env callee htop hinv henv
  | AddInvocationTypeInfo self invocation caller caller_env callee_env derived =>
    obtain ⟨top0, root0, root1, data1, -, htop0, ho1, -, hentry, -, hpair, hrest, hother⟩ :=
      TypeInfo.AddInvocationTypeInfo_value h
    intro top root inv data env callee htop hinv henv
    rw [ho1, TypeInfoOwner.deref_store o _ (TypeInfoOwner.deref_lt htop0) top] at htop
    by_cases hts : top = top0
    · rw [if_pos hts] at htop
      cases htop
      by_cases hi : inv = invocation
      · subst hi
        rw [hentry] at hinv
        cases hinv
        by_cases he : env = caller_env
        · subst he
          rw [hpair] at henv
          cases henv
          exact ⟨self, caller, List.mem_append_right _ (List.mem_singleton.mpr rfl)⟩
        · rw [hrest env he] at henv
          cases hold : root0.invocations_ inv with
          | none => rw [hold] at henv; cases henv
          | some old =>
            rw [hold] at henv
            exact hmono top0 root0 inv old env callee htop0 hold henv
      · rw [hother inv hi] at hinv
        exact hmono top0 root0 inv data env callee htop0 hinv henv
    · rw [if_neg hts] at htop
      exact hmono top root inv data env callee htop hinv henv

theorem TypeInfoOwner.RecordedBy_history {calls : List Call} {o : TypeInfoOwner}
    (h : TypeInfoOwner.history calls = .value o) : TypeInfoOwner.RecordedBy calls o := by
  have := TypeInfoOwner.afterAll_invariant_calls TypeInfoOwner.RecordedBy
    (fun _ _ _ _ hP hc => TypeInfoOwner.RecordedBy_after hP hc) calls []
    TypeInfoOwner.empty o
    (by intro top root inv data env callee htop
        simp [TypeInfoOwner.empty, TypeInfoOwner.deref] at htop) h
  simpa using this

namespace TypeInfo

theorem GetRootInvocations_of_root {o : TypeInfoOwner} {t r : TypeInfoPtr} {root : TypeInfo}
    (hr : GetRoot o t = .value r) (hroot : o.deref r = some root) :
    GetRootInvocations o t = .value root.invocations_ := by
  obtain ⟨root1, hroot1, hnone, -⟩ := GetRootFuel_value _ t r hr
  rw [hroot] at hroot1
  cases hroot1
  have hrr : GetRoot o r = .value r := GetRoot_of_root hroot hnone
  unfold GetRootInvocations invocations IsRoot
  rw [hr]
  simp only [Outcome.andThen, hrr, decide_True, if_true, hroot]

theorem GetRootFuel_not_status {o : TypeInfoOwner} (e : ErrorKind) :
    ∀ (fuel : Nat) (t : TypeInfoPtr), GetRootFuel o fuel t ≠ .status e := by
  intro fuel
  induction fuel with
  | zero => intro t h; simp [GetRootFuel] at h
  | succ k ih =>
    intro t h
    cases hself : o.deref t with
    | none => simp [GetRootFuel, hself] at h
    | some ti =>
      cases hparent : ti.parent_ with
      | none => simp [GetRootFuel, hself, hparent] at h
      | some p =>
        simp only [GetRootFuel, hself, hparent] at h
        exact ih p h

theorem GetRootInvocations_not_status {o : TypeInfoOwner} (t : TypeInfoPtr)
    (e : ErrorKind) : GetRootInvocations o t ≠ .status e := by
  intro h
  unfold GetRootInvocations at h
  cases hr : GetRoot o t with
  | status e1 => exact GetRootFuel_not_status e1 _ t hr
  | check_failure e1 => rw [hr] at h; cases h
  | undefined => rw [hr] at h; cases h
  | value r =>
    rw [hr] at h
    simp only [Outcome.andThen] at h
    unfold invocations IsRoot at h
    cases hrr : GetRoot o r with
    | status e1 => exact GetRootFuel_not_status e1 _ r hrr
    | check_failure e1 => rw [hrr] at h; cases h
    | undefined => rw [hrr] at h; cases h
    | value r2 =>
      rw [hrr] at h
      simp only [Outcome.andThen] at h
      split at h
      · cases hd : o.deref r with
        | none => rw [hd] at h; cases h
        | some ti => rw [hd] at h; cases h
      · cases h

end TypeInfo

namespace TypeInfo

/-- C15: invocation binding round trip. After `AddInvocationTypeInfo(inv, f, caller_env,
callee_env, d)` has returned, every node of the same tree gets `d` from
`GetInvocationTypeInfo(inv, caller_env)` and from the error-returning variant, and
`callee_env` from `GetInvocationCalleeBindings(inv, caller_env)`. In the owner a history
of calls leaves, a pair that no call of the history recorded is absent for both queries
from every node. The error-returning variant is NotFound exactly when
`GetInvocationTypeInfo` has no value, and returns a node exactly when that is its value. -/
theorem invocation_binding_round_trip (o o1 : TypeInfoOwner) (self self2 : TypeInfoPtr)
    (inv : NodeId) (f : Option FunctionPtr) (caller_env callee_env : ParametricEnv)
    (d : TypeInfoPtr)
    (hfirst : AddInvocationTypeInfo o self inv f caller_env callee_env d = .value o1)
    (htree : GetRoot o self2 = GetRoot o self) :
    (GetInvocationTypeInfo o1 self2 inv caller_env = .value (some d) ∧
      GetInvocationTypeInfoOrError o1 self2 inv caller_env = .value d ∧
      GetInvocationCalleeBindings o1 self2 inv caller_env = .value (some callee_env)) ∧
    (∀ (calls : List Call) (h : TypeInfoOwner) (t : TypeInfoPtr) (i : NodeId)
        (env : ParametricEnv),
      TypeInfoOwner.history calls = .value h → t < h.type_infos_.length →
      (∀ s g ke dti, Call.AddInvocationTypeInfo s i g env ke dti ∉ calls) →
      GetInvocationTypeInfo h t i env = .value none ∧
      GetInvocationCalleeBindings h t i env = .value none ∧
      GetInvocationTypeInfoOrError h t i env = .status .NotFound) ∧
    (∀ (h : TypeInfoOwner) (t : TypeInfoPtr) (i : NodeId) (env : ParametricEnv),
      (GetInvocationTypeInfoOrError h t i env = .status .NotFound ↔
        GetInvocationTypeInfo h t i env = .value none) ∧
      ∀ ti, GetInvocationTypeInfoOrError h t i env = .value ti ↔
        GetInvocationTypeInfo h t i env = .value (some ti)) := by
  refine ⟨?_, ?_, ?_⟩
  · obtain ⟨top, root, root1, data, hroot, htop, ho1, hparent, hentry, -, hpair, -, -⟩ :=
      AddInvocationTypeInfo_value hfirst
    have hroot2 : GetRoot o1 self2 = .value top := by
      rw [ho1, GetRoot_store htop hparent, htree, hroot]
    have htop1 : o1.deref top = some root1 := by
      rw [ho1]; exact TypeInfoOwner.deref_store_same _ (TypeInfoOwner.deref_lt htop)
    have hinvs := GetRootInvocations_of_root hroot2 htop1
    have hfound : GetInvocationTypeInfo o1 self2 inv caller_env = .value (some d) := by
      simp [GetInvocationTypeInfo, hinvs, Outcome.andThen, hentry, hpair]
    refine ⟨hfound, ?_, ?_⟩
    · simp [GetInvocationTypeInfoOrError, hfound, Outcome.andThen]
    · simp [GetInvocationCalleeBindings, hinvs, Outcome.andThen, hentry, hpair]
  · intro calls h t i env hhist ht hnever
    have hP := TypeInfoOwner.ParentsPrecede_history hhist
    obtain ⟨r, hr⟩ := GetRoot_returns_of_acyclic (AcyclicChain_of_ParentsPrecede hP ht)
    obtain ⟨root, hroot, -, -⟩ := GetRootFuel_value _ t r hr
    have hinvs := GetRootInvocations_of_root hr hroot
    have habsent : (root.invocations_ i).bind
        (fun data => data.env_to_callee_data env) = none := by
      cases hentry : root.invocations_ i with
      | none => rfl
      | some data =>
        cases hpair : data.env_to_callee_data env with
        | none => simp [hpair]
        | some callee =>
          obtain ⟨s, g, hmem⟩ := TypeInfoOwner.RecordedBy_history hhist r root i data env
            callee hroot hentry hpair
          exact absurd hmem (hnever s g _ _)
    have hfound : GetInvocationTypeInfo h t i env = .value none := by
      simp only [GetInvocationTypeInfo, hinvs, Outcome.andThen, Outcome.value.injEq]
      cases hentry : root.invocations_ i with
      | none => rfl
      | some data =>
        rw [hentry] at habsent
        simp only [Option.some_bind] at habsent ⊢
        rw [habsent]; rfl
    refine ⟨hfound, ?_, ?_⟩
    · simp only [GetInvocationCalleeBindings, hinvs, Outcome.andThen, Outcome.value.injEq]
      cases hentry : root.invocations_ i with
      | none => rfl
      | some data =>
        rw [hentry] at habsent
        simp only [Option.some_bind] at habsent ⊢
        rw [habsent]; rfl
    · simp [GetInvocationTypeInfoOrError, hfound, Outcome.andThen]
  · intro h t i env
    unfold GetInvocationTypeInfoOrError
    cases hq : GetInvocationTypeInfo h t i env with
    | value found =>
      cases found with
      | none => simp [Outcome.andThen]
      | some ti0 => simp [Outcome.andThen]
    | status e =>
      exfalso
      unfold GetInvocationTypeInfo at hq
      cases hinvs : GetRootInvocations h t with
      | value invs => rw [hinvs] at hq; cases hq
      | status e1 => exact GetRootInvocations_not_status t e1 hinvs
      | check_failure e1 => rw [hinvs] at hq; cases hq
      | undefined => rw [hinvs] at hq; cases hq
    | check_failure e => simp [Outcome.andThen]
    | undefined => simp [Outcome.andThen]

/-- Witness of C15 on the example owner: the invocation 5, recorded from the derived
node with caller bindings `[]`, is found from the root; the invocation 6, which no call
recorded, is absent. -/
theorem invocation_binding_round_trip_witness :
    GetInvocationTypeInfo exampleOwnerInvoked 0 5 [] = .value (some 1) ∧
    GetInvocationCalleeBindings exampleOwnerInvoked 0 5 [] = .value (some [("N", 8)]) ∧
    TypeInfoOwner.history exampleCallsInvoked = .value exampleOwnerInvoked ∧
    GetInvocationTypeInfo exampleOwnerInvoked 1 6 [] = .value none ∧
    GetInvocationTypeInfoOrError exampleOwnerInvoked 1 6 [] = .status .NotFound :=
  have h := invocation_binding_round_trip exampleOwner exampleOwnerInvoked 1 0 5 (some 1) []
    [("N", 8)] 1 rfl rfl
  have hhist : TypeInfoOwner.history exampleCallsInvoked = .value exampleOwnerInvoked := rfl
  have habsent := h.2.1 exampleCallsInvoked exampleOwnerInvoked 1 6 [] hhist (by decide)
    (by intro s g ke dti hmem; simp [exampleCallsInvoked, exampleCalls] at hmem)
  ⟨h.1.1, h.1.2.2, hhist, habsent.1, habsent.2.2⟩

end TypeInfo

/-! ## Const-expr notes stay on the node they are made on -/

namespace TypeInfo

theorem delegated_store_unseen {β : Type} {o : TypeInfoOwner} {D : TypeInfoPtr}
    (d1 : TypeInfo) (here : TypeInfo → Option β) (absent : β) :
    ∀ (fuel : Nat) (x : TypeInfoPtr), D ∉ chain o fuel x →
      delegated (o.store D d1) here absent fuel x = delegated o here absent fuel x := by
  intro fuel
  induction fuel with
  | zero => intro x _; rfl
  | succ k ih =>
    intro x hx
    have hne : D ≠ x := by
      intro h
      apply hx
      rw [h]
      simp [chain]
    have hderef : (o.store D d1).deref x = o.deref x :=
      TypeInfoOwner.deref_store_other o d1 hne
    cases hself : o.deref x with
    | none => simp [delegated, hderef, hself]
    | some ti =>
      cases hlocal : here ti with
      | some b =>
        rw [delegated_here k (hderef.trans hself) hlocal, delegated_here k hself hlocal]
      | none =>
        cases hparent : ti.parent_ with
        | none =>
          rw [delegated_root k (hderef.trans hself) hlocal hparent,
            delegated_root k hself hlocal hparent]
        | some p =>
          rw [delegated_parent k (hderef.trans hself) hlocal hparent,
            delegated_parent k hself hlocal hparent]
          apply ih p
          intro hmem
          apply hx
          simp only [chain, hself, hparent]
          exact List.mem_cons_of_mem _ hmem

theorem chain_tail_lt {o : TypeInfoOwner} (hP : o.ParentsPrecede = true) :
    ∀ (fuel : Nat) (t x : TypeInfoPtr), x ∈ (chain o fuel t).tail → x < t := by
  intro fuel t x hx
  cases fuel with
  | zero => simp [chain] at hx
  | succ k =>
    cases hself : o.deref t with
    | none => simp [chain, hself] at hx
    | some ti =>
      cases hparent : ti.parent_ with
      | none => simp [chain, hself, hparent] at hx
      | some p =>
        simp only [chain, hself, hparent, List.tail_cons] at hx
        exact Nat.lt_of_le_of_lt (chain_le hP k p x hx)
          (TypeInfoOwner.parent_lt hP hself hparent)

theorem not_mem_chain_of_lt {o : TypeInfoOwner} (hP : o.ParentsPrecede = true)
    {x D : TypeInfoPtr} (hlt : x < D) (fuel : Nat) : D ∉ chain o fuel x := by
  intro hmem
  exact absurd (chain_le hP fuel x D hmem) (Nat.not_le_of_lt hlt)

/-- The three const-expr queries of a node whose parent chain does not meet `D` are not
changed by overwriting the object at `D`. -/
theorem const_queries_store_unseen {o : TypeInfoOwner} {D : TypeInfoPtr}
    (d1 : TypeInfo) {x : TypeInfoPtr}
    (hx : D ∉ chain o o.type_infos_.length x) (m : AstNodePtr) :
    IsKnownConstExpr (o.store D d1) x m = IsKnownConstExpr o x m ∧
    IsKnownNonConstExpr (o.store D d1) x m = IsKnownNonConstExpr o x m ∧
    GetConstExpr (o.store D d1) x m = GetConstExpr o x m := by
  refine ⟨?_, ?_, ?_⟩
  · unfold IsKnownConstExpr
    rw [TypeInfoOwner.length_store]
    exact delegated_store_unseen d1 _ _ _ x hx
  · unfold IsKnownNonConstExpr
    rw [TypeInfoOwner.length_store]
    exact delegated_store_unseen d1 _ _ _ x hx
  · unfold GetConstExpr
    rw [TypeInfoOwner.length_store, delegated_store_unseen d1 _ _ _ x hx]

/-- C16: const-expr notes are local to the node they are made on. On a heap whose
parents precede their children, `NoteConstExpr(n, v)` on `D` returns, makes
`D.IsKnownConstExpr(n)` true and `D.GetConstExpr(n)` return `v`, and leaves the answers of
`IsKnownConstExpr`, `IsKnownNonConstExpr` and `GetConstExpr`, for every AST node, as they
were on every proper ancestor of `D` (its parent `R` first) and on every other child `S`
of `R`. -/
theorem NoteConstExpr_is_local (o : TypeInfoOwner) (D : TypeInfoPtr) (d : TypeInfo)
    (n : AstNodePtr) (v : InterpValue) (hP : o.ParentsPrecede = true)
    (hD : o.deref D = some d) :
    ∃ o1, NoteConstExpr o D n v = .value o1 ∧
      IsKnownConstExpr o1 D n = .value true ∧
      IsKnownNonConstExpr o1 D n = .value false ∧
      GetConstExpr o1 D n = .value v ∧
      (∀ R, d.parent_ = some R → R ∈ (chain o o.type_infos_.length D).tail) ∧
      (∀ A m, A ∈ (chain o o.type_infos_.length D).tail →
        IsKnownConstExpr o1 A m = IsKnownConstExpr o A m ∧
        IsKnownNonConstExpr o1 A m = IsKnownNonConstExpr o A m ∧
        GetConstExpr o1 A m = GetConstExpr o A m) ∧
      (∀ R S s m, d.parent_ = some R → o.deref S = some s → s.parent_ = some R → S ≠ D →
        IsKnownConstExpr o1 S m = IsKnownConstExpr o S m ∧
        IsKnownNonConstExpr o1 S m = IsKnownNonConstExpr o S m ∧
        GetConstExpr o1 S m = GetConstExpr o S m) := by
  have hDlt := TypeInfoOwner.deref_lt hD
  have hnote : NoteConstExpr o D n v = .value (o.store D
      { d with
        const_exprs_ := fun key => if key = n then some (some v) else d.const_exprs_ key }) := by
    simp [NoteConstExpr, hD]
  have hD1 := TypeInfoOwner.deref_store_same
    { d with
      const_exprs_ := fun key => if key = n then some (some v) else d.const_exprs_ key } hDlt
  refine ⟨_, hnote, ?_, ?_, ?_, ?_, ?_, ?_⟩
  · exact delegated_of_local hD1 (by simp)
  · exact delegated_of_local hD1 (by simp)
  · unfold GetConstExpr
    rw [delegated_of_local hD1 (by simp : _ = some (some v))]
    rfl
  · intro R hR
    have hRlt : R < D := TypeInfoOwner.parent_lt hP hD hR
    have hRvalid : R < o.type_infos_.length := Nat.lt_trans hRlt hDlt
    obtain ⟨j, hj⟩ : ∃ j, o.type_infos_.length = j + 2 :=
      two_objects (Nat.ne_of_lt hRlt) hRvalid hDlt
    rw [hj]
    simp only [chain, hD, hR, List.tail_cons]
    cases o.deref R with
    | none => simp
    | some tr => simp
  · intro A m hA
    exact const_queries_store_unseen _
      (not_mem_chain_of_lt hP (chain_tail_lt hP _ D A hA) _) m
  · intro R S s m hR hS hSR hne
    apply const_queries_store_unseen _ _ m
    have hRlt : R < D := TypeInfoOwner.parent_lt hP hD hR
    obtain ⟨j, hj⟩ := Nat.exists_eq_succ_of_ne_zero
      (Nat.ne_of_gt (Nat.lt_of_le_of_lt (Nat.zero_le _) (TypeInfoOwner.deref_lt hS)))
    rw [hj]
    simp only [chain, hS, hSR, List.mem_cons, not_or]
    exact ⟨Ne.symm hne, not_mem_chain_of_lt hP hRlt j⟩

/-- Witness of C16 on a root with two derived nodes: a note made on the node 1 is read
back there, while the root and the sibling 2 still answer with the root's value 5. -/
theorem NoteConstExpr_is_local_witness :
    ∃ o1, NoteConstExpr exampleOwnerSiblings 1 exampleNode 9 = .value o1 ∧
      GetConstExpr o1 1 exampleNode = .value 9 ∧
      GetConstExpr o1 0 exampleNode = .value 5 ∧
      GetConstExpr o1 2 exampleNode = .value 5 := by
  obtain ⟨o1, hnote, -, -, hget, hR, hanc, hsib⟩ :=
    NoteConstExpr_is_local exampleOwnerSiblings 1 (TypeInfo.init 7 (some 0)) exampleNode 9
      (by decide) rfl
  refine ⟨o1, hnote, hget, ?_, ?_⟩
  · rw [(hanc 0 exampleNode (hR 0 rfl)).2.2]; rfl
  · rw [(hsib 0 2 (TypeInfo.init 7 (some 0)) exampleNode rfl rfl rfl (by decide)).2.2]; rfl

end TypeInfo

/-! ## The walk is the sequence of its visits -/

namespace PopulateInferenceTableVisitor

variable {σ : Type}

theorem runVisits_append (T : InferenceTable σ) (fit : SizedToFit) (a b : List Visit)
    (self : PopulateInferenceTableVisitor σ) :
    runVisits T fit (a ++ b) self =
      match runVisits T fit a self with
      | (.error e, self1) => (.error e, self1)
      | (.OkStatus, self1) => runVisits T fit b self1 := by
  induction a generalizing self with
  | nil => simp [runVisits]
  | cons v vs ih =>
    simp only [List.cons_append, runVisits]
    rcases hv : runVisit T fit v self with ⟨st, self1⟩
    cases st with
    | OkStatus => exact ih self1
    | error e => rfl

mutual

theorem Accept_eq_runVisits (T : InferenceTable σ) (fit : SizedToFit) :
    ∀ (node : AstNode) (self : PopulateInferenceTableVisitor σ),
      Accept T fit node self = runVisits T fit node.visits self
  | .ConstantDef addr identifier span name_def ta value children, self => by
    simp only [Accept, HandleConstantDef, AstNode.visits, runVisits, runVisit]
    rcases hrec : RecordConstantDef T self addr identifier span name_def ta value
      with ⟨st, self1⟩
    cases st with
    | OkStatus => exact DefaultHandler_eq_runVisits T fit children self1
    | error e => rfl
  | .ConstRef addr name_def, self => by
    simp only [Accept, HandleConstRef, AstNode.visits, runVisits, runVisit]
    rcases PropagateDefToRef T self addr name_def with ⟨st, self1⟩
    cases st <;> rfl
  | .NameRef addr name_def, self => by
    simp only [Accept, HandleNameRef, AstNode.visits, runVisits, runVisit]
    rcases PropagateDefToRef T self addr name_def with ⟨st, self1⟩
    cases st <;> rfl
  | .Number node, self => by
    simp only [Accept, AstNode.visits, runVisits, runVisit]
    rcases HandleNumber T fit self node with ⟨st, self1⟩
    cases st <;> rfl
  | .Other addr children, self => by
    simp only [Accept, AstNode.visits, runVisits, runVisit]
    exact DefaultHandler_eq_runVisits T fit children self

theorem DefaultHandler_eq_runVisits (T : InferenceTable σ) (fit : SizedToFit) :
    ∀ (children : List AstNode) (self : PopulateInferenceTableVisitor σ),
      DefaultHandler T fit children self = runVisits T fit (AstNode.visitsAll children) self
  | [], self => by
    simp [DefaultHandler, AstNode.visitsAll, runVisits]
  | child :: rest, self => by
    rw [DefaultHandler_cons, AstNode.visitsAll, runVisits_append,
      Accept_eq_runVisits T fit child self]
    rcases runVisits T fit child.visits self with ⟨st, self1⟩
    cases st with
    | OkStatus => exact DefaultHandler_eq_runVisits T fit rest self1
    | error e => rfl

end

end PopulateInferenceTableVisitor

/-! ## What one visit changes -/

namespace PopulateInferenceTableVisitor

variable {σ : Type}

theorem RecordConstantDef_effect {T : InferenceTable σ} (hT : T.Lawful)
    {self self1 : PopulateInferenceTableVisitor σ} {node : NodeId}
    {identifier span : String} {name_def : NodeId} {ta : Option TypeAnnotation}
    {value : NodeId}
    (h : RecordConstantDef T self node identifier span name_def ta value
      = (Status.OkStatus, self1)) :
    ∃ var t0,
      T.DefineInternalVariable self.table_ .kType node
        (GenerateInternalTypeVariableName identifier span) = (Except.ok var, t0) ∧
      T.GetTypeVariable self1.table_ name_def = some var ∧
      T.GetTypeVariable self1.table_ value = some var ∧
      (∀ m, m ∉ [node, name_def, value] →
        T.GetTypeVariable self1.table_ m = T.GetTypeVariable self.table_ m) ∧
      (∀ m, m ∉ (Visit.ConstantDef node identifier span name_def ta value).annTargets →
        T.GetTypeAnnotation self1.table_ m = T.GetTypeAnnotation self.table_ m) ∧
      (∀ a, ta = some a → T.GetTypeAnnotation self1.table_ name_def = some a) ∧
      self1.auto_literal_annotations_ = self.auto_literal_annotations_ := by
  obtain ⟨var, t0, t1, t2, t3, h0, h1, h2, h3, hta⟩ := RecordConstantDef_ok h
  have hv3 : T.GetTypeVariable t3 value = some var := hT.get_set_variable _ _ _ _ h3
  have hn3 : T.GetTypeVariable t3 name_def = some var := by
    by_cases hm : name_def = value
    · rw [hm]; exact hv3
    · rw [hT.set_variable_other _ _ _ _ _ h3 hm]
      exact hT.get_set_variable _ _ _ _ h2
  have hrest3 : ∀ m, m ∉ [node, name_def, value] →
      T.GetTypeVariable t3 m = T.GetTypeVariable self.table_ m := by
    intro m hm
    simp only [List.mem_cons, List.mem_singleton, not_or, List.not_mem_nil, or_false] at hm
    rw [hT.set_variable_other _ _ _ _ _ h3 hm.2.2, hT.set_variable_other _ _ _ _ _ h2 hm.2.1,
      hT.set_variable_other _ _ _ _ _ h1 hm.1, hT.define_variable _ _ _ _ _ _ _ h0]
  have hann3 : ∀ m, T.GetTypeAnnotation t3 m = T.GetTypeAnnotation self.table_ m := by
    intro m
    rw [hT.set_variable_annotation _ _ _ _ _ _ h3, hT.set_variable_annotation _ _ _ _ _ _ h2,
      hT.set_variable_annotation _ _ _ _ _ _ h1, hT.define_annotation _ _ _ _ _ _ _ h0]
  rcases hta with ⟨a, t4, hta, h4, hself1⟩ | ⟨hta, hself1⟩
  · have hvar4 : ∀ m, T.GetTypeVariable t4 m = T.GetTypeVariable t3 m :=
      fun m => hT.set_annotation_variable _ _ _ _ _ m h4
    refine ⟨var, t0, h0, ?_, ?_, ?_, ?_, ?_, ?_⟩
    · rw [hself1]; exact (hvar4 name_def).trans hn3
    · rw [hself1]; exact (hvar4 value).trans hv3
    · intro m hm
      rw [hself1]; exact (hvar4 m).trans (hrest3 m hm)
    · intro m hm
      rw [hta] at hm
      simp only [Visit.annTargets, List.mem_singleton] at hm
      rw [hself1]
      exact (hT.set_annotation_other _ _ _ _ m h4 hm).trans (hann3 m)
    · intro b hb
      rw [hta] at hb
      cases hb
      rw [hself1]; exact hT.get_set_annotation _ _ _ _ h4
    · rw [hself1]
  · refine ⟨var, t0, h0, ?_, ?_, ?_, ?_, ?_, ?_⟩
    · rw [hself1]; exact hn3
    · rw [hself1]; exact hv3
    · intro m hm
      rw [hself1]; exact hrest3 m hm
    · intro m _
      rw [hself1]; exact hann3 m
    · intro b hb
      rw [hta] at hb
      cases hb
    · rw [hself1]

theorem PropagateDefToRef_effect {T : InferenceTable σ} (hT : T.Lawful)
    {self self1 : PopulateInferenceTableVisitor σ} {ref name_def : NodeId}
    (h : PropagateDefToRef T self ref name_def = (Status.OkStatus, self1)) :
    (∀ m, T.GetTypeVariable self1.table_ m = T.GetTypeVariable self.table_ m) ∧
    (∀ m, m ≠ ref → T.GetTypeAnnotation self1.table_ m = T.GetTypeAnnotation self.table_ m) ∧
    (∀ var, T.GetTypeVariable self.table_ name_def = some var →
      T.GetTypeAnnotation self1.table_ ref
        = some ⟨self.module_.next_addr, .TypeVariable var⟩) ∧
    self1.auto_literal_annotations_ = self.auto_literal_annotations_ := by
  unfold PropagateDefToRef at h
  cases hvar : T.GetTypeVariable self.table_ name_def with
  | some var =>
    rw [hvar] at h
    simp only [Module.Make, Prod.mk.injEq] at h
    obtain ⟨hst, hself1⟩ := h
    have hset : T.SetTypeAnnotation self.table_ ref ⟨self.module_.next_addr, .TypeVariable var⟩
        = (Status.OkStatus, self1.table_) := by
      rw [← hself1]; exact Prod.ext hst rfl
    refine ⟨fun m => hT.set_annotation_variable _ _ _ _ _ m hset,
      fun m hm => hT.set_annotation_other _ _ _ _ m hset hm, ?_, by rw [← hself1]⟩
    intro v hv
    cases hv
    exact hT.get_set_annotation _ _ _ _ hset
  | none =>
    rw [hvar] at h
    cases hann : T.GetTypeAnnotation self.table_ name_def with
    | some a =>
      rw [hann] at h
      simp only [Prod.mk.injEq] at h
      obtain ⟨hst, hself1⟩ := h
      have hset : T.SetTypeAnnotation self.table_ ref a = (Status.OkStatus, self1.table_) := by
        rw [← hself1]; exact Prod.ext hst rfl
      refine ⟨fun m => hT.set_annotation_variable _ _ _ _ _ m hset,
        fun m hm => hT.set_annotation_other _ _ _ _ m hset hm, ?_, by rw [← hself1]⟩
      intro v hv
      cases hv
    | none =>
      rw [hann] at h
      simp only [Prod.mk.injEq, true_and] at h
      subst h
      exact ⟨fun _ => rfl, fun _ _ => rfl, fun v hv => Option.noConfusion hv, rfl⟩

theorem HandleNumber_effect {T : InferenceTable σ} (hT : T.Lawful) {fit : SizedToFit}
    {self self1 : PopulateInferenceTableVisitor σ} {node : Number}
    (h : HandleNumber T fit self node = (Status.OkStatus, self1)) :
    (∀ m, T.GetTypeVariable self1.table_ m = T.GetTypeVariable self.table_ m) ∧
    (∀ m, m ≠ node.addr →
      T.GetTypeAnnotation self1.table_ m = T.GetTypeAnnotation self.table_ m) ∧
    self.auto_literal_annotations_ ⊆ self1.auto_literal_annotations_ ∧
    (node.type_annotation = none → node.number_kind ≠ NumberKind.kBool →
      ∃ a, T.GetTypeAnnotation self1.table_ node.addr = some a ∧
        a ∈ self1.auto_literal_annotations_) := by
  unfold HandleNumber at h
  cases hta : node.type_annotation with
  | some a =>
    rw [hta] at h
    simp only [Prod.mk.injEq] at h
    obtain ⟨hst, hself1⟩ := h
    have hset : T.SetTypeAnnotation self.table_ node.addr a
        = (Status.OkStatus, self1.table_) := by
      rw [← hself1]; exact Prod.ext hst rfl
    refine ⟨fun m => hT.set_annotation_variable _ _ _ _ _ m hset,
      fun m hm => hT.set_annotation_other _ _ _ _ m hset hm, ?_, ?_⟩
    · rw [← hself1]
    · intro hnone; cases hnone
  | none =>
    rw [hta] at h
    rcases hfit : fit self.module_ node with ⟨r, m1⟩
    rw [hfit] at h
    cases r with
    | error e => simp at h
    | ok a =>
      simp only [Prod.mk.injEq] at h
      obtain ⟨hst, hself1⟩ := h
      have hset : T.SetTypeAnnotation self.table_ node.addr a
          = (Status.OkStatus, self1.table_) := by
        rw [← hself1]; exact Prod.ext hst rfl
      refine ⟨fun m => hT.set_annotation_variable _ _ _ _ _ m hset,
        fun m hm => hT.set_annotation_other _ _ _ _ m hset hm, ?_, ?_⟩
      · rw [← hself1]
        by_cases hkind : node.number_kind ≠ NumberKind.kBool
        · simp only [if_pos hkind]
          exact Finset.subset_insert _ _
        · simp only [if_neg hkind]
          exact Finset.Subset.refl _
      · intro _ hkind
        refine ⟨a, hT.get_set_annotation _ _ _ _ hset, ?_⟩
        rw [← hself1]
        simp only [if_pos hkind]
        exact Finset.mem_insert_self _ _

/-- A visit that returns OK leaves the type variable of every node it does not target,
the annotation of every node it does not target, and every auto annotation. -/
theorem runVisit_frame {T : InferenceTable σ} (hT : T.Lawful) {fit : SizedToFit}
    {v : Visit} {self self1 : PopulateInferenceTableVisitor σ}
    (h : runVisit T fit v self = (Status.OkStatus, self1)) :
    (∀ m, m ∉ v.varTargets →
      T.GetTypeVariable self1.table_ m = T.GetTypeVariable self.table_ m) ∧
    (∀ m, m ∉ v.annTargets →
      T.GetTypeAnnotation self1.table_ m = T.GetTypeAnnotation self.table_ m) ∧
    self.auto_literal_annotations_ ⊆ self1.auto_literal_annotations_ := by
  cases v with
  | ConstantDef addr identifier span name_def ta value =>
    obtain ⟨var, t0, -, -, -, hvar, hann, -, hauto⟩ := RecordConstantDef_effect hT h
    exact ⟨hvar, hann, by rw [hauto]⟩
  | Ref addr name_def =>
    obtain ⟨hvar, hann, -, hauto⟩ := PropagateDefToRef_effect hT h
    refine ⟨fun m _ => hvar m, ?_, by rw [hauto]⟩
    intro m hm
    exact hann m (by simpa [Visit.annTargets] using hm)
  | Number node =>
    obtain ⟨hvar, hann, hauto, -⟩ := HandleNumber_effect hT h
    refine ⟨fun m _ => hvar m, ?_, hauto⟩
    intro m hm
    exact hann m (by simpa [Visit.annTargets] using hm)
  | Other addr =>
    simp only [runVisit, Prod.mk.injEq, true_and] at h
    subst h
    exact ⟨fun _ _ => rfl, fun _ _ => rfl, Finset.Subset.refl _⟩

theorem runVisits_cons_ok {T : InferenceTable σ} {fit : SizedToFit} {v : Visit}
    {vs : List Visit} {self self2 : PopulateInferenceTableVisitor σ}
    (h : runVisits T fit (v :: vs) self = (Status.OkStatus, self2)) :
    ∃ self1, runVisit T fit v self = (Status.OkStatus, self1) ∧
      runVisits T fit vs self1 = (Status.OkStatus, self2) := by
  simp only [runVisits] at h
  rcases hv : runVisit T fit v self with ⟨st, self1⟩
  rw [hv] at h
  cases st with
  | OkStatus => exact ⟨self1, rfl, h⟩
  | error e => cases h

theorem runVisits_append_ok {T : InferenceTable σ} {fit : SizedToFit} {a b : List Visit}
    {self self2 : PopulateInferenceTableVisitor σ}
    (h : runVisits T fit (a ++ b) self = (Status.OkStatus, self2)) :
    ∃ self1, runVisits T fit a self = (Status.OkStatus, self1) ∧
      runVisits T fit b self1 = (Status.OkStatus, self2) := by
  rw [runVisits_append] at h
  rcases ha : runVisits T fit a self with ⟨st, self1⟩
  rw [ha] at h
  cases st with
  | OkStatus => exact ⟨self1, rfl, h⟩
  | error e => cases h

theorem runVisits_frame {T : InferenceTable σ} (hT : T.Lawful) {fit : SizedToFit} :
    ∀ (vs : List Visit) (self self1 : PopulateInferenceTableVisitor σ),
      runVisits T fit vs self = (Status.OkStatus, self1) →
      (∀ m, m ∉ Visit.varTargetsAll vs →
        T.GetTypeVariable self1.table_ m = T.GetTypeVariable self.table_ m) ∧
      (∀ m, m ∉ Visit.annTargetsAll vs →
        T.GetTypeAnnotation self1.table_ m = T.GetTypeAnnotation self.table_ m) ∧
      self.auto_literal_annotations_ ⊆ self1.auto_literal_annotations_ := by
  intro vs
  induction vs with
  | nil =>
    intro self self1 h
    simp only [runVisits, Prod.mk.injEq, true_and] at h
    subst h
    exact ⟨fun _ _ => rfl, fun _ _ => rfl, Finset.Subset.refl _⟩
  | cons v vs ih =>
    intro self self2 h
    obtain ⟨self1, hv, hvs⟩ := runVisits_cons_ok h
    obtain ⟨hvar1, hann1, hauto1⟩ := runVisit_frame hT hv
    obtain ⟨hvar2, hann2, hauto2⟩ := ih self1 self2 hvs
    refine ⟨?_, ?_, Finset.Subset.trans hauto1 hauto2⟩
    · intro m hm
      simp only [Visit.varTargetsAll, List.mem_append, not_or] at hm
      exact (hvar2 m hm.2).trans (hvar1 m hm.1)
    · intro m hm
      simp only [Visit.annTargetsAll, List.mem_append, not_or] at hm
      exact (hann2 m hm.2).trans (hann1 m hm.1)

theorem varTargetsAll_append (a b : List Visit) :
    Visit.varTargetsAll (a ++ b) = Visit.varTargetsAll a ++ Visit.varTargetsAll b := by
  induction a with
  | nil => rfl
  | cons v vs ih => simp [Visit.varTargetsAll, ih]

theorem annTargetsAll_append (a b : List Visit) :
    Visit.annTargetsAll (a ++ b) = Visit.annTargetsAll a ++ Visit.annTargetsAll b := by
  induction a with
  | nil => rfl
  | cons v vs ih => simp [Visit.annTargetsAll, ih]

end PopulateInferenceTableVisitor

/-! ## A definition visited before a reference to it -/

/-- In a list without repetition that starts with three nodes, the second and the third
do not come again. -/
theorem not_mem_rest_of_nodup {a b c : NodeId} {l : List NodeId}
    (h : ([a, b, c] ++ l).Nodup) : b ∉ l ∧ c ∉ l := by
  simp only [List.cons_append, List.nil_append, List.nodup_cons, List.mem_cons, not_or] at h
  exact ⟨h.2.1.2, h.2.2.1⟩

namespace PopulateInferenceTableVisitor

variable {σ : Type}

/-- A literal with no written type that is not boolean, visited in a walk that returns
OK and sets no annotation twice, ends with an annotation that is an auto annotation. -/
theorem number_annotated_at_end {T : InferenceTable σ} (hT : T.Lawful) {fit : SizedToFit}
    {visits : List Visit} {self0 self_end : PopulateInferenceTableVisitor σ} {n : Number}
    (hrun : runVisits T fit visits self0 = (Status.OkStatus, self_end))
    (hann : (Visit.annTargetsAll visits).Nodup) (hmem : Visit.Number n ∈ visits)
    (hnone : n.type_annotation = none) (hkind : n.number_kind ≠ NumberKind.kBool) :
    ∃ a, T.GetTypeAnnotation self_end.table_ n.addr = some a ∧
      a ∈ self_end.auto_literal_annotations_ := by
  obtain ⟨A, B, hAB⟩ := List.append_of_mem hmem
  rw [hAB] at hrun hann
  obtain ⟨sA, -, hrest⟩ := runVisits_append_ok hrun
  obtain ⟨sn, hn, hB⟩ := runVisits_cons_ok hrest
  obtain ⟨-, -, -, hset⟩ := HandleNumber_effect hT hn
  obtain ⟨a, ha, hauto⟩ := hset hnone hkind
  obtain ⟨-, hannB, hautoB⟩ := runVisits_frame hT B sn self_end hB
  rw [annTargetsAll_append] at hann
  have hsuffix : (n.addr :: Visit.annTargetsAll B).Nodup := List.Nodup.of_append_right hann
  have hnot : n.addr ∉ Visit.annTargetsAll B := (List.nodup_cons.mp hsuffix).1
  exact ⟨a, (hannB n.addr hnot).trans ha, hautoB hauto⟩

/-- C20: whole-walk interplay. Take a walk from `root` that returns OK, in which the
definition `const X [: T] = e` is visited before a reference `ref` to `X`, every node
having its own address (no type variable and no annotation is set twice by the walk).
Then at the end `ref` carries a `TypeVariableTypeAnnotation` naming the variable that the
table defined at the definition, which is also the variable of `X`'s name definition and
of `e`; when `T` is present it is the annotation of the name definition and `ref`'s
annotation is not `T`; and when `e` is a visited literal with no written type that is
not boolean, `e` carries an annotation that is a member of the auto-annotation set. -/
theorem Accept_reference_after_definition (T : InferenceTable σ) (hT : T.Lawful)
    (fit : SizedToFit) (root : AstNode) (self0 self_end : PopulateInferenceTableVisitor σ)
    (pre mid post : List Visit) (d : NodeId) (identifier span : String) (nd : NodeId)
    (ta : Option TypeAnnotation) (e ref : NodeId)
    (hok : Accept T fit root self0 = (Status.OkStatus, self_end))
    (hvisits : root.visits =
      pre ++ Visit.ConstantDef d identifier span nd ta e :: (mid ++ Visit.Ref ref nd :: post))
    (hvar : (Visit.varTargetsAll root.visits).Nodup)
    (hann : (Visit.annTargetsAll root.visits).Nodup) :
    ∃ var s_pre t0 a,
      runVisits T fit pre self0 = (Status.OkStatus, s_pre) ∧
      T.DefineInternalVariable s_pre.table_ .kType d
        (GenerateInternalTypeVariableName identifier span) = (Except.ok var, t0) ∧
      T.GetTypeVariable self_end.table_ nd = some var ∧
      T.GetTypeVariable self_end.table_ e = some var ∧
      T.GetTypeAnnotation self_end.table_ ref = some a ∧
      a.shape = AnnotationShape.TypeVariable var ∧
      (∀ T0, ta = some T0 →
        T.GetTypeAnnotation self_end.table_ nd = some T0 ∧
        ((∀ v, T0.shape ≠ AnnotationShape.TypeVariable v) → a ≠ T0)) ∧
      (∀ n, Visit.Number n ∈ root.visits → n.addr = e → n.type_annotation = none →
        n.number_kind ≠ NumberKind.kBool →
        ∃ a1, T.GetTypeAnnotation self_end.table_ e = some a1 ∧
          a1 ∈ self_end.auto_literal_annotations_) := by
  have hrun : runVisits T fit root.visits self0 = (Status.OkStatus, self_end) := by
    rw [← Accept_eq_runVisits]; exact hok
  have hrun0 := hrun
  have hann0 := hann
  rw [hvisits] at hrun hvar hann
  -- the states along the walk
  obtain ⟨s_pre, hpre, hrest⟩ := runVisits_append_ok hrun
  obtain ⟨s_D, hD, hafter⟩ := runVisits_cons_ok hrest
  obtain ⟨s_mid, hmid, hrefpost⟩ := runVisits_append_ok hafter
  obtain ⟨s_R, hR, hpost⟩ := runVisits_cons_ok hrefpost
  -- no later visit targets the name definition or the value
  rw [varTargetsAll_append] at hvar
  have hvar1 : ([d, nd, e] ++ Visit.varTargetsAll (mid ++ Visit.Ref ref nd :: post)).Nodup :=
    List.Nodup.of_append_right hvar
  obtain ⟨hnd, he⟩ := not_mem_rest_of_nodup hvar1
  have hnd_mid : nd ∉ Visit.varTargetsAll mid := by
    intro hmem
    apply hnd
    rw [varTargetsAll_append]
    exact List.mem_append_left _ hmem
  rw [annTargetsAll_append] at hann
  have hann1 : ((Visit.ConstantDef d identifier span nd ta e).annTargets ++
      Visit.annTargetsAll (mid ++ Visit.Ref ref nd :: post)).Nodup :=
    List.Nodup.of_append_right hann
  have hann2 : (Visit.annTargetsAll (mid ++ Visit.Ref ref nd :: post)).Nodup :=
    List.Nodup.of_append_right hann1
  rw [annTargetsAll_append] at hann2
  have hann3 : (ref :: Visit.annTargetsAll post).Nodup := List.Nodup.of_append_right hann2
  have href_post : ref ∉ Visit.annTargetsAll post := (List.nodup_cons.mp hann3).1
  -- the visits one by one
  obtain ⟨var, t0, hdef, hndD, heD, -, -, htaD, -⟩ := RecordConstantDef_effect hT hD
  obtain ⟨hvar_after, hann_after, -⟩ := runVisits_frame hT _ s_D self_end hafter
  obtain ⟨hvar_mid, -, -⟩ := runVisits_frame hT mid s_D s_mid hmid
  obtain ⟨-, -, hrefR, -⟩ := PropagateDefToRef_effect hT hR
  obtain ⟨-, hann_post, -⟩ := runVisits_frame hT post s_R self_end hpost
  have hnd_at_mid : T.GetTypeVariable s_mid.table_ nd = some var :=
    (hvar_mid nd hnd_mid).trans hndD
  have href_end : T.GetTypeAnnotation self_end.table_ ref
      = some ⟨s_mid.module_.next_addr, .TypeVariable var⟩ :=
    (hann_post ref href_post).trans (hrefR var hnd_at_mid)
  refine ⟨var, s_pre, t0, ⟨s_mid.module_.next_addr, .TypeVariable var⟩, hpre, hdef,
    (hvar_after nd hnd).trans hndD, (hvar_after e he).trans heD, href_end, rfl, ?_, ?_⟩
  · intro T0 hT0
    constructor
    · have hnot : nd ∉ Visit.annTargetsAll (mid ++ Visit.Ref ref nd :: post) := by
        rw [hT0] at hann1
        exact (List.nodup_cons.mp hann1).1
      exact (hann_after nd hnot).trans (htaD T0 hT0)
    · intro hshape heq
      exact hshape var (by rw [← heq])
  · intro n hmem haddr hnone hkind
    obtain ⟨a1, ha1, hauto⟩ := number_annotated_at_end hT hrun0 hann0 hmem hnone hkind
    exact ⟨a1, by rw [← haddr]; exact ha1, hauto⟩

/-- Witness of C20 on the example module `const X: T = 255`, a reference to `X`, `true`:
at the end of the walk the reference (node 4) carries a new annotation referring to the
variable 0, not `T`; the name definition (node 2) carries `T`; and the literal (node 3)
carries the variable 0 and its sized-to-fit annotation, which is the one auto
annotation. -/
theorem Accept_reference_after_definition_witness :
    ∃ self_end,
      Accept TableState.ops CreateAnnotationSizedToFit exampleModuleNode exampleVisitor
        = (Status.OkStatus, self_end) ∧
      self_end.table_.annotations 4 = some ⟨101, .TypeVariable 0⟩ ∧
      self_end.table_.annotations 2 = some exampleDeclared ∧
      self_end.table_.type_variable 3 = some 0 ∧
      self_end.table_.annotations 3 = some ⟨100, .SizedToFit false 8⟩ ∧
      (∃ var a, TableState.ops.GetTypeAnnotation self_end.table_ 4 = some a ∧
        a.shape = AnnotationShape.TypeVariable var ∧
        TableState.ops.GetTypeVariable self_end.table_ 3 = some var ∧
        ∃ a1, TableState.ops.GetTypeAnnotation self_end.table_ 3 = some a1 ∧
          a1 ∈ self_end.auto_literal_annotations_) := by
  refine ⟨(Accept TableState.ops CreateAnnotationSizedToFit exampleModuleNode
    exampleVisitor).2, Prod.ext (by decide) rfl, rfl, rfl, rfl, rfl, ?_⟩
  obtain ⟨var, -, -, a, -, -, -, he, href, hshape, -, hlit⟩ :=
    Accept_reference_after_definition TableState.ops TableState.ops_lawful
      CreateAnnotationSizedToFit exampleModuleNode exampleVisitor
      (Accept TableState.ops CreateAnnotationSizedToFit exampleModuleNode exampleVisitor).2
      [.Other 0] [.Other 2, .Other 50, .Number exampleLiteral] [.Number exampleTrue]
      1 "X" "1:1" 2 (some exampleDeclared) 3 4
      (Prod.ext (by decide) rfl) rfl (by decide) (by decide)
  exact ⟨var, a, href, hshape, he,
    hlit exampleLiteral (by simp [exampleModuleNode, exampleConstantDef, AstNode.visits,
      AstNode.visitsAll]) rfl rfl (by decide)⟩

end PopulateInferenceTableVisitor

end xls.dslx

/-! ## The lowering pipeline -/

namespace mlir.xls

/-- C21: `XlsLowerPassPipeline` adds exactly twelve passes after the passes the manager
already holds, which stay as they were, in this order: proc elaboration, scf-to-xls,
canonicalizer, arith-to-xls, math-to-xls, scalarize, canonicalizer, index-type
conversion, lower-counted-for, CSE, normalize-xls-calls, expand-macro-ops. -/
theorem XlsLowerPassPipeline_appends_twelve {P : Type} (F : PassFactories P)
    (pm : OpPassManager P) :
    (XlsLowerPassPipeline F pm).passes = pm.passes ++
      [F.createProcElaborationPass, F.createScfToXlsPass, F.createCanonicalizerPass,
        F.createArithToXlsPass, F.createMathToXlsPass, F.createScalarizePass,
        F.createCanonicalizerPass, F.createIndexTypeConversionPass,
        F.createLowerCountedForPass, F.createCSEPass, F.createNormalizeXlsCallsPass,
        F.createExpandMacroOpsPass] ∧
    (XlsLowerPassPipeline F pm).passes.length = pm.passes.length + 12 ∧
    (XlsLowerPassPipeline F pm).passes.take pm.passes.length = pm.passes ∧
    (XlsLowerPassPipeline F pm).passes.drop pm.passes.length =
      [F.createProcElaborationPass, F.createScfToXlsPass, F.createCanonicalizerPass,
        F.createArithToXlsPass, F.createMathToXlsPass, F.createScalarizePass,
        F.createCanonicalizerPass, F.createIndexTypeConversionPass,
        F.createLowerCountedForPass, F.createCSEPass, F.createNormalizeXlsCallsPass,
        F.createExpandMacroOpsPass] := by
  have hlist : (XlsLowerPassPipeline F pm).passes = pm.passes ++
      [F.createProcElaborationPass, F.createScfToXlsPass, F.createCanonicalizerPass,
        F.createArithToXlsPass, F.createMathToXlsPass, F.createScalarizePass,
        F.createCanonicalizerPass, F.createIndexTypeConversionPass,
        F.createLowerCountedForPass, F.createCSEPass, F.createNormalizeXlsCallsPass,
        F.createExpandMacroOpsPass] := by
    simp [XlsLowerPassPipeline, OpPassManager.addPass]
  refine ⟨hlist, ?_, ?_, ?_⟩
  · rw [hlist, List.length_append]
    rfl
  · rw [hlist, List.take_left]
  · rw [hlist, List.drop_left]

/-- Witness of C21: on a manager that holds an inliner and a canonicalizer the pipeline
leaves these two in front and adds its twelve passes, fourteen passes in all. -/
theorem XlsLowerPassPipeline_appends_twelve_witness :
    (XlsLowerPassPipeline PassKind.factories examplePassManager).passes =
      [.Inliner, .Canonicalizer, .ProcElaboration, .ScfToXls, .Canonicalizer, .ArithToXls,
        .MathToXls, .Scalarize, .Canonicalizer, .IndexTypeConversion, .LowerCountedFor,
        .CSE, .NormalizeXlsCalls, .ExpandMacroOps] ∧
    (XlsLowerPassPipeline PassKind.factories examplePassManager).passes.length = 14 :=
  have h := XlsLowerPassPipeline_appends_twelve PassKind.factories examplePassManager
  ⟨h.1, h.2.1⟩

end mlir.xls
